import Mathlib

/-!
# libde265: prediction-block motion decision and the picture buffer

A shallow embedding of `libde265/encoder/algo/pb-mv.cc` (the two `analyze`
strategies and `sad`) and of `libde265/image.c` (the picture buffer), followed
by theorems about them.

Conventions of the embedding

* C `int` values are mathematical integers (`Int`); signed overflow is
  undefined in C, so only runs without overflow are described. `/` and `%`
  on `int` are `Int.tdiv` and `Int.tmod` (truncation toward zero), `a << n`
  is `a * 2 ^ n`.
* A `uint8_t` sample is a `Fin 256`; in arithmetic it is promoted to `int`
  through `.val` first, as C does.
* A pointer is an address (`Int`), `NULL` is `0`; sample memory is a total map
  from addresses to samples.
* `for` loops are left folds over the list of values of the loop variable.
* Calls of functions that live outside the two source files are recorded in a
  call trace, oldest call first, and their results are taken from the context.
* `rand()` returns a value of `[0, RAND_MAX]`; `RAND_MAX` belongs to the C
  library, so it is a parameter of the theorems that depend on it.
-/

namespace Libde265

/-! ## Data model -/

/-- Byte-addressed sample memory: the target of every `uint8_t*`. -/
abbrev Memory := Int → Fin 256

/-- The null pointer. -/
def NULL : Int := 0

/-- Chroma formats of `enum de265_chroma`. -/
inductive de265_chroma where
  | de265_chroma_mono
  | de265_chroma_420
  | de265_chroma_422
  | de265_chroma_444
deriving DecidableEq

/-- Modelled from the spec: the constant `UnusedForReference` is declared in
`image.h`; the spec only says the state is "marked unused for reference". -/
def UnusedForReference : Int := 0

/-- The fields of `de265_image` that `image.c` reads or writes (the mutex and
the condition variable are left out). -/
structure de265_image where
  y_mem : Int
  y : Int
  cb_mem : Int
  cb : Int
  cr_mem : Int
  cr : Int
  width : Int
  height : Int
  chroma_width : Int
  chroma_height : Int
  stride : Int
  chroma_stride : Int
  border : Int
  chroma_format : de265_chroma
  intraPredModeSize : Int
  intraPredMode : Int
  cb_info_size : Int
  cb_info : Int
  pb_info_size : Int
  pb_info_stride : Int
  pb_info : Int
  tasks_pending : Int
  picture_order_cnt_lsb : Int
  PicOrderCntVal : Int
  PicState : Int

/-- The fields of `seq_parameter_set` used by the two source files. -/
structure seq_parameter_set where
  PicWidthInMinPUs : Int
  PicHeightInMinPUs : Int
  PicSizeInMinCbsY : Int
  PicWidthInMinCbsY : Int
  PicHeightInMinCbsY : Int
  Log2MinCbSizeY : Int
  max_transform_hierarchy_depth_inter : Int
deriving DecidableEq

/-- Element types of the metadata arrays that `de265_alloc_image` allocates
with `malloc(sizeof(elem) * n)`. -/
inductive ElemType where
  | uint8_t
  | CB_ref_info
  | PB_ref_info
deriving DecidableEq

/-- One call into the C allocator made by `image.c`. -/
inductive MemCall where
  | FREE_ALIGNED (mem : Int)
  | ALLOC_ALIGNED_16 (size : Int) (result : Int)
  | free (mem : Int)
  | malloc (n : Int) (elem : ElemType) (result : Int)
deriving DecidableEq

/-- The allocator as seen by the program: `answers k` is the address that the
`k`-th allocation request returns, `count` the number of requests so far and
`calls` every allocator call so far, oldest first. -/
structure Heap where
  answers : Nat → Int
  count : Nat
  calls : List MemCall

/-- `MotionVector`: signed quarter-sample displacement. -/
structure MotionVector where
  x : Int
  y : Int
deriving DecidableEq

/-- `PredVectorInfo`: the arrays `predFlag[2]`, `refIdx[2]` and `mv[2]`, one
field per element. -/
structure PredVectorInfo where
  predFlag_0 : Int
  predFlag_1 : Int
  refIdx_0 : Int
  refIdx_1 : Int
  mv_0 : MotionVector
  mv_1 : MotionVector
deriving DecidableEq

/-- Values of `inter_pred_idc`. -/
inductive InterPredIdc where
  | PRED_L0
  | PRED_L1
  | PRED_BI
deriving DecidableEq

/-- `motion_spec`: the motion syntax element; `mvd_l_c` is `mvd[l][c]`. -/
structure motion_spec where
  merge_flag : Int
  merge_idx : Int
  inter_pred_idc : InterPredIdc
  refIdx_0 : Int
  refIdx_1 : Int
  mvp_l0_flag : Int
  mvp_l1_flag : Int
  mvd_0_0 : Int
  mvd_0_1 : Int
  mvd_1_0 : Int
  mvd_1_1 : Int
deriving DecidableEq

/-- One slot `cb->inter.pb[i]`. -/
structure enc_pb_inter where
  spec : motion_spec
  motion : PredVectorInfo
deriving DecidableEq

/-- The fields of `enc_cb` used by `pb-mv.cc`; `pb` is `inter.pb` and
`rqt_root_cbf` is `inter.rqt_root_cbf`. -/
structure enc_cb where
  x : Int
  y : Int
  log2Size : Int
  pb : Fin 4 → enc_pb_inter
  rqt_root_cbf : Int
  distortion : Int
  rate : Int

/-- Test patterns of `enum MVTestMode`. -/
inductive MVTestMode where
  | MVTestMode_Zero
  | MVTestMode_Random
  | MVTestMode_Horizontal
  | MVTestMode_Vertical
deriving DecidableEq

/-- One call that `analyze` makes to a function outside `pb-mv.cc`, or to
`sad`, with its arguments. -/
inductive Call where
  | fill_luma_motion_vector_predictors
      (xC yC nCS xP yP nPbW nPbH l refIdx partIdx : Int)
  | sad (p1 stride1 p2 stride2 w h : Int)
  | set_mv_info (x y w h : Int) (mv : PredVectorInfo)
  | generate_inter_prediction_samples
      (xC yC xB yB nCS nPbW nPbH : Int) (vi : PredVectorInfo)
  | compute_distortion_ssd (x0 y0 log2Size cIdx : Int)
deriving DecidableEq

/-- What `analyze` reaches through `ectx`: the sample memory, the working
picture `img`, `imgdata->input`, `imgdata->frame_number`, the reference store
`get_image`, `sps`, and the results of the external collaborators
(`fill_luma_motion_vector_predictors` returns the array `mvp[2]` as a pair,
`generate_inter_prediction_samples` returns the sample memory it leaves,
`rand k` is the value of the `k`-th call of `rand()`). -/
structure encoder_context where
  mem : Memory
  img : de265_image
  input : de265_image
  frame_number : Int
  get_image : Int → de265_image
  sps : seq_parameter_set
  fill_luma_motion_vector_predictors :
    (xC yC nCS xP yP nPbW nPbH l refIdx partIdx : Int) → MotionVector × MotionVector
  generate_inter_prediction_samples :
    Memory → (xC yC xB yB nCS nPbW nPbH : Int) → PredVectorInfo → Memory
  rand : Nat → Int

/-- What an `analyze` call leaves behind: the coding block it returns, the
sample memory, and the calls it made. -/
structure AnalyzeResult where
  cb : enc_cb
  mem : Memory
  calls : List Call

/-- The members of `Algo_PB_MV_Test`: `mParams.testMode()`, `mParams.range()`
and `mCodeResidual`. -/
structure Algo_PB_MV_Test where
  testMode : MVTestMode
  range : Int
  mCodeResidual : Bool
deriving DecidableEq

/-- The members of `Algo_PB_MV_Search`: `mParams.hrange()`, `mParams.vrange()`
and `mCodeResidual`. -/
structure Algo_PB_MV_Search where
  hrange : Int
  vrange : Int
  mCodeResidual : Bool
deriving DecidableEq

/-! ## Integer helpers -/

/-- `a << n` on `int`. -/
def shiftLeft (a : Int) (n : Nat) : Int := a * 2 ^ n

/-- Modelled from the spec: `abs_value` is declared in `util.h`; the spec calls
the summand of the cost "the absolute difference". -/
def abs_value (a : Int) : Int := if a < 0 then -a else a

/-- The values `lo, lo+1, ..., hi` of a loop `for (v = lo; v <= hi; v++)`. -/
def intRange (lo hi : Int) : List Int :=
  (List.range (hi + 1 - lo).toNat).map (fun (k : Nat) => lo + (k : Int))

/-! ## image.c -/

/-- The constant `alignment` of `image.c`. -/
def alignment : Int := 16

/-- `FREE_ALIGNED(mem)`. -/
def Heap.FREE_ALIGNED (hp : Heap) (mem : Int) : Heap :=
  { hp with calls := hp.calls ++ [MemCall.FREE_ALIGNED mem] }

/-- `ALLOC_ALIGNED_16(size)`: the address returned and the allocator after it. -/
def Heap.ALLOC_ALIGNED_16 (hp : Heap) (size : Int) : Int × Heap :=
  (hp.answers hp.count,
   { hp with count := hp.count + 1,
             calls := hp.calls ++ [MemCall.ALLOC_ALIGNED_16 size (hp.answers hp.count)] })

/-- `free(mem)`. -/
def Heap.free (hp : Heap) (mem : Int) : Heap :=
  { hp with calls := hp.calls ++ [MemCall.free mem] }

/-- `malloc(sizeof(elem) * n)`: the address returned and the allocator after it. -/
def Heap.malloc (hp : Heap) (n : Int) (elem : ElemType) : Int × Heap :=
  (hp.answers hp.count,
   { hp with count := hp.count + 1,
             calls := hp.calls ++ [MemCall.malloc n elem (hp.answers hp.count)] })

/-- `de265_init_image`: `memset` to zero, then the three assignments. -/
def de265_init_image : de265_image :=
  { y_mem := 0, y := 0, cb_mem := 0, cb := 0, cr_mem := 0, cr := 0,
    width := 0, height := 0, chroma_width := 0, chroma_height := 0,
    stride := 0, chroma_stride := 0, border := 0,
    chroma_format := de265_chroma.de265_chroma_mono,
    intraPredModeSize := 0, intraPredMode := 0,
    cb_info_size := 0, cb_info := 0,
    pb_info_size := 0, pb_info_stride := 0, pb_info := 0,
    tasks_pending := 0,
    picture_order_cnt_lsb := -1,
    PicOrderCntVal := -1,
    PicState := UnusedForReference }

/-- The first half of `de265_alloc_image` (lines 62-107): allocate the image
buffer or reuse the old one. -/
def alloc_image_buffer (img : de265_image) (w h : Int) (c : de265_chroma)
    (hp : Heap) : de265_image × Heap :=
  let border : Int := 0
  if img.width ≠ w ∨ img.height ≠ h ∨ img.chroma_format ≠ c ∨ img.border ≠ border then
    let chroma_width := w
    let chroma_height := h
    let chroma_width :=
      if c = de265_chroma.de265_chroma_420 then Int.tdiv (chroma_width + 1) 2 else chroma_width
    let chroma_height :=
      if c = de265_chroma.de265_chroma_420 then Int.tdiv (chroma_height + 1) 2 else chroma_height
    let chroma_height :=
      if c = de265_chroma.de265_chroma_422 then Int.tdiv (chroma_height + 1) 2 else chroma_height
    let img := { img with
      stride := Int.tdiv (w + 2 * border + alignment - 1) alignment * alignment,
      chroma_stride := Int.tdiv (chroma_width + 2 * border + alignment - 1) alignment * alignment }
    let img := { img with
      width := w, height := h, border := border,
      chroma_width := chroma_width, chroma_height := chroma_height,
      chroma_format := c }
    let hp := hp.FREE_ALIGNED img.y_mem
    let a := hp.ALLOC_ALIGNED_16 (img.stride * (h + 2 * border))
    let hp := a.2
    let img := { img with y_mem := a.1 }
    let img := { img with y := img.y_mem + border + 2 * border * img.stride }
    if c ≠ de265_chroma.de265_chroma_mono then
      let hp := hp.FREE_ALIGNED img.cb_mem
      let hp := hp.FREE_ALIGNED img.cr_mem
      let a := hp.ALLOC_ALIGNED_16 (img.chroma_stride * (chroma_height + 2 * border))
      let hp := a.2
      let img := { img with cb_mem := a.1 }
      let a := hp.ALLOC_ALIGNED_16 (img.chroma_stride * (chroma_height + 2 * border))
      let hp := a.2
      let img := { img with cr_mem := a.1 }
      let img := { img with cb := img.cb_mem + border + 2 * border * img.chroma_stride }
      let img := { img with cr := img.cr_mem + border + 2 * border * img.chroma_stride }
      (img, hp)
    else
      ({ img with cb_mem := NULL, cr_mem := NULL, cb := NULL, cr := NULL }, hp)
  else
    (img, hp)

/-- The second half of `de265_alloc_image` (lines 109-145), for a non-null
`sps`: allocate the decoding info arrays. -/
def alloc_image_info (img : de265_image) (sps : seq_parameter_set)
    (hp : Heap) : de265_image × Heap :=
  -- intra pred mode
  let intraPredModeSize := sps.PicWidthInMinPUs * sps.PicHeightInMinPUs
  let (img, hp) :=
    if intraPredModeSize ≠ img.intraPredModeSize then
      let img := { img with intraPredModeSize := intraPredModeSize }
      let hp := hp.free img.intraPredMode
      let a := hp.malloc intraPredModeSize ElemType.uint8_t
      ({ img with intraPredMode := a.1 }, a.2)
    else (img, hp)
  -- cb info
  let (img, hp) :=
    if img.cb_info_size ≠ sps.PicSizeInMinCbsY ∨ img.cb_info = NULL then
      let img := { img with cb_info_size := sps.PicSizeInMinCbsY }
      let hp := hp.free img.cb_info
      let a := hp.malloc img.cb_info_size ElemType.CB_ref_info
      ({ img with cb_info := a.1 }, a.2)
    else (img, hp)
  -- pu info
  let puWidth := shiftLeft sps.PicWidthInMinCbsY (sps.Log2MinCbSizeY - 2).toNat
  let puHeight := shiftLeft sps.PicHeightInMinCbsY (sps.Log2MinCbSizeY - 2).toNat
  if img.pb_info_size ≠ puWidth * puHeight ∨ img.pb_info = NULL then
    let img := { img with pb_info_size := puWidth * puHeight, pb_info_stride := puWidth }
    let hp := hp.free img.pb_info
    let a := hp.malloc img.pb_info_size ElemType.PB_ref_info
    ({ img with pb_info := a.1 }, a.2)
  else (img, hp)

/-- `de265_alloc_image(img, w, h, c, sps)`; a null `sps` is `none`. -/
def de265_alloc_image (img : de265_image) (w h : Int) (c : de265_chroma)
    (sps : Option seq_parameter_set) (hp : Heap) : de265_image × Heap :=
  let r := alloc_image_buffer img w h c hp
  match sps with
  | some sps => alloc_image_info r.1 sps r.2
  | none => r

/-- `get_image_plane(img, cIdx, &image, &stride)`: the pair written to
`*image` and `*stride`. -/
def get_image_plane (img : de265_image) (cIdx : Int) : Int × Int :=
  if cIdx = 0 then (img.y, img.stride)
  else if cIdx = 1 then (img.cb, img.chroma_stride)
  else if cIdx = 2 then (img.cr, img.chroma_stride)
  else (NULL, 0)

/-- Modelled from the spec: the accessor `get_width` of the picture is declared
outside the source files; the picture "owns a luma plane" of this width. -/
def de265_image.get_width (img : de265_image) : Int := img.width

/-- Modelled from the spec: the accessor `get_height` of the picture is
declared outside the source files. -/
def de265_image.get_height (img : de265_image) : Int := img.height

/-- Modelled from the spec: the accessor `get_image_stride` is declared outside
the source files; "plane/stride accessors", channel 0 is luma. -/
def de265_image.get_image_stride (img : de265_image) (cIdx : Int) : Int :=
  (get_image_plane img cIdx).2

/-- Modelled from the spec: the accessor `get_image_plane_at_pos` is declared
outside the source files; "each plane is a row-major byte buffer with its own
stride", so sample `(xpos, ypos)` is at `plane + xpos + ypos * stride`. -/
def de265_image.get_image_plane_at_pos (img : de265_image) (cIdx xpos ypos : Int) : Int :=
  (get_image_plane img cIdx).1 + xpos + ypos * (get_image_plane img cIdx).2

/-- The conversion of an `int` to `unsigned char` that `memset` applies to its
value argument. -/
def to_uint8 (c : Int) : Fin 256 := ⟨(c % 256).toNat, by omega⟩

/-- `memset(s, c, n)`: the `n` bytes from address `s` on hold `(unsigned char)c`. -/
def memset (mem : Memory) (s c n : Int) : Memory :=
  fun a => if s ≤ a ∧ a < s + n then to_uint8 c else mem a

/-- `memcpy(dest, src, n)`: the `n` bytes from address `dest` on hold what the
`n` bytes from address `src` on held before the call. -/
def memcpy (mem : Memory) (dest src n : Int) : Memory :=
  fun a => if dest ≤ a ∧ a < dest + n then mem (src + (a - dest)) else mem a

/-- `de265_fill_image(img, y, cb, cr)`: the sample memory it leaves. -/
def de265_fill_image (mem : Memory) (img : de265_image) (y cb cr : Int) : Memory :=
  let mem :=
    if y ≥ 0 then memset mem img.y_mem y (img.stride * (img.height + 2 * img.border))
    else mem
  let mem :=
    if cb ≥ 0 then
      memset mem img.cb_mem cb (img.chroma_stride * (img.chroma_height + 2 * img.border))
    else mem
  if cr ≥ 0 then
    memset mem img.cr_mem cr (img.chroma_stride * (img.chroma_height + 2 * img.border))
  else mem

/-- `de265_copy_image(dest, src)`: the sample memory it leaves. -/
def de265_copy_image (mem : Memory) (dest src : de265_image) : Memory :=
  let mem := (List.range src.height.toNat).foldl (fun (m : Memory) (y : Nat) =>
    memcpy m (dest.y + (y : Int) * dest.stride) (src.y + (y : Int) * src.stride) src.width) mem
  if src.chroma_format ≠ de265_chroma.de265_chroma_mono then
    (List.range src.chroma_height.toNat).foldl (fun (m : Memory) (y : Nat) =>
      let m := memcpy m (dest.cb + (y : Int) * dest.chroma_stride)
        (src.cb + (y : Int) * src.chroma_stride) src.chroma_width
      memcpy m (dest.cr + (y : Int) * dest.chroma_stride)
        (src.cr + (y : Int) * src.chroma_stride) src.chroma_width) mem
  else mem

/-- `increase_pending_tasks(img, n)`: `de265_sync_add_and_fetch` on
`tasks_pending`, as one sequential step. -/
def increase_pending_tasks (img : de265_image) (n : Int) : de265_image :=
  { img with tasks_pending := img.tasks_pending + n }

/-- `decrease_pending_tasks(img, n)`: `de265_sync_sub_and_fetch` on
`tasks_pending`, as one sequential step; `none` when `assert(pending >= 0)`
fails, otherwise the picture and whether `de265_cond_broadcast` was called. -/
def decrease_pending_tasks (img : de265_image) (n : Int) : Option (de265_image × Bool) :=
  let pending := img.tasks_pending - n
  let img := { img with tasks_pending := pending }
  if pending ≥ 0 then
    some (img, decide (pending = 0))
  else none

/-- `wait_for_completion(img)`: the loop `while (img->tasks_pending>0)
de265_cond_wait(...)`. `wakeups` lists the values that the other threads have
left in `tasks_pending` each time `de265_cond_wait` returns. The result is the
number of calls of `de265_cond_wait` and the picture at the return, or `none`
when the loop is still waiting after the last wake-up. -/
def wait_for_completion (img : de265_image) : List Int → Option (Nat × de265_image)
  | [] => if img.tasks_pending > 0 then none else some (0, img)
  | v :: wakeups =>
    if img.tasks_pending > 0 then
      (wait_for_completion { img with tasks_pending := v } wakeups).map
        (fun r => (r.1 + 1, r.2))
    else some (0, img)

/-! ## encoder/algo/pb-mv.cc -/

/-- Modelled from the spec: `compute_distortion_ssd` is declared outside the
source files; it is the "sum over all samples in the block of the squared
difference between the original source picture and the current working picture
at the same position", the block being the square of side `1 << log2Size` at
`(x0, y0)` of plane `cIdx`. -/
def compute_distortion_ssd (mem : Memory) (img1 img2 : de265_image)
    (x0 y0 log2Size cIdx : Int) : Int :=
  let n := (shiftLeft 1 log2Size.toNat).toNat
  (List.range n).foldl (fun (acc : Int) (dy : Nat) =>
    (List.range n).foldl (fun (acc : Int) (dx : Nat) =>
      let a : Int := (mem (img1.get_image_plane_at_pos cIdx (x0 + dx) (y0 + dy))).val
      let b : Int := (mem (img2.get_image_plane_at_pos cIdx (x0 + dx) (y0 + dy))).val
      acc + (a - b) * (a - b)) acc) 0

/-- The local variables of `sad`, and the pairs of addresses `(p1, p2)` it has
dereferenced so far, oldest first. -/
structure SadState where
  cost : Int
  p1 : Int
  p2 : Int
  reads : List (Int × Int)

/-- One iteration of the inner loop of `sad` (lines 149-151). -/
def sad_inner (mem : Memory) (s : SadState) (_x : Nat) : SadState :=
  { cost := s.cost + abs_value (((mem s.p1).val : Int) - ((mem s.p2).val : Int)),
    p1 := s.p1 + 1,
    p2 := s.p2 + 1,
    reads := s.reads ++ [(s.p1, s.p2)] }

/-- One iteration of the outer loop of `sad` (lines 148-155). -/
def sad_row (mem : Memory) (stride1 stride2 w : Int) (s : SadState) (_y : Nat) : SadState :=
  let s := (List.range w.toNat).foldl (sad_inner mem) s
  { s with p1 := s.p1 + (stride1 - w), p2 := s.p2 + (stride2 - w) }

/-- The state in which `sad(p1, stride1, p2, stride2, w, h)` returns. -/
def sad_run (mem : Memory) (p1 stride1 p2 stride2 w h : Int) : SadState :=
  (List.range h.toNat).foldl (sad_row mem stride1 stride2 w) ⟨0, p1, p2, []⟩

/-- `sad(p1, stride1, p2, stride2, w, h)`: the value returned. -/
def sad (mem : Memory) (p1 stride1 p2 stride2 w h : Int) : Int :=
  (sad_run mem p1 stride1 p2 stride2 w h).cost

/-- The switch on `testMode` of `Algo_PB_MV_Test::analyze` (lines 64-84). -/
def test_pattern (testMode : MVTestMode) (value : Int) (rand : Nat → Int)
    (spec : motion_spec) : motion_spec :=
  match testMode with
  | MVTestMode.MVTestMode_Zero =>
    { spec with mvd_0_0 := 0, mvd_0_1 := 0 }
  | MVTestMode.MVTestMode_Random =>
    { spec with mvd_0_0 := Int.tmod (rand 0) (2 * value + 1) - value,
                mvd_0_1 := Int.tmod (rand 1) (2 * value + 1) - value }
  | MVTestMode.MVTestMode_Horizontal =>
    { spec with mvd_0_0 := value, mvd_0_1 := 0 }
  | MVTestMode.MVTestMode_Vertical =>
    { spec with mvd_0_0 := 0, mvd_0_1 := value }

/-- The tail shared by both `analyze` functions (lines 86-135 and 219-272):
subtract the predictor, rebuild the vector, commit it, synthesise the
prediction and annotate the coding block. `pbW`, `pbH` are the last two
arguments of `analyze`; `calls` are the calls made so far. An `assert(false)`
that is reached gives `none`. -/
def commit_and_annotate (mCodeResidual : Bool) (ectx : encoder_context) (cb : enc_cb)
    (PBidx : Fin 4) (x y pbW pbH : Int) (mvp : MotionVector × MotionVector)
    (spec : motion_spec) (vec : PredVectorInfo) (calls : List Call) :
    Option AnalyzeResult :=
  let spec := { spec with mvd_0_0 := spec.mvd_0_0 - mvp.1.x }
  let spec := { spec with mvd_0_1 := spec.mvd_0_1 - mvp.1.y }
  let vec := { vec with mv_0 := { vec.mv_0 with x := mvp.1.x + spec.mvd_0_0 } }
  let vec := { vec with mv_0 := { vec.mv_0 with y := mvp.1.y + spec.mvd_0_1 } }
  let vec := { vec with predFlag_0 := 1 }
  let vec := { vec with predFlag_1 := 0 }
  let cb := { cb with pb := Function.update cb.pb PBidx ⟨spec, vec⟩ }
  let calls := calls ++ [Call.set_mv_info x y pbW pbH vec]
  let nCS := shiftLeft 1 cb.log2Size.toNat
  let mem := ectx.generate_inter_prediction_samples ectx.mem cb.x cb.y 0 0 nCS nCS nCS vec
  let calls := calls ++ [Call.generate_inter_prediction_samples cb.x cb.y 0 0 nCS nCS nCS vec]
  if mCodeResidual then
    none
  else
    let input := ectx.input
    let img := ectx.img
    let x0 := cb.x
    let y0 := cb.y
    let cb := { cb with distortion := compute_distortion_ssd mem input img x0 y0 cb.log2Size 0 }
    let calls := calls ++ [Call.compute_distortion_ssd x0 y0 cb.log2Size 0]
    let cb := { cb with rate := 5 }
    let cb := { cb with rqt_root_cbf := 0 }
    some ⟨cb, mem, calls⟩

/-- `Algo_PB_MV_Test::analyze(ectx, ctxModel, cb, PBidx, x, y, w, h)`. -/
def Algo_PB_MV_Test.analyze (self : Algo_PB_MV_Test) (ectx : encoder_context)
    (cb : enc_cb) (PBidx : Fin 4) (x y w h : Int) : Option AnalyzeResult :=
  let testMode := self.testMode
  let nCS := shiftLeft 1 cb.log2Size.toNat
  let mvp := ectx.fill_luma_motion_vector_predictors cb.x cb.y nCS x y w h 0 0 0
  let calls := [Call.fill_luma_motion_vector_predictors cb.x cb.y nCS x y w h 0 0 0]
  let spec := (cb.pb PBidx).spec
  let vec := (cb.pb PBidx).motion
  let spec := { spec with merge_flag := 0 }
  let spec := { spec with merge_idx := 0 }
  let spec := { spec with inter_pred_idc := InterPredIdc.PRED_L0 }
  let vec := { vec with refIdx_0 := 0 }
  let spec := { spec with refIdx_0 := vec.refIdx_0 }
  let spec := { spec with mvp_l0_flag := 0 }
  let value := self.range
  let spec := test_pattern testMode value ectx.rand spec
  commit_and_annotate self.mCodeResidual ectx cb PBidx x y w h mvp spec vec calls

/-- The loop variables of the search of `Algo_PB_MV_Search::analyze` that
change: `mincost`, the syntax element `spec`, and the calls made so far. -/
structure SearchState where
  mincost : Int
  spec : motion_spec
  calls : List Call

/-- The body of the search loops for the candidate `(mx, my)` (lines 203-216);
`w`, `h` are the reference picture's width and height. -/
def search_step (mem : Memory) (refimg inputimg : de265_image)
    (x y pbW pbH w h : Int) (s : SearchState) (mx my : Int) : SearchState :=
  if mx < 0 ∨ mx + pbW > w ∨ my < 0 ∨ my + pbH > h then s
  else
    let p1 := refimg.get_image_plane_at_pos 0 mx my
    let stride1 := refimg.get_image_stride 0
    let p2 := inputimg.get_image_plane_at_pos 0 x y
    let stride2 := inputimg.get_image_stride 0
    let cost := sad mem p1 stride1 p2 stride2 pbW pbH
    let s := { s with calls := s.calls ++ [Call.sad p1 stride1 p2 stride2 pbW pbH] }
    if cost < s.mincost then
      let s := { s with mincost := cost }
      let s := { s with spec := { s.spec with mvd_0_0 := shiftLeft (mx - x) 2 } }
      { s with spec := { s.spec with mvd_0_1 := shiftLeft (my - y) 2 } }
    else s

/-- The two nested search loops (lines 200-217), `my` outer, `mx` inner. -/
def search_loop (mem : Memory) (refimg inputimg : de265_image)
    (x y pbW pbH w h hrange vrange : Int) (s : SearchState) : SearchState :=
  (intRange (y - vrange) (y + vrange)).foldl (fun s my =>
    (intRange (x - hrange) (x + hrange)).foldl (fun s mx =>
      search_step mem refimg inputimg x y pbW pbH w h s mx my) s) s

/-- `Algo_PB_MV_Search::analyze(ectx, ctxModel, cb, PBidx, x, y, pbW, pbH)`. -/
def Algo_PB_MV_Search.analyze (self : Algo_PB_MV_Search) (ectx : encoder_context)
    (cb : enc_cb) (PBidx : Fin 4) (x y pbW pbH : Int) : Option AnalyzeResult :=
  let nCS := shiftLeft 1 cb.log2Size.toNat
  let mvp := ectx.fill_luma_motion_vector_predictors cb.x cb.y nCS x y pbW pbH 0 0 0
  let calls := [Call.fill_luma_motion_vector_predictors cb.x cb.y nCS x y pbW pbH 0 0 0]
  let spec := (cb.pb PBidx).spec
  let vec := (cb.pb PBidx).motion
  let spec := { spec with merge_flag := 0 }
  let spec := { spec with merge_idx := 0 }
  let spec := { spec with inter_pred_idc := InterPredIdc.PRED_L0 }
  let vec := { vec with refIdx_0 := 0 }
  let spec := { spec with refIdx_0 := vec.refIdx_0 }
  let spec := { spec with mvp_l0_flag := 0 }
  let hrange := self.hrange
  let vrange := self.vrange
  let refimg := ectx.get_image (ectx.frame_number - 1)
  let inputimg := ectx.input
  let w := refimg.get_width
  let h := refimg.get_height
  let mincost : Int := 0x7fffffff
  let s := search_loop ectx.mem refimg inputimg x y pbW pbH w h hrange vrange
    ⟨mincost, spec, calls⟩
  commit_and_annotate self.mCodeResidual ectx cb PBidx x y pbW pbH mvp s.spec vec s.calls

/-! ## Reference definitions taken from the spec's words -/

/-- The cost as the spec words it: the "sum over all `w×h` sample pairs of the
absolute difference", sample `(i, j)` of a block being at `p + j * stride + i`. -/
def sad_reference (mem : Memory) (p1 stride1 p2 stride2 w h : Int) : Int :=
  ∑ j in Finset.range h.toNat, ∑ i in Finset.range w.toNat,
    |((mem (p1 + j * stride1 + i)).val : Int) - ((mem (p2 + j * stride2 + i)).val : Int)|

/-- The pairs of addresses of the samples `(i, j)` of the two blocks, row by
row. -/
def sad_reference_reads (p1 stride1 p2 stride2 w h : Int) : List (Int × Int) :=
  (List.range h.toNat).flatMap (fun (j : Nat) =>
    (List.range w.toNat).map (fun (i : Nat) =>
      (p1 + (j : Int) * stride1 + (i : Int), p2 + (j : Int) * stride2 + (i : Int))))

/-- The candidate `(mx, my)` is in bounds of a reference picture of size
`w × h`: the guard of the search loop does not skip it. -/
def valid_candidate (pbW pbH w h mx my : Int) : Prop :=
  0 ≤ mx ∧ mx + pbW ≤ w ∧ 0 ≤ my ∧ my + pbH ≤ h

instance (pbW pbH w h mx my : Int) : Decidable (valid_candidate pbW pbH w h mx my) := by
  unfold valid_candidate; infer_instance

/-- The candidate `(mx, my)` belongs to the search window
`[x-Hr, x+Hr] × [y-Vr, y+Vr]`. -/
def in_window (x y hrange vrange mx my : Int) : Prop :=
  x - hrange ≤ mx ∧ mx ≤ x + hrange ∧ y - vrange ≤ my ∧ my ≤ y + vrange

instance (x y hrange vrange mx my : Int) : Decidable (in_window x y hrange vrange mx my) := by
  unfold in_window; infer_instance

/-- Raster order of candidates: `(mx, my)` comes before `(mx2, my2)` when its
`my` is smaller, or the `my` are equal and its `mx` is smaller. -/
def raster_before (mx my mx2 my2 : Int) : Prop :=
  my < my2 ∨ (my = my2 ∧ mx < mx2)

instance (mx my mx2 my2 : Int) : Decidable (raster_before mx my mx2 my2) := by
  unfold raster_before; infer_instance

/-- The SAD of the candidate `(mx, my)`: the value of the call of `sad` that
the search loop makes for it (lines 205-209). -/
def candidate_cost (mem : Memory) (refimg inputimg : de265_image)
    (x y pbW pbH mx my : Int) : Int :=
  sad mem (refimg.get_image_plane_at_pos 0 mx my) (refimg.get_image_stride 0)
    (inputimg.get_image_plane_at_pos 0 x y) (inputimg.get_image_stride 0) pbW pbH

/-- The candidates of the search window in the order in which the nested loops
visit them. -/
def candidates (x y hrange vrange : Int) : List (Int × Int) :=
  (intRange (y - vrange) (y + vrange)).flatMap (fun my =>
    (intRange (x - hrange) (x + hrange)).map (fun mx => (mx, my)))

/-- What the search loop maintains after visiting the candidates `P`, from the
state `s0`: either nothing was selected and every valid candidate of `P` costs
at least the initial `mincost`, or the state holds the cost and the scaled
displacement of a valid candidate of `P` that is minimal and raster-first. -/
def search_invariant (mem : Memory) (refimg inputimg : de265_image)
    (x y pbW pbH w h : Int) (P : List (Int × Int)) (s0 s : SearchState) : Prop :=
  (s.mincost = s0.mincost ∧ s.spec = s0.spec ∧
    ∀ c ∈ P, valid_candidate pbW pbH w h c.1 c.2 →
      s0.mincost ≤ candidate_cost mem refimg inputimg x y pbW pbH c.1 c.2) ∨
  (∃ c ∈ P, valid_candidate pbW pbH w h c.1 c.2 ∧
    candidate_cost mem refimg inputimg x y pbW pbH c.1 c.2 < s0.mincost ∧
    s.mincost = candidate_cost mem refimg inputimg x y pbW pbH c.1 c.2 ∧
    s.spec = { s0.spec with mvd_0_0 := shiftLeft (c.1 - x) 2,
                            mvd_0_1 := shiftLeft (c.2 - y) 2 } ∧
    ∀ c2 ∈ P, valid_candidate pbW pbH w h c2.1 c2.2 →
      candidate_cost mem refimg inputimg x y pbW pbH c.1 c.2 ≤
        candidate_cost mem refimg inputimg x y pbW pbH c2.1 c2.2 ∧
      (candidate_cost mem refimg inputimg x y pbW pbH c2.1 c2.2 =
          candidate_cost mem refimg inputimg x y pbW pbH c.1 c.2 →
        c2 = c ∨ raster_before c.1 c.2 c2.1 c2.2))

/-- The state in which the search loops of `Algo_PB_MV_Search::analyze` end
(lines 178-217). -/
def search_final (self : Algo_PB_MV_Search) (ectx : encoder_context) (cb : enc_cb)
    (PBidx : Fin 4) (x y pbW pbH : Int) : SearchState :=
  search_loop ectx.mem (ectx.get_image (ectx.frame_number - 1)) ectx.input x y pbW pbH
    (ectx.get_image (ectx.frame_number - 1)).get_width
    (ectx.get_image (ectx.frame_number - 1)).get_height self.hrange self.vrange
    ⟨0x7fffffff,
     { (cb.pb PBidx).spec with
        merge_flag := 0, merge_idx := 0, inter_pred_idc := InterPredIdc.PRED_L0,
        refIdx_0 := 0, mvp_l0_flag := 0 },
     [Call.fill_luma_motion_vector_predictors cb.x cb.y (shiftLeft 1 cb.log2Size.toNat)
        x y pbW pbH 0 0 0]⟩

/-- The property of C4 for one call of `Algo_PB_MV_Search::analyze`: the call
returns, and the vector it commits is the displacement, scaled by 4, of a
candidate `(mx, my)` of the window that is valid, whose SAD is at most the SAD
of every valid candidate of the window, and before which, in raster order,
no valid candidate of the window has the same SAD. -/
def selects_raster_first_minimiser (self : Algo_PB_MV_Search) (ectx : encoder_context)
    (cb : enc_cb) (PBidx : Fin 4) (x y pbW pbH : Int) : Prop :=
  ∃ r, self.analyze ectx cb PBidx x y pbW pbH = some r ∧
    ∃ mx my, in_window x y self.hrange self.vrange mx my ∧
      valid_candidate pbW pbH (ectx.get_image (ectx.frame_number - 1)).get_width
        (ectx.get_image (ectx.frame_number - 1)).get_height mx my ∧
      (r.cb.pb PBidx).motion.mv_0 = ⟨shiftLeft (mx - x) 2, shiftLeft (my - y) 2⟩ ∧
      ∀ mx2 my2, in_window x y self.hrange self.vrange mx2 my2 →
        valid_candidate pbW pbH (ectx.get_image (ectx.frame_number - 1)).get_width
          (ectx.get_image (ectx.frame_number - 1)).get_height mx2 my2 →
        candidate_cost ectx.mem (ectx.get_image (ectx.frame_number - 1)) ectx.input
            x y pbW pbH mx my ≤
          candidate_cost ectx.mem (ectx.get_image (ectx.frame_number - 1)) ectx.input
            x y pbW pbH mx2 my2 ∧
        (candidate_cost ectx.mem (ectx.get_image (ectx.frame_number - 1)) ectx.input
            x y pbW pbH mx2 my2 =
          candidate_cost ectx.mem (ectx.get_image (ectx.frame_number - 1)) ectx.input
            x y pbW pbH mx my →
          (mx2, my2) = (mx, my) ∨ raster_before mx my mx2 my2)

/-- Whether an allocator call is one of the two aligned calls, which `image.c`
uses for the pixel planes only. -/
def MemCall.is_aligned : MemCall → Bool
  | MemCall.FREE_ALIGNED _ => true
  | MemCall.ALLOC_ALIGNED_16 _ _ => true
  | MemCall.free _ => false
  | MemCall.malloc _ _ _ => false

/-- The allocator calls made between the allocator states `hp` and `hp2`. -/
def Heap.calls_since (hp hp2 : Heap) : List MemCall :=
  hp2.calls.drop hp.calls.length

/-- Two pictures agree on the pixel-plane state: `y_mem`, `y`, `cb_mem`, `cb`,
`cr_mem`, `cr`, `stride`, `chroma_stride`, `width`, `height`, `chroma_width`
and `chroma_height`. -/
def same_pixel_planes (a b : de265_image) : Prop :=
  a.y_mem = b.y_mem ∧ a.y = b.y ∧ a.cb_mem = b.cb_mem ∧ a.cb = b.cb ∧
  a.cr_mem = b.cr_mem ∧ a.cr = b.cr ∧ a.stride = b.stride ∧
  a.chroma_stride = b.chroma_stride ∧ a.width = b.width ∧ a.height = b.height ∧
  a.chroma_width = b.chroma_width ∧ a.chroma_height = b.chroma_height

instance (a b : de265_image) : Decidable (same_pixel_planes a b) := by
  unfold same_pixel_planes; infer_instance

/-- One call `de265_alloc_image(img, w, h, c, sps)`: its arguments other than
the picture. -/
structure AllocRequest where
  w : Int
  h : Int
  c : de265_chroma
  sps : Option seq_parameter_set

/-- The picture and the allocator after the calls of `de265_alloc_image` listed
in `reqs`, made in order on the picture `img`. -/
def alloc_sequence (reqs : List AllocRequest) (img : de265_image) (hp : Heap) :
    de265_image × Heap :=
  reqs.foldl (fun s r => de265_alloc_image s.1 r.w r.h r.c r.sps s.2) (img, hp)

/-- The pixel-plane fields are as `de265_init_image` and the allocation branch
of `de265_alloc_image` leave them: no border, each plane pointer equal to its
buffer pointer, each stride the plane width rounded up to the alignment. -/
def planes_consistent (img : de265_image) : Prop :=
  img.border = 0 ∧ img.y = img.y_mem ∧ img.cb = img.cb_mem ∧ img.cr = img.cr_mem ∧
  img.stride = Int.tdiv (img.width + 2 * 0 + alignment - 1) alignment * alignment ∧
  img.chroma_stride =
    Int.tdiv (img.chroma_width + 2 * 0 + alignment - 1) alignment * alignment

/-- One call `memcpy(dest, src, n)`. -/
structure CopyOp where
  dest : Int
  src : Int
  n : Int

/-- The address `a` is one of the `n` bytes that the call writes. -/
def CopyOp.covers (op : CopyOp) (a : Int) : Prop :=
  op.dest ≤ a ∧ a < op.dest + op.n

/-- The calls of `memcpy` that `de265_copy_image(dest, src)` makes, in order. -/
def copy_ops (dest src : de265_image) : List CopyOp :=
  (List.range src.height.toNat).map (fun (y : Nat) =>
    (⟨dest.y + (y : Int) * dest.stride, src.y + (y : Int) * src.stride, src.width⟩ : CopyOp)) ++
  (if src.chroma_format ≠ de265_chroma.de265_chroma_mono then
    (List.range src.chroma_height.toNat).flatMap (fun (y : Nat) =>
      [(⟨dest.cb + (y : Int) * dest.chroma_stride, src.cb + (y : Int) * src.chroma_stride,
          src.chroma_width⟩ : CopyOp),
       (⟨dest.cr + (y : Int) * dest.chroma_stride, src.cr + (y : Int) * src.chroma_stride,
          src.chroma_width⟩ : CopyOp)])
  else [])

/-- The byte ranges `[p1, p1 + n1)` and `[p2, p2 + n2)` do not overlap. -/
def buffers_disjoint (p1 n1 p2 n2 : Int) : Prop :=
  p1 + n1 ≤ p2 ∨ p2 + n2 ≤ p1

/-- The plane buffers of `dest` and `src` that `de265_copy_image` touches are
separate allocations: with `src`'s dimensions, every plane width is at most
the stride of that plane in both pictures, the luma buffer of `dest` does not
overlap the luma buffer of `src`, and, unless `src` is monochrome, no buffer of
`dest` overlaps another buffer of `dest` or a buffer of `src`. The buffer of a
plane is `stride * height` bytes from the plane pointer on. -/
def separate_planes (dest src : de265_image) : Prop :=
  src.width ≤ dest.stride ∧ src.width ≤ src.stride ∧
  buffers_disjoint dest.y (dest.stride * src.height) src.y (src.stride * src.height) ∧
  (src.chroma_format ≠ de265_chroma.de265_chroma_mono →
    src.chroma_width ≤ dest.chroma_stride ∧ src.chroma_width ≤ src.chroma_stride ∧
    buffers_disjoint dest.y (dest.stride * src.height)
      dest.cb (dest.chroma_stride * src.chroma_height) ∧
    buffers_disjoint dest.y (dest.stride * src.height)
      dest.cr (dest.chroma_stride * src.chroma_height) ∧
    buffers_disjoint dest.cb (dest.chroma_stride * src.chroma_height)
      dest.cr (dest.chroma_stride * src.chroma_height) ∧
    buffers_disjoint dest.y (dest.stride * src.height)
      src.cb (src.chroma_stride * src.chroma_height) ∧
    buffers_disjoint dest.y (dest.stride * src.height)
      src.cr (src.chroma_stride * src.chroma_height) ∧
    buffers_disjoint dest.cb (dest.chroma_stride * src.chroma_height)
      src.y (src.stride * src.height) ∧
    buffers_disjoint dest.cb (dest.chroma_stride * src.chroma_height)
      src.cb (src.chroma_stride * src.chroma_height) ∧
    buffers_disjoint dest.cb (dest.chroma_stride * src.chroma_height)
      src.cr (src.chroma_stride * src.chroma_height) ∧
    buffers_disjoint dest.cr (dest.chroma_stride * src.chroma_height)
      src.y (src.stride * src.height) ∧
    buffers_disjoint dest.cr (dest.chroma_stride * src.chroma_height)
      src.cb (src.chroma_stride * src.chroma_height) ∧
    buffers_disjoint dest.cr (dest.chroma_stride * src.chroma_height)
      src.cr (src.chroma_stride * src.chroma_height))

instance (dest src : de265_image) : Decidable (separate_planes dest src) := by
  unfold separate_planes buffers_disjoint; infer_instance

/-- One call on the pending-task counter of a picture:
`increase_pending_tasks(img, n)` or `decrease_pending_tasks(img, n)`. -/
inductive TaskOp where
  | increase (n : Int)
  | decrease (n : Int)
deriving DecidableEq

/-- The argument `n` of the call. -/
def TaskOp.arg : TaskOp → Int
  | TaskOp.increase n => n
  | TaskOp.decrease n => n

/-- The picture after the calls `ops`, made in order; `none` as soon as the
assertion of `decrease_pending_tasks` fails. -/
def run_task_ops : List TaskOp → de265_image → Option de265_image
  | [], img => some img
  | TaskOp.increase n :: ops, img => run_task_ops ops (increase_pending_tasks img n)
  | TaskOp.decrease n :: ops, img =>
    match decrease_pending_tasks img n with
    | some r => run_task_ops ops r.1
    | none => none

/-- The sum of the arguments of the `increase_pending_tasks` calls of `ops`. -/
def registered : List TaskOp → Int
  | [] => 0
  | TaskOp.increase n :: ops => n + registered ops
  | TaskOp.decrease _ :: ops => registered ops

/-- The sum of the arguments of the `decrease_pending_tasks` calls of `ops`. -/
def completed : List TaskOp → Int
  | [] => 0
  | TaskOp.increase _ :: ops => completed ops
  | TaskOp.decrease n :: ops => n + completed ops

/-- The distortion as the claim words it: the sum of the squared differences
between the luma samples of the picture `src` and of the picture `img` over the
square block of side `2 ^ log2Size` at `(x0, y0)`. -/
def ssd_reference (mem : Memory) (src img : de265_image) (x0 y0 log2Size : Int) : Int :=
  ∑ dy in Finset.range (2 ^ log2Size.toNat), ∑ dx in Finset.range (2 ^ log2Size.toNat),
    (((mem (src.y + (x0 + (dx : Int)) + (y0 + (dy : Int)) * src.stride)).val : Int) -
      ((mem (img.y + (x0 + (dx : Int)) + (y0 + (dy : Int)) * img.stride)).val : Int)) ^ 2

/-! ## Concrete inputs -/

/-- An allocator that has served no request yet and answers the `k`-th request
with the address `4096 * (k + 1)`. -/
def fresh_heap : Heap :=
  { answers := fun k => 4096 * ((k : Int) + 1), count := 0, calls := [] }

/-- A picture whose luma plane of `width × height` samples starts at address
`base` with the given stride; every other field is as `de265_init_image`
leaves it. -/
def luma_picture (base width height stride : Int) : de265_image :=
  { de265_init_image with
    y_mem := base, y := base, width := width, height := height, stride := stride }

/-- A zeroed motion syntax element. -/
def motion_spec_zero : motion_spec :=
  ⟨0, 0, InterPredIdc.PRED_L0, 0, 0, 0, 0, 0, 0, 0, 0⟩

/-- A zeroed motion field. -/
def PredVectorInfo_zero : PredVectorInfo :=
  ⟨0, 0, 0, 0, ⟨0, 0⟩, ⟨0, 0⟩⟩

/-- A coding block at `(x, y)` of size `1 << log2Size` whose four slots hold
`mvd[0] = (m0, m1)` and are zero otherwise. -/
def cb_with_mvd (x y log2Size m0 m1 : Int) : enc_cb :=
  { x := x, y := y, log2Size := log2Size,
    pb := fun _ => ⟨{ motion_spec_zero with mvd_0_0 := m0, mvd_0_1 := m1 }, PredVectorInfo_zero⟩,
    rqt_root_cbf := 0, distortion := 0, rate := 0 }

/-- An encoder context with sample memory `mem`, working picture `img`, input
picture `input`, a reference store that holds `ref` for every frame number, a
predictor derivation that returns `(mvp0, (0,0))`, a prediction synthesis that
leaves the memory as it is, and `rand()` returning `r0`, then `r1`, then 0. -/
def ctx_of (mem : Memory) (img input ref : de265_image) (mvp0 : MotionVector)
    (r0 r1 : Int) : encoder_context :=
  { mem := mem, img := img, input := input, frame_number := 1,
    get_image := fun _ => ref,
    sps := ⟨0, 0, 0, 0, 0, 0, 0⟩,
    fill_luma_motion_vector_predictors := fun _ _ _ _ _ _ _ _ _ _ => (mvp0, ⟨0, 0⟩),
    generate_inter_prediction_samples := fun m _ _ _ _ _ _ _ _ => m,
    rand := fun k => if k = 0 then r0 else if k = 1 then r1 else 0 }

/-- Sample memory holding the value `v` at every address. -/
def flat_memory (v : Fin 256) : Memory := fun _ => v

/-- Sample memory for a tie: a reference row `10, 20, 20` at addresses 0-2 and
an input row `0, 20, 0` at addresses 16-18. -/
def tie_memory : Memory :=
  fun a => if a = 0 then 10 else if a = 1 then 20 else if a = 2 then 20
    else if a = 17 then 20 else 0

/-- A 35 x 20 picture in 4:2:0 format allocated on the fresh allocator: planes
at 4096, 8192 and 12288, strides 48 and 32. -/
def picture_a : de265_image :=
  (de265_alloc_image de265_init_image 35 20 de265_chroma.de265_chroma_420 none fresh_heap).1

/-- A second 35 x 20 picture in 4:2:0 format, allocated after `picture_a`:
planes at 16384, 20480 and 24576. -/
def picture_b : de265_image :=
  (de265_alloc_image de265_init_image 35 20 de265_chroma.de265_chroma_420 none
    (de265_alloc_image de265_init_image 35 20 de265_chroma.de265_chroma_420 none
      fresh_heap).2).1

/-- Sample memory in which every byte holds its address modulo 256. -/
def address_memory : Memory := fun a => to_uint8 a

/-- An example of a prediction synthesiser for full-sample vectors: every luma
sample `(col, row)` of the block `(xC + xB, yC + yB, nPbW, nPbH)` of the working
picture `img` receives the luma sample `(col + mv[0].x / 4, row + mv[0].y / 4)`
of the reference picture `ref`. -/
def full_sample_prediction (img ref : de265_image) (m : Memory)
    (xC yC xB yB _nCS nPbW nPbH : Int) (vi : PredVectorInfo) : Memory :=
  fun a =>
    let off := a - img.y
    let row := off / img.stride
    let col := off % img.stride
    if 0 ≤ off ∧ xC + xB ≤ col ∧ col < xC + xB + nPbW ∧ yC + yB ≤ row ∧ row < yC + yB + nPbH then
      m (ref.get_image_plane_at_pos 0 (col + Int.tdiv vi.mv_0.x 4) (row + Int.tdiv vi.mv_0.y 4))
    else m a

/-- Sample memory of the end-to-end scenario: a working picture of zeros at
addresses 0-255, a flat input picture of value 100 at 1024-1279 and a flat
reference picture of value 100 at 2048-2303. -/
def scenario_memory : Memory :=
  fun a => if (1024 ≤ a ∧ a < 1280) ∨ (2048 ≤ a ∧ a < 2304) then 100 else 0

/-- The encoder context of the end-to-end scenario: 16 x 16 pictures with
stride 16, predictor `(0, 0)`, prediction by `full_sample_prediction`. -/
def scenario_ctx : encoder_context :=
  { ctx_of scenario_memory (luma_picture 0 16 16 16) (luma_picture 1024 16 16 16)
      (luma_picture 2048 16 16 16) ⟨0, 0⟩ 0 0 with
    generate_inter_prediction_samples :=
      full_sample_prediction (luma_picture 0 16 16 16) (luma_picture 2048 16 16 16) }

/-- Sequence parameters of a 16 x 24 picture with 8 x 8 minimum coding blocks
and 4 x 4 minimum prediction units: 2 x 3 coding blocks, 4 x 6 units. -/
def sps_16x24 : seq_parameter_set :=
  { PicWidthInMinPUs := 4, PicHeightInMinPUs := 6, PicSizeInMinCbsY := 6,
    PicWidthInMinCbsY := 2, PicHeightInMinCbsY := 3, Log2MinCbSizeY := 3,
    max_transform_hierarchy_depth_inter := 0 }

/-- Sequence parameters of a 24 x 16 picture with 8 x 8 minimum coding blocks
and 4 x 4 minimum prediction units: 3 x 2 coding blocks, 6 x 4 units. -/
def sps_24x16 : seq_parameter_set :=
  { PicWidthInMinPUs := 6, PicHeightInMinPUs := 4, PicSizeInMinCbsY := 6,
    PicWidthInMinCbsY := 3, PicHeightInMinCbsY := 2, Log2MinCbSizeY := 3,
    max_transform_hierarchy_depth_inter := 0 }

/-! ## Theorems -/

/-- C1: for both strategies (the test strategy in each of its four modes, and
the search strategy), with residual coding disabled `analyze` returns, and the
motion field it commits for the block satisfies `mv[0].x = mvp[0].x + mvd[0][0]`
and `mv[0].y = mvp[0].y + mvd[0][1]` as integers, with `predFlag[0] = 1` and
`predFlag[1] = 0`, where `mvp` is the pair returned by
`fill_luma_motion_vector_predictors`; this field is the one handed to
`set_mv_info`. -/
theorem analyze_mv_eq_predictor_plus_mvd (ectx : encoder_context) (cb : enc_cb)
    (PBidx : Fin 4) (x y w h : Int) (testMode : MVTestMode) (range hrange vrange : Int) :
    (∃ r, (Algo_PB_MV_Test.mk testMode range false).analyze ectx cb PBidx x y w h = some r ∧
      (r.cb.pb PBidx).motion.mv_0.x =
        (ectx.fill_luma_motion_vector_predictors cb.x cb.y (shiftLeft 1 cb.log2Size.toNat)
          x y w h 0 0 0).1.x + (r.cb.pb PBidx).spec.mvd_0_0 ∧
      (r.cb.pb PBidx).motion.mv_0.y =
        (ectx.fill_luma_motion_vector_predictors cb.x cb.y (shiftLeft 1 cb.log2Size.toNat)
          x y w h 0 0 0).1.y + (r.cb.pb PBidx).spec.mvd_0_1 ∧
      (r.cb.pb PBidx).motion.predFlag_0 = 1 ∧
      (r.cb.pb PBidx).motion.predFlag_1 = 0 ∧
      Call.set_mv_info x y w h (r.cb.pb PBidx).motion ∈ r.calls) ∧
    (∃ r, (Algo_PB_MV_Search.mk hrange vrange false).analyze ectx cb PBidx x y w h = some r ∧
      (r.cb.pb PBidx).motion.mv_0.x =
        (ectx.fill_luma_motion_vector_predictors cb.x cb.y (shiftLeft 1 cb.log2Size.toNat)
          x y w h 0 0 0).1.x + (r.cb.pb PBidx).spec.mvd_0_0 ∧
      (r.cb.pb PBidx).motion.mv_0.y =
        (ectx.fill_luma_motion_vector_predictors cb.x cb.y (shiftLeft 1 cb.log2Size.toNat)
          x y w h 0 0 0).1.y + (r.cb.pb PBidx).spec.mvd_0_1 ∧
      (r.cb.pb PBidx).motion.predFlag_0 = 1 ∧
      (r.cb.pb PBidx).motion.predFlag_1 = 0 ∧
      Call.set_mv_info x y w h (r.cb.pb PBidx).motion ∈ r.calls) := by
  constructor
  · refine ⟨_, rfl, ?_⟩
    simp [commit_and_annotate]
  · refine ⟨_, rfl, ?_⟩
    simp [commit_and_annotate]

/-- C2 as stated fails: in the zero-pattern mode with predictor `(4, 0)` on a
16x16 block, `analyze` commits `mv[0] = (0, 0)`, which is not the predictor. -/
theorem analyze_zero_mv_ne_predictor :
    ∃ r, (Algo_PB_MV_Test.mk MVTestMode.MVTestMode_Zero 0 false).analyze
        (ctx_of (flat_memory 100) (luma_picture 0 16 16 16) (luma_picture 256 16 16 16)
          (luma_picture 512 16 16 16) ⟨4, 0⟩ 0 0)
        (cb_with_mvd 0 0 4 0 0) 0 0 0 16 16 = some r ∧
      (r.cb.pb 0).motion.mv_0 = ⟨0, 0⟩ ∧
      ((ctx_of (flat_memory 100) (luma_picture 0 16 16 16) (luma_picture 256 16 16 16)
          (luma_picture 512 16 16 16) ⟨4, 0⟩ 0 0).fill_luma_motion_vector_predictors
          0 0 16 0 0 16 16 0 0 0).1 = ⟨4, 0⟩ ∧
      (r.cb.pb 0).motion.mv_0 ≠
        ((ctx_of (flat_memory 100) (luma_picture 0 16 16 16) (luma_picture 256 16 16 16)
          (luma_picture 512 16 16 16) ⟨4, 0⟩ 0 0).fill_luma_motion_vector_predictors
          0 0 16 0 0 16 16 0 0 0).1 := by
  refine ⟨_, rfl, ?_, ?_, ?_⟩
  · simp [commit_and_annotate, test_pattern, cb_with_mvd, ctx_of]
  · rfl
  · simp [commit_and_annotate, test_pattern, cb_with_mvd, ctx_of]

/-- C2, amended: in the zero-pattern mode, for every predictor and every block,
`Algo_PB_MV_Test::analyze` returns, the committed `mv[0]` is `(0, 0)` and the
stored `mvd[0]` is the negated predictor `(-mvp[0].x, -mvp[0].y)`. -/
theorem analyze_zero_mv_eq_zero (ectx : encoder_context) (cb : enc_cb)
    (PBidx : Fin 4) (x y w h : Int) (range : Int) :
    ∃ r, (Algo_PB_MV_Test.mk MVTestMode.MVTestMode_Zero range false).analyze
        ectx cb PBidx x y w h = some r ∧
      (r.cb.pb PBidx).motion.mv_0 = ⟨0, 0⟩ ∧
      (r.cb.pb PBidx).spec.mvd_0_0 =
        - (ectx.fill_luma_motion_vector_predictors cb.x cb.y (shiftLeft 1 cb.log2Size.toNat)
          x y w h 0 0 0).1.x ∧
      (r.cb.pb PBidx).spec.mvd_0_1 =
        - (ectx.fill_luma_motion_vector_predictors cb.x cb.y (shiftLeft 1 cb.log2Size.toNat)
          x y w h 0 0 0).1.y ∧
      Call.set_mv_info x y w h (r.cb.pb PBidx).motion ∈ r.calls := by
  refine ⟨_, rfl, ?_⟩
  simp [commit_and_annotate, test_pattern]

/-- C3: in the horizontal-pattern mode with range `R`, for every predictor,
`Algo_PB_MV_Test::analyze` returns and the syntax element of the block holds
`mvd[0][0] = R - mvp[0].x` and `mvd[0][1] = -mvp[0].y`. -/
theorem analyze_horizontal_mvd (ectx : encoder_context) (cb : enc_cb)
    (PBidx : Fin 4) (x y w h : Int) (R : Int) :
    ∃ r, (Algo_PB_MV_Test.mk MVTestMode.MVTestMode_Horizontal R false).analyze
        ectx cb PBidx x y w h = some r ∧
      (r.cb.pb PBidx).spec.mvd_0_0 =
        R - (ectx.fill_luma_motion_vector_predictors cb.x cb.y (shiftLeft 1 cb.log2Size.toNat)
          x y w h 0 0 0).1.x ∧
      (r.cb.pb PBidx).spec.mvd_0_1 =
        - (ectx.fill_luma_motion_vector_predictors cb.x cb.y (shiftLeft 1 cb.log2Size.toNat)
          x y w h 0 0 0).1.y := by
  refine ⟨_, rfl, ?_⟩
  simp [commit_and_annotate, test_pattern]

/-! ### The cost function `sad` -/

theorem abs_value_eq_abs (a : Int) : abs_value a = |a| := by
  unfold abs_value
  split
  · rename_i h; exact (abs_of_neg h).symm
  · rename_i h; exact (abs_of_nonneg (not_lt.mp h)).symm

theorem sad_inner_fold (mem : Memory) (n : Nat) (s : SadState) :
    (List.range n).foldl (sad_inner mem) s =
      ⟨s.cost + ∑ i in Finset.range n,
          |((mem (s.p1 + i)).val : Int) - ((mem (s.p2 + i)).val : Int)|,
        s.p1 + n, s.p2 + n,
        s.reads ++ (List.range n).map (fun (i : Nat) => (s.p1 + (i : Int), s.p2 + (i : Int)))⟩ := by
  induction n with
  | zero => simp
  | succ n ih =>
    rw [List.range_succ, List.foldl_append, ih]
    simp only [List.foldl_cons, List.foldl_nil, sad_inner, abs_value_eq_abs,
      Finset.sum_range_succ, List.map_append, List.map_cons, List.map_nil,
      List.append_assoc, Nat.cast_add, Nat.cast_one, add_assoc]

theorem sad_row_fold (mem : Memory) (stride1 stride2 w : Int) (hw : 0 ≤ w) (k : Nat)
    (s : SadState) :
    (List.range k).foldl (sad_row mem stride1 stride2 w) s =
      ⟨s.cost + ∑ j in Finset.range k, ∑ i in Finset.range w.toNat,
          |((mem (s.p1 + j * stride1 + i)).val : Int) -
            ((mem (s.p2 + j * stride2 + i)).val : Int)|,
        s.p1 + k * stride1, s.p2 + k * stride2,
        s.reads ++ (List.range k).flatMap (fun (j : Nat) =>
          (List.range w.toNat).map (fun (i : Nat) =>
            (s.p1 + (j : Int) * stride1 + (i : Int),
             s.p2 + (j : Int) * stride2 + (i : Int))))⟩ := by
  induction k with
  | zero => simp
  | succ k ih =>
    rw [List.range_succ, List.foldl_append, ih]
    simp only [List.foldl_cons, List.foldl_nil, sad_row, sad_inner_fold,
      Finset.sum_range_succ, List.flatMap_append, List.flatMap_cons, List.flatMap_nil,
      List.append_nil, List.append_assoc, Int.toNat_of_nonneg hw, Nat.cast_add,
      Nat.cast_one, add_assoc]
    congr 1 <;> ring

theorem sad_row_fold_neg (mem : Memory) (stride1 stride2 w : Int) (hw : w < 0) (k : Nat)
    (s : SadState) :
    ((List.range k).foldl (sad_row mem stride1 stride2 w) s).cost = s.cost ∧
    ((List.range k).foldl (sad_row mem stride1 stride2 w) s).reads = s.reads := by
  have h0 : w.toNat = 0 := Int.toNat_eq_zero.mpr (le_of_lt hw)
  induction k with
  | zero => simp
  | succ k ih =>
    rw [List.range_succ, List.foldl_append]
    simp only [List.foldl_cons, List.foldl_nil, sad_row, h0, List.range_zero]
    exact ih

theorem sad_run_eq (mem : Memory) (p1 stride1 p2 stride2 w h : Int) :
    sad mem p1 stride1 p2 stride2 w h = sad_reference mem p1 stride1 p2 stride2 w h ∧
    (sad_run mem p1 stride1 p2 stride2 w h).reads =
      sad_reference_reads p1 stride1 p2 stride2 w h := by
  rcases lt_or_le w 0 with hw | hw
  · have h0 : w.toNat = 0 := Int.toNat_eq_zero.mpr (le_of_lt hw)
    have := sad_row_fold_neg mem stride1 stride2 w hw h.toNat ⟨0, p1, p2, []⟩
    simp [sad, sad_run, sad_reference, sad_reference_reads, this.1, this.2, h0]
  · simp [sad, sad_run, sad_reference, sad_reference_reads, sad_row_fold mem stride1 stride2 w hw]

theorem sad_nonneg (mem : Memory) (p1 stride1 p2 stride2 w h : Int) :
    0 ≤ sad mem p1 stride1 p2 stride2 w h := by
  rw [(sad_run_eq mem p1 stride1 p2 stride2 w h).1]
  unfold sad_reference
  exact Finset.sum_nonneg (fun _ _ => Finset.sum_nonneg (fun _ _ => abs_nonneg _))

/-- C8: `sad(p1, stride1, p2, stride2, w, h)` returns the sum over all rows
`0 ≤ j < h` and columns `0 ≤ i < w` of `|p1[j*stride1 + i] - p2[j*stride2 + i]|`,
for all `w`, `h` and strides, and the pointer stepping dereferences exactly the
addresses of the samples `(i, j)` of the two blocks, row by row; `sad` only
reads the sample memory (it returns a cost and no memory). -/
theorem sad_eq_reference (mem : Memory) (p1 stride1 p2 stride2 w h : Int) :
    sad mem p1 stride1 p2 stride2 w h = sad_reference mem p1 stride1 p2 stride2 w h ∧
    (sad_run mem p1 stride1 p2 stride2 w h).reads =
      sad_reference_reads p1 stride1 p2 stride2 w h :=
  sad_run_eq mem p1 stride1 p2 stride2 w h

/-! ### The search loop -/

theorem mem_intRange (lo hi a : Int) : a ∈ intRange lo hi ↔ lo ≤ a ∧ a ≤ hi := by
  unfold intRange
  simp only [List.mem_map, List.mem_range]
  constructor
  · rintro ⟨k, hk, rfl⟩
    omega
  · rintro ⟨h1, h2⟩
    exact ⟨(a - lo).toNat, by omega, by omega⟩

theorem pairwise_intRange (lo hi : Int) : List.Pairwise (fun a b => a < b) (intRange lo hi) := by
  unfold intRange
  rw [List.pairwise_map]
  exact (List.pairwise_lt_range _).imp (fun hab => by omega)

theorem mem_candidates (x y hrange vrange mx my : Int) :
    (mx, my) ∈ candidates x y hrange vrange ↔ in_window x y hrange vrange mx my := by
  unfold candidates in_window
  simp only [List.mem_flatMap, List.mem_map, mem_intRange, Prod.mk.injEq]
  constructor
  · rintro ⟨a, ha, b, hb, rfl, rfl⟩
    exact ⟨hb.1, hb.2, ha.1, ha.2⟩
  · rintro ⟨h1, h2, h3, h4⟩
    exact ⟨my, ⟨h3, h4⟩, mx, ⟨h1, h2⟩, rfl, rfl⟩

theorem pairwise_candidates (x y hrange vrange : Int) :
    List.Pairwise (fun c c2 => raster_before c.1 c.2 c2.1 c2.2)
      (candidates x y hrange vrange) := by
  unfold candidates
  rw [List.pairwise_flatMap]
  constructor
  · intro my _
    rw [List.pairwise_map]
    exact (pairwise_intRange _ _).imp (fun hab => Or.inr ⟨rfl, hab⟩)
  · refine (pairwise_intRange _ _).imp ?_
    intro a b hab c hc c2 hc2
    simp only [List.mem_map] at hc hc2
    obtain ⟨_, _, rfl⟩ := hc
    obtain ⟨_, _, rfl⟩ := hc2
    exact Or.inl hab

theorem foldl_flatMap_eq {α β γ : Type} (f : γ → β → γ) (g : α → List β) (l : List α) (s : γ) :
    (l.flatMap g).foldl f s = l.foldl (fun s a => (g a).foldl f s) s := by
  induction l generalizing s with
  | nil => rfl
  | cons a l ih => simp [List.flatMap_cons, List.foldl_append, ih]

theorem search_loop_eq_foldl (mem : Memory) (refimg inputimg : de265_image)
    (x y pbW pbH w h hrange vrange : Int) (s : SearchState) :
    search_loop mem refimg inputimg x y pbW pbH w h hrange vrange s =
      (candidates x y hrange vrange).foldl
        (fun s c => search_step mem refimg inputimg x y pbW pbH w h s c.1 c.2) s := by
  unfold search_loop candidates
  rw [foldl_flatMap_eq]
  simp only [List.foldl_map]

theorem search_step_invalid (mem : Memory) (refimg inputimg : de265_image)
    (x y pbW pbH w h : Int) (s : SearchState) (mx my : Int)
    (hv : ¬ valid_candidate pbW pbH w h mx my) :
    search_step mem refimg inputimg x y pbW pbH w h s mx my = s := by
  unfold search_step
  rw [if_pos]
  unfold valid_candidate at hv
  omega

theorem search_step_valid (mem : Memory) (refimg inputimg : de265_image)
    (x y pbW pbH w h : Int) (s : SearchState) (mx my : Int)
    (hv : valid_candidate pbW pbH w h mx my) :
    search_step mem refimg inputimg x y pbW pbH w h s mx my =
      if candidate_cost mem refimg inputimg x y pbW pbH mx my < s.mincost then
        ⟨candidate_cost mem refimg inputimg x y pbW pbH mx my,
         { s.spec with mvd_0_0 := shiftLeft (mx - x) 2, mvd_0_1 := shiftLeft (my - y) 2 },
         s.calls ++ [Call.sad (refimg.get_image_plane_at_pos 0 mx my)
           (refimg.get_image_stride 0) (inputimg.get_image_plane_at_pos 0 x y)
           (inputimg.get_image_stride 0) pbW pbH]⟩
      else
        ⟨s.mincost, s.spec,
         s.calls ++ [Call.sad (refimg.get_image_plane_at_pos 0 mx my)
           (refimg.get_image_stride 0) (inputimg.get_image_plane_at_pos 0 x y)
           (inputimg.get_image_stride 0) pbW pbH]⟩ := by
  unfold search_step
  rw [if_neg]
  · rfl
  · unfold valid_candidate at hv
    omega

theorem search_invariant_step (mem : Memory) (refimg inputimg : de265_image)
    (x y pbW pbH w h : Int) (P : List (Int × Int)) (c : Int × Int) (s0 s : SearchState)
    (hR : ∀ a ∈ P, raster_before a.1 a.2 c.1 c.2)
    (hinv : search_invariant mem refimg inputimg x y pbW pbH w h P s0 s) :
    search_invariant mem refimg inputimg x y pbW pbH w h (P ++ [c]) s0
      (search_step mem refimg inputimg x y pbW pbH w h s c.1 c.2) := by
  by_cases hv : valid_candidate pbW pbH w h c.1 c.2
  · rw [search_step_valid mem refimg inputimg x y pbW pbH w h s c.1 c.2 hv]
    rcases hinv with ⟨hm, hs, hall⟩ | ⟨b, hb, hbv, hblt, hm, hs, hall⟩
    · by_cases hlt : candidate_cost mem refimg inputimg x y pbW pbH c.1 c.2 < s.mincost
      · rw [if_pos hlt]
        right
        refine ⟨c, by simp, hv, by rw [← hm]; exact hlt, rfl, by rw [hs], ?_⟩
        intro c2 hc2 hv2
        rcases List.mem_append.mp hc2 with h2 | h2
        · have := hall c2 h2 hv2
          constructor
          · omega
          · intro heq; omega
        · simp only [List.mem_singleton] at h2
          subst h2
          exact ⟨le_refl _, fun _ => Or.inl rfl⟩
      · rw [if_neg hlt]
        left
        refine ⟨hm, hs, ?_⟩
        intro c2 hc2 hv2
        rcases List.mem_append.mp hc2 with h2 | h2
        · exact hall c2 h2 hv2
        · simp only [List.mem_singleton] at h2
          subst h2
          omega
    · by_cases hlt : candidate_cost mem refimg inputimg x y pbW pbH c.1 c.2 < s.mincost
      · rw [if_pos hlt]
        right
        refine ⟨c, by simp, hv, by omega, rfl, by rw [hs], ?_⟩
        intro c2 hc2 hv2
        rcases List.mem_append.mp hc2 with h2 | h2
        · have := (hall c2 h2 hv2).1
          constructor
          · omega
          · intro heq; omega
        · simp only [List.mem_singleton] at h2
          subst h2
          exact ⟨le_refl _, fun _ => Or.inl rfl⟩
      · rw [if_neg hlt]
        right
        refine ⟨b, by simp [hb], hbv, hblt, hm, hs, ?_⟩
        intro c2 hc2 hv2
        rcases List.mem_append.mp hc2 with h2 | h2
        · exact hall c2 h2 hv2
        · simp only [List.mem_singleton] at h2
          subst h2
          exact ⟨by omega, fun _ => Or.inr (hR b hb)⟩
  · rw [search_step_invalid mem refimg inputimg x y pbW pbH w h s c.1 c.2 hv]
    rcases hinv with ⟨hm, hs, hall⟩ | ⟨b, hb, hbv, hblt, hm, hs, hall⟩
    · left
      refine ⟨hm, hs, ?_⟩
      intro c2 hc2 hv2
      rcases List.mem_append.mp hc2 with h2 | h2
      · exact hall c2 h2 hv2
      · simp only [List.mem_singleton] at h2
        subst h2
        exact absurd hv2 hv
    · right
      refine ⟨b, by simp [hb], hbv, hblt, hm, hs, ?_⟩
      intro c2 hc2 hv2
      rcases List.mem_append.mp hc2 with h2 | h2
      · exact hall c2 h2 hv2
      · simp only [List.mem_singleton] at h2
        subst h2
        exact absurd hv2 hv

theorem search_invariant_foldl (mem : Memory) (refimg inputimg : de265_image)
    (x y pbW pbH w h : Int) (rest : List (Int × Int)) :
    ∀ (P : List (Int × Int)) (s0 s : SearchState),
      List.Pairwise (fun c c2 => raster_before c.1 c.2 c2.1 c2.2) (P ++ rest) →
      search_invariant mem refimg inputimg x y pbW pbH w h P s0 s →
      search_invariant mem refimg inputimg x y pbW pbH w h (P ++ rest) s0
        (rest.foldl (fun s c => search_step mem refimg inputimg x y pbW pbH w h s c.1 c.2) s) := by
  induction rest with
  | nil => intro P s0 s _ hinv; simpa using hinv
  | cons c rest ih =>
    intro P s0 s hpw hinv
    have hpw2 : List.Pairwise (fun c c2 => raster_before c.1 c.2 c2.1 c2.2)
        ((P ++ [c]) ++ rest) := by simpa using hpw
    have hR : ∀ a ∈ P, raster_before a.1 a.2 c.1 c.2 := by
      intro a ha
      have := (List.pairwise_append.mp hpw).2.2 a ha c (by simp)
      exact this
    have := ih (P ++ [c]) s0 _ hpw2
      (search_invariant_step mem refimg inputimg x y pbW pbH w h P c s0 s hR hinv)
    simpa using this

theorem search_loop_invariant (mem : Memory) (refimg inputimg : de265_image)
    (x y pbW pbH w h hrange vrange : Int) (s0 : SearchState) :
    search_invariant mem refimg inputimg x y pbW pbH w h (candidates x y hrange vrange) s0
      (search_loop mem refimg inputimg x y pbW pbH w h hrange vrange s0) := by
  rw [search_loop_eq_foldl]
  have := search_invariant_foldl mem refimg inputimg x y pbW pbH w h
    (candidates x y hrange vrange) [] s0 s0 (by simpa using pairwise_candidates x y hrange vrange)
    (Or.inl ⟨rfl, rfl, by simp⟩)
  simpa using this

/-! ### `Algo_PB_MV_Search::analyze` -/

theorem commit_and_annotate_false (ectx : encoder_context) (cb : enc_cb)
    (PBidx : Fin 4) (x y pbW pbH : Int) (mvp : MotionVector × MotionVector)
    (spec : motion_spec) (vec : PredVectorInfo) (calls : List Call) :
    ∃ r, commit_and_annotate false ectx cb PBidx x y pbW pbH mvp spec vec calls = some r ∧
      (r.cb.pb PBidx).motion.mv_0 = ⟨spec.mvd_0_0, spec.mvd_0_1⟩ ∧
      (r.cb.pb PBidx).spec.mvd_0_0 = spec.mvd_0_0 - mvp.1.x ∧
      (r.cb.pb PBidx).spec.mvd_0_1 = spec.mvd_0_1 - mvp.1.y := by
  refine ⟨_, rfl, ?_⟩
  simp [commit_and_annotate]

theorem search_analyze_eq (hrange vrange : Int) (ectx : encoder_context) (cb : enc_cb)
    (PBidx : Fin 4) (x y pbW pbH : Int) :
    ∃ r, (Algo_PB_MV_Search.mk hrange vrange false).analyze ectx cb PBidx x y pbW pbH = some r ∧
      (r.cb.pb PBidx).motion.mv_0 =
        ⟨(search_final (Algo_PB_MV_Search.mk hrange vrange false) ectx cb PBidx
            x y pbW pbH).spec.mvd_0_0,
         (search_final (Algo_PB_MV_Search.mk hrange vrange false) ectx cb PBidx
            x y pbW pbH).spec.mvd_0_1⟩ ∧
      (r.cb.pb PBidx).spec.mvd_0_0 =
        (search_final (Algo_PB_MV_Search.mk hrange vrange false) ectx cb PBidx
            x y pbW pbH).spec.mvd_0_0 -
          (ectx.fill_luma_motion_vector_predictors cb.x cb.y (shiftLeft 1 cb.log2Size.toNat)
            x y pbW pbH 0 0 0).1.x ∧
      (r.cb.pb PBidx).spec.mvd_0_1 =
        (search_final (Algo_PB_MV_Search.mk hrange vrange false) ectx cb PBidx
            x y pbW pbH).spec.mvd_0_1 -
          (ectx.fill_luma_motion_vector_predictors cb.x cb.y (shiftLeft 1 cb.log2Size.toNat)
            x y pbW pbH 0 0 0).1.y := by
  exact commit_and_annotate_false ectx cb PBidx x y pbW pbH _ _ _ _

theorem search_final_invariant (self : Algo_PB_MV_Search) (ectx : encoder_context)
    (cb : enc_cb) (PBidx : Fin 4) (x y pbW pbH : Int) :
    search_invariant ectx.mem (ectx.get_image (ectx.frame_number - 1)) ectx.input x y pbW pbH
      (ectx.get_image (ectx.frame_number - 1)).get_width
      (ectx.get_image (ectx.frame_number - 1)).get_height
      (candidates x y self.hrange self.vrange)
      ⟨0x7fffffff,
       { (cb.pb PBidx).spec with
          merge_flag := 0, merge_idx := 0, inter_pred_idc := InterPredIdc.PRED_L0,
          refIdx_0 := 0, mvp_l0_flag := 0 },
       [Call.fill_luma_motion_vector_predictors cb.x cb.y (shiftLeft 1 cb.log2Size.toNat)
          x y pbW pbH 0 0 0]⟩
      (search_final self ectx cb PBidx x y pbW pbH) :=
  search_loop_invariant _ _ _ _ _ _ _ _ _ _ _ _

theorem search_selects_of_cost_lt (hrange vrange : Int) (ectx : encoder_context)
    (cb : enc_cb) (PBidx : Fin 4) (x y pbW pbH : Int)
    (hex : ∃ mx my, in_window x y hrange vrange mx my ∧
      valid_candidate pbW pbH (ectx.get_image (ectx.frame_number - 1)).get_width
        (ectx.get_image (ectx.frame_number - 1)).get_height mx my ∧
      candidate_cost ectx.mem (ectx.get_image (ectx.frame_number - 1)) ectx.input
        x y pbW pbH mx my < 0x7fffffff) :
    selects_raster_first_minimiser (Algo_PB_MV_Search.mk hrange vrange false)
      ectx cb PBidx x y pbW pbH := by
  obtain ⟨r, hr, hmv, -, -⟩ := search_analyze_eq hrange vrange ectx cb PBidx x y pbW pbH
  refine ⟨r, hr, ?_⟩
  have hinv := search_final_invariant (Algo_PB_MV_Search.mk hrange vrange false)
    ectx cb PBidx x y pbW pbH
  rcases hinv with ⟨-, -, hall⟩ | ⟨c, hc, hcv, -, -, hs, hall⟩
  · obtain ⟨mx, my, hw, hv, hlt⟩ := hex
    have := hall (mx, my) ((mem_candidates _ _ _ _ _ _).mpr hw) hv
    simp only at this
    omega
  · obtain ⟨cx, cy⟩ := c
    refine ⟨cx, cy, (mem_candidates _ _ _ _ _ _).mp hc, hcv, ?_, ?_⟩
    · rw [hmv, hs]
    · intro mx2 my2 hw2 hv2
      have := hall (mx2, my2) ((mem_candidates _ _ _ _ _ _).mpr hw2) hv2
      exact this

/-- The tie of the witness input: the candidates (1,0) and (2,0) both have SAD
0, the candidate (0,0) has SAD 10, and `analyze` commits the displacement of
(1,0), the earlier of the two in raster order, with `mvd[0]` equal to it minus
the predictor `(8, 4)`. -/
theorem search_tie_break_example :
    candidate_cost tie_memory (luma_picture 0 3 1 16) (luma_picture 16 3 1 16) 1 0 1 1 0 0 = 10 ∧
    candidate_cost tie_memory (luma_picture 0 3 1 16) (luma_picture 16 3 1 16) 1 0 1 1 1 0 = 0 ∧
    candidate_cost tie_memory (luma_picture 0 3 1 16) (luma_picture 16 3 1 16) 1 0 1 1 2 0 = 0 ∧
    ∃ r, (Algo_PB_MV_Search.mk 1 0 false).analyze
        (ctx_of tie_memory (luma_picture 32 3 1 16) (luma_picture 16 3 1 16)
          (luma_picture 0 3 1 16) ⟨8, 4⟩ 0 0)
        (cb_with_mvd 0 0 2 0 0) 0 1 0 1 1 = some r ∧
      (r.cb.pb 0).motion.mv_0 = ⟨0, 0⟩ ∧
      (r.cb.pb 0).spec.mvd_0_0 = -8 ∧ (r.cb.pb 0).spec.mvd_0_1 = -4 := by
  refine ⟨by decide, by decide, by decide, _, rfl, by decide, by decide, by decide⟩

theorem candidate_cost_self_eq_zero (mem : Memory) (refimg inputimg : de265_image)
    (x y pbW pbH : Int)
    (hin : valid_candidate pbW pbH refimg.get_width refimg.get_height x y)
    (hid : ∀ col row, 0 ≤ col → col < refimg.get_width → 0 ≤ row → row < refimg.get_height →
      mem (refimg.get_image_plane_at_pos 0 col row) =
        mem (inputimg.get_image_plane_at_pos 0 col row)) :
    candidate_cost mem refimg inputimg x y pbW pbH x y = 0 := by
  unfold candidate_cost
  rw [(sad_run_eq _ _ _ _ _ _ _).1]
  unfold sad_reference
  apply Finset.sum_eq_zero
  intro j hj
  apply Finset.sum_eq_zero
  intro i hi
  have hj2 := Finset.mem_range.mp hj
  have hi2 := Finset.mem_range.mp hi
  unfold valid_candidate at hin
  have e1 : refimg.get_image_plane_at_pos 0 x y + (j : Int) * refimg.get_image_stride 0 +
      (i : Int) = refimg.get_image_plane_at_pos 0 (x + i) (y + j) := by
    unfold de265_image.get_image_plane_at_pos de265_image.get_image_stride
    ring
  have e2 : inputimg.get_image_plane_at_pos 0 x y + (j : Int) * inputimg.get_image_stride 0 +
      (i : Int) = inputimg.get_image_plane_at_pos 0 (x + i) (y + j) := by
    unfold de265_image.get_image_plane_at_pos de265_image.get_image_stride
    ring
  rw [e1, e2, hid (x + i) (y + j) (by omega) (by omega) (by omega) (by omega)]
  simp

/-- C5 as stated fails: with a flat picture of 2 x 1 samples used both as the
reference and as the input, a 1 x 1 block at (1,0) inside it and ranges
`Hr = 1`, `Vr = 0`, the candidate (0,0) also has SAD 0 and comes first in
raster order, so `analyze` commits `mv[0] = (-4, 0)` and not `(0, 0)`. -/
theorem search_identical_reference_not_zero :
    valid_candidate 1 1 2 1 1 0 ∧ (0 : Int) ≤ 1 ∧ (0 : Int) ≤ 0 ∧
    candidate_cost (flat_memory 100) (luma_picture 0 2 1 16) (luma_picture 0 2 1 16)
      1 0 1 1 0 0 = 0 ∧
    ∃ r, (Algo_PB_MV_Search.mk 1 0 false).analyze
        (ctx_of (flat_memory 100) (luma_picture 32 2 1 16) (luma_picture 0 2 1 16)
          (luma_picture 0 2 1 16) ⟨0, 0⟩ 0 0)
        (cb_with_mvd 0 0 1 0 0) 0 1 0 1 1 = some r ∧
      (r.cb.pb 0).motion.mv_0 = ⟨-4, 0⟩ ∧
      (r.cb.pb 0).motion.mv_0 ≠ ⟨0, 0⟩ := by
  refine ⟨by decide, by decide, by decide, by decide, _, rfl, by decide, by decide⟩

/-- C5, amended: for every picture, every block `(x, y, pbW, pbH)` lying inside
it and all ranges `Hr, Vr ≥ 0`, when the reference picture holds the same
samples as the input picture, the search strategy (residual coding disabled)
returns and commits the displacement of a valid candidate of the window with
SAD 0, the first such candidate in raster order; when no valid candidate of
the window before `(x, y)` in raster order has SAD 0, that candidate is
`(x, y)` and the committed `mv[0]` is `(0, 0)`. -/
theorem search_identical_reference (hrange vrange : Int) (ectx : encoder_context)
    (cb : enc_cb) (PBidx : Fin 4) (x y pbW pbH : Int)
    (hH : 0 ≤ hrange) (hV : 0 ≤ vrange)
    (hin : valid_candidate pbW pbH (ectx.get_image (ectx.frame_number - 1)).get_width
      (ectx.get_image (ectx.frame_number - 1)).get_height x y)
    (hid : ∀ col row, 0 ≤ col → col < (ectx.get_image (ectx.frame_number - 1)).get_width →
      0 ≤ row → row < (ectx.get_image (ectx.frame_number - 1)).get_height →
      ectx.mem ((ectx.get_image (ectx.frame_number - 1)).get_image_plane_at_pos 0 col row) =
        ectx.mem (ectx.input.get_image_plane_at_pos 0 col row)) :
    ∃ r, (Algo_PB_MV_Search.mk hrange vrange false).analyze ectx cb PBidx x y pbW pbH = some r ∧
      (∃ mx my, in_window x y hrange vrange mx my ∧
        valid_candidate pbW pbH (ectx.get_image (ectx.frame_number - 1)).get_width
          (ectx.get_image (ectx.frame_number - 1)).get_height mx my ∧
        candidate_cost ectx.mem (ectx.get_image (ectx.frame_number - 1)) ectx.input
          x y pbW pbH mx my = 0 ∧
        (r.cb.pb PBidx).motion.mv_0 = ⟨shiftLeft (mx - x) 2, shiftLeft (my - y) 2⟩ ∧
        ∀ mx2 my2, in_window x y hrange vrange mx2 my2 →
          valid_candidate pbW pbH (ectx.get_image (ectx.frame_number - 1)).get_width
            (ectx.get_image (ectx.frame_number - 1)).get_height mx2 my2 →
          candidate_cost ectx.mem (ectx.get_image (ectx.frame_number - 1)) ectx.input
            x y pbW pbH mx2 my2 = 0 →
          (mx2, my2) = (mx, my) ∨ raster_before mx my mx2 my2) ∧
      ((∀ mx2 my2, in_window x y hrange vrange mx2 my2 →
          valid_candidate pbW pbH (ectx.get_image (ectx.frame_number - 1)).get_width
            (ectx.get_image (ectx.frame_number - 1)).get_height mx2 my2 →
          raster_before mx2 my2 x y →
          candidate_cost ectx.mem (ectx.get_image (ectx.frame_number - 1)) ectx.input
            x y pbW pbH mx2 my2 ≠ 0) →
        (r.cb.pb PBidx).motion.mv_0 = ⟨0, 0⟩) := by
  have h0 := candidate_cost_self_eq_zero ectx.mem (ectx.get_image (ectx.frame_number - 1))
    ectx.input x y pbW pbH hin hid
  have hwin : in_window x y hrange vrange x y := by
    unfold in_window; omega
  obtain ⟨r, hr, mx, my, hw, hv, hmv, hall⟩ :=
    search_selects_of_cost_lt hrange vrange ectx cb PBidx x y pbW pbH
      ⟨x, y, hwin, hin, by rw [h0]; decide⟩
  have hself := hall x y hwin hin
  have hnn : 0 ≤ candidate_cost ectx.mem (ectx.get_image (ectx.frame_number - 1)) ectx.input
      x y pbW pbH mx my := sad_nonneg _ _ _ _ _ _ _
  have hc0 : candidate_cost ectx.mem (ectx.get_image (ectx.frame_number - 1)) ectx.input
      x y pbW pbH mx my = 0 := by omega
  refine ⟨r, hr, ⟨mx, my, hw, hv, hc0, hmv, ?_⟩, ?_⟩
  · intro mx2 my2 hw2 hv2 hz
    exact (hall mx2 my2 hw2 hv2).2 (by rw [hz, hc0])
  · intro hnone
    rcases hself.2 (by rw [h0, hc0]) with heq | hbefore
    · have hx : x = mx := congrArg Prod.fst heq
      have hy : y = my := congrArg Prod.snd heq
      rw [hmv, ← hx, ← hy]
      simp [shiftLeft]
    · exact absurd hc0 (hnone mx my hw hv hbefore)

theorem search_identical_reference_witness :
    (0 : Int) ≤ 1 ∧ (0 : Int) ≤ 0 ∧ valid_candidate 1 1 3 1 1 0 ∧
    (∀ col row : Int, 0 ≤ col → col < 3 → 0 ≤ row → row < 1 →
      tie_memory ((luma_picture 0 3 1 16).get_image_plane_at_pos 0 col row) =
        tie_memory ((luma_picture 0 3 1 16).get_image_plane_at_pos 0 col row)) ∧
    ∃ r, (Algo_PB_MV_Search.mk 1 0 false).analyze
        (ctx_of tie_memory (luma_picture 32 3 1 16) (luma_picture 0 3 1 16)
          (luma_picture 0 3 1 16) ⟨8, 4⟩ 0 0)
        (cb_with_mvd 0 0 2 0 0) 0 1 0 1 1 = some r ∧
      (r.cb.pb 0).motion.mv_0 = ⟨0, 0⟩ := by
  refine ⟨by decide, by decide, by decide, fun _ _ _ _ _ _ => rfl, ?_⟩
  obtain ⟨r, hr, -, hzero⟩ := search_identical_reference 1 0
    (ctx_of tie_memory (luma_picture 32 3 1 16) (luma_picture 0 3 1 16)
      (luma_picture 0 3 1 16) ⟨8, 4⟩ 0 0)
    (cb_with_mvd 0 0 2 0 0) 0 1 0 1 1 (by decide) (by decide) (by decide)
    (fun _ _ _ _ _ _ => rfl)
  refine ⟨r, hr, hzero ?_⟩
  intro mx2 my2 hw2 hv2 hb
  unfold in_window at hw2
  unfold raster_before at hb
  have hx : mx2 = 0 := by omega
  have hy : my2 = 0 := by omega
  subst hx hy
  decide

/-! ### The calls of `sad` made by the search -/

theorem search_step_calls (mem : Memory) (refimg inputimg : de265_image)
    (x y pbW pbH w h : Int) (s : SearchState) (mx my : Int) :
    (search_step mem refimg inputimg x y pbW pbH w h s mx my).calls =
      s.calls ++ (if valid_candidate pbW pbH w h mx my then
        [Call.sad (refimg.get_image_plane_at_pos 0 mx my) (refimg.get_image_stride 0)
          (inputimg.get_image_plane_at_pos 0 x y) (inputimg.get_image_stride 0) pbW pbH]
        else []) := by
  by_cases hv : valid_candidate pbW pbH w h mx my
  · rw [search_step_valid mem refimg inputimg x y pbW pbH w h s mx my hv, if_pos hv]
    split <;> rfl
  · rw [search_step_invalid mem refimg inputimg x y pbW pbH w h s mx my hv, if_neg hv]
    simp

theorem search_foldl_calls (mem : Memory) (refimg inputimg : de265_image)
    (x y pbW pbH w h : Int) (l : List (Int × Int)) :
    ∀ s : SearchState,
      (l.foldl (fun s c => search_step mem refimg inputimg x y pbW pbH w h s c.1 c.2) s).calls =
        s.calls ++ (l.filter (fun c => decide (valid_candidate pbW pbH w h c.1 c.2))).map
          (fun c => Call.sad (refimg.get_image_plane_at_pos 0 c.1 c.2)
            (refimg.get_image_stride 0) (inputimg.get_image_plane_at_pos 0 x y)
            (inputimg.get_image_stride 0) pbW pbH) := by
  induction l with
  | nil => intro s; simp
  | cons c l ih =>
    intro s
    rw [List.foldl_cons, ih, search_step_calls]
    by_cases hv : valid_candidate pbW pbH w h c.1 c.2
    · simp [hv, List.filter_cons]
    · simp [hv, List.filter_cons]

theorem commit_and_annotate_calls (ectx : encoder_context) (cb : enc_cb)
    (PBidx : Fin 4) (x y pbW pbH : Int) (mvp : MotionVector × MotionVector)
    (spec : motion_spec) (vec : PredVectorInfo) (calls : List Call) (r : AnalyzeResult)
    (hr : commit_and_annotate false ectx cb PBidx x y pbW pbH mvp spec vec calls = some r)
    (p1 stride1 p2 stride2 w h : Int) :
    Call.sad p1 stride1 p2 stride2 w h ∈ r.calls ↔ Call.sad p1 stride1 p2 stride2 w h ∈ calls := by
  simp only [commit_and_annotate, Bool.false_eq_true, if_false, Option.some.injEq] at hr
  rw [← hr]
  simp

theorem sad_reads_in_block (mem : Memory) (refimg : de265_image)
    (p2 stride2 pbW pbH mx my : Int) (q : Int × Int)
    (hq : q ∈ (sad_run mem (refimg.get_image_plane_at_pos 0 mx my) (refimg.get_image_stride 0)
      p2 stride2 pbW pbH).reads) :
    ∃ col row, mx ≤ col ∧ col < mx + pbW ∧ my ≤ row ∧ row < my + pbH ∧
      q.1 = refimg.get_image_plane_at_pos 0 col row := by
  rw [(sad_run_eq _ _ _ _ _ _ _).2] at hq
  unfold sad_reference_reads at hq
  simp only [List.mem_flatMap, List.mem_map, List.mem_range] at hq
  obtain ⟨j, hj, i, hi, rfl⟩ := hq
  refine ⟨mx + i, my + j, by omega, by omega, by omega, by omega, ?_⟩
  simp only [de265_image.get_image_plane_at_pos, de265_image.get_image_stride]
  ring

theorem search_final_calls (self : Algo_PB_MV_Search) (ectx : encoder_context)
    (cb : enc_cb) (PBidx : Fin 4) (x y pbW pbH : Int) (p1 stride1 p2 stride2 w h : Int) :
    Call.sad p1 stride1 p2 stride2 w h ∈ (search_final self ectx cb PBidx x y pbW pbH).calls ↔
      ∃ mx my, in_window x y self.hrange self.vrange mx my ∧
        valid_candidate pbW pbH (ectx.get_image (ectx.frame_number - 1)).get_width
          (ectx.get_image (ectx.frame_number - 1)).get_height mx my ∧
        Call.sad p1 stride1 p2 stride2 w h =
          Call.sad ((ectx.get_image (ectx.frame_number - 1)).get_image_plane_at_pos 0 mx my)
            ((ectx.get_image (ectx.frame_number - 1)).get_image_stride 0)
            (ectx.input.get_image_plane_at_pos 0 x y) (ectx.input.get_image_stride 0)
            pbW pbH := by
  unfold search_final
  rw [search_loop_eq_foldl, search_foldl_calls]
  simp only [List.mem_append, List.mem_singleton, List.mem_map, List.mem_filter,
    decide_eq_true_eq, reduceCtorEq, false_or]
  constructor
  · rintro ⟨c, ⟨hc, hv⟩, heq⟩
    exact ⟨c.1, c.2, (mem_candidates _ _ _ _ _ _).mp hc, hv, heq.symm⟩
  · rintro ⟨mx, my, hw, hv, heq⟩
    exact ⟨(mx, my), ⟨(mem_candidates _ _ _ _ _ _).mpr hw, hv⟩, heq.symm⟩

/-- C6: every call of `sad` that the search loops of
`Algo_PB_MV_Search::analyze` make, for every input, is for a candidate
`(mx, my)` of the window with `0 ≤ mx`, `mx + pbW ≤ refWidth`, `0 ≤ my` and
`my + pbH ≤ refHeight`, and every reference sample that `sad` reads in such a
call is the sample of a column in `[0, refWidth)` and a row in
`[0, refHeight)` of the reference luma plane; conversely `sad` is called for
every valid candidate of the window. With residual coding disabled `analyze`
returns and its calls of `sad` are those of the search loops. -/
theorem search_evaluates_only_in_bounds (hrange vrange : Int) (res : Bool)
    (ectx : encoder_context) (cb : enc_cb) (PBidx : Fin 4) (x y pbW pbH : Int) :
    (∀ p1 stride1 p2 stride2 w h,
      Call.sad p1 stride1 p2 stride2 w h ∈
        (search_final (Algo_PB_MV_Search.mk hrange vrange res) ectx cb PBidx x y pbW pbH).calls →
      ∃ mx my, in_window x y hrange vrange mx my ∧
        0 ≤ mx ∧ mx + pbW ≤ (ectx.get_image (ectx.frame_number - 1)).get_width ∧
        0 ≤ my ∧ my + pbH ≤ (ectx.get_image (ectx.frame_number - 1)).get_height ∧
        p1 = (ectx.get_image (ectx.frame_number - 1)).get_image_plane_at_pos 0 mx my ∧
        stride1 = (ectx.get_image (ectx.frame_number - 1)).get_image_stride 0 ∧
        w = pbW ∧ h = pbH ∧
        ∀ q ∈ (sad_run ectx.mem p1 stride1 p2 stride2 w h).reads,
          ∃ col row,
            0 ≤ col ∧ col < (ectx.get_image (ectx.frame_number - 1)).get_width ∧
            0 ≤ row ∧ row < (ectx.get_image (ectx.frame_number - 1)).get_height ∧
            q.1 = (ectx.get_image (ectx.frame_number - 1)).get_image_plane_at_pos
              0 col row) ∧
    (∀ mx my, in_window x y hrange vrange mx my →
      valid_candidate pbW pbH (ectx.get_image (ectx.frame_number - 1)).get_width
        (ectx.get_image (ectx.frame_number - 1)).get_height mx my →
      Call.sad ((ectx.get_image (ectx.frame_number - 1)).get_image_plane_at_pos 0 mx my)
        ((ectx.get_image (ectx.frame_number - 1)).get_image_stride 0)
        (ectx.input.get_image_plane_at_pos 0 x y) (ectx.input.get_image_stride 0)
        pbW pbH ∈
        (search_final (Algo_PB_MV_Search.mk hrange vrange res) ectx cb PBidx
          x y pbW pbH).calls) ∧
    (∃ r, (Algo_PB_MV_Search.mk hrange vrange false).analyze ectx cb PBidx x y pbW pbH = some r ∧
      ∀ p1 stride1 p2 stride2 w h,
        Call.sad p1 stride1 p2 stride2 w h ∈ r.calls ↔
          Call.sad p1 stride1 p2 stride2 w h ∈
            (search_final (Algo_PB_MV_Search.mk hrange vrange false) ectx cb PBidx
              x y pbW pbH).calls) := by
  refine ⟨?_, ?_, ?_⟩
  · intro p1 stride1 p2 stride2 w h hmem
    obtain ⟨mx, my, hw, hv, heq⟩ := (search_final_calls _ ectx cb PBidx x y pbW pbH
      p1 stride1 p2 stride2 w h).mp hmem
    simp only [Call.sad.injEq] at heq
    obtain ⟨rfl, rfl, rfl, rfl, rfl, rfl⟩ := heq
    have hv2 := hv
    unfold valid_candidate at hv2
    refine ⟨mx, my, hw, hv2.1, hv2.2.1, hv2.2.2.1, hv2.2.2.2, rfl, rfl, rfl, rfl, ?_⟩
    intro q hq
    obtain ⟨col, row, h1, h2, h3, h4, h5⟩ := sad_reads_in_block _ _ _ _ _ _ _ _ q hq
    exact ⟨col, row, by omega, by omega, by omega, by omega, h5⟩
  · intro mx my hw hv
    exact (search_final_calls _ ectx cb PBidx x y pbW pbH _ _ _ _ _ _).mpr
      ⟨mx, my, hw, hv, rfl⟩
  · obtain ⟨r, hr, -⟩ := search_analyze_eq hrange vrange ectx cb PBidx x y pbW pbH
    exact ⟨r, hr, commit_and_annotate_calls ectx cb PBidx x y pbW pbH _ _ _ _ r hr⟩

/-! ### `de265_alloc_image` -/

theorem round_up_alignment (a : Int) (ha : 0 ≤ a) :
    a ≤ Int.tdiv (a + 2 * 0 + alignment - 1) alignment * alignment ∧
    Int.tmod (Int.tdiv (a + 2 * 0 + alignment - 1) alignment * alignment) 16 = 0 ∧
    Int.tdiv (a + 2 * 0 + alignment - 1) alignment * alignment < a + 16 := by
  unfold alignment
  rw [Int.tdiv_eq_ediv (by omega) (by omega)]
  have hnn : 0 ≤ (a + 2 * 0 + 16 - 1) / 16 * 16 := by omega
  rw [Int.tmod_eq_emod hnn (by omega)]
  omega

theorem alloc_image_info_planes (img : de265_image) (sps : seq_parameter_set) (hp : Heap) :
    (alloc_image_info img sps hp).1.y_mem = img.y_mem ∧
    (alloc_image_info img sps hp).1.y = img.y ∧
    (alloc_image_info img sps hp).1.cb_mem = img.cb_mem ∧
    (alloc_image_info img sps hp).1.cb = img.cb ∧
    (alloc_image_info img sps hp).1.cr_mem = img.cr_mem ∧
    (alloc_image_info img sps hp).1.cr = img.cr ∧
    (alloc_image_info img sps hp).1.stride = img.stride ∧
    (alloc_image_info img sps hp).1.chroma_stride = img.chroma_stride ∧
    (alloc_image_info img sps hp).1.width = img.width ∧
    (alloc_image_info img sps hp).1.height = img.height ∧
    (alloc_image_info img sps hp).1.chroma_width = img.chroma_width ∧
    (alloc_image_info img sps hp).1.chroma_height = img.chroma_height ∧
    (alloc_image_info img sps hp).1.chroma_format = img.chroma_format ∧
    (alloc_image_info img sps hp).1.border = img.border := by
  unfold alloc_image_info
  simp only
  split_ifs <;> simp

theorem alloc_image_info_calls (img : de265_image) (sps : seq_parameter_set) (hp : Heap) :
    ∃ L, (alloc_image_info img sps hp).2.calls = hp.calls ++ L ∧
      ∀ call ∈ L, call.is_aligned = false := by
  unfold alloc_image_info
  simp only
  split_ifs <;>
    simp [Heap.free, Heap.malloc, MemCall.is_aligned]

theorem alloc_image_buffer_reuse (img : de265_image) (w h : Int) (c : de265_chroma)
    (hp : Heap)
    (hsame : ¬ (img.width ≠ w ∨ img.height ≠ h ∨ img.chroma_format ≠ c ∨ img.border ≠ 0)) :
    alloc_image_buffer img w h c hp = (img, hp) := by
  unfold alloc_image_buffer
  simp only
  rw [if_neg hsame]

theorem alloc_image_buffer_geometry (img : de265_image) (w h : Int) (c : de265_chroma)
    (hp : Heap) :
    (alloc_image_buffer img w h c hp).1.width = w ∧
    (alloc_image_buffer img w h c hp).1.height = h ∧
    (alloc_image_buffer img w h c hp).1.chroma_format = c ∧
    (alloc_image_buffer img w h c hp).1.border = 0 := by
  by_cases hre : img.width ≠ w ∨ img.height ≠ h ∨ img.chroma_format ≠ c ∨ img.border ≠ 0
  · unfold alloc_image_buffer
    simp only
    rw [if_pos hre]
    split_ifs <;> simp
  · rw [alloc_image_buffer_reuse img w h c hp hre]
    simp only [not_or, not_not] at hre
    exact hre

theorem alloc_image_buffer_realloc (img : de265_image) (w h : Int) (c : de265_chroma)
    (hp : Heap)
    (hre : img.width ≠ w ∨ img.height ≠ h ∨ img.chroma_format ≠ c ∨ img.border ≠ 0) :
    (alloc_image_buffer img w h c hp).1.stride =
      Int.tdiv (w + 2 * 0 + alignment - 1) alignment * alignment ∧
    (alloc_image_buffer img w h c hp).1.chroma_width =
      (if c = de265_chroma.de265_chroma_420 then Int.tdiv (w + 1) 2 else w) ∧
    (alloc_image_buffer img w h c hp).1.chroma_stride =
      Int.tdiv ((if c = de265_chroma.de265_chroma_420 then Int.tdiv (w + 1) 2 else w) +
        2 * 0 + alignment - 1) alignment * alignment ∧
    ∃ L, (alloc_image_buffer img w h c hp).2.calls =
        hp.calls ++ MemCall.FREE_ALIGNED img.y_mem ::
          MemCall.ALLOC_ALIGNED_16 ((alloc_image_buffer img w h c hp).1.stride * h)
            (alloc_image_buffer img w h c hp).1.y_mem :: L := by
  unfold alloc_image_buffer
  simp only
  rw [if_pos hre]
  split_ifs <;>
    simp [Heap.FREE_ALIGNED, Heap.ALLOC_ALIGNED_16]

/-- C9: when `de265_alloc_image(img, w, h, c, sps)` (re)allocates the planes
(the requested width, height, chroma format or border differs from the
picture's) and `w ≥ 0`, the new luma stride satisfies `stride ≥ w`,
`stride % 16 = 0` and `stride < w + 16`, and the new chroma stride satisfies
`chroma_stride ≥ chroma_width`, `chroma_stride % 16 = 0` and
`chroma_stride < chroma_width + 16`, where `width = w` and `chroma_width` is
`(w+1)/2` for 4:2:0 and `w` otherwise. -/
theorem alloc_image_stride_aligned (img : de265_image) (w h : Int) (c : de265_chroma)
    (sps : Option seq_parameter_set) (hp : Heap) (hw : 0 ≤ w)
    (hre : img.width ≠ w ∨ img.height ≠ h ∨ img.chroma_format ≠ c ∨ img.border ≠ 0) :
    (de265_alloc_image img w h c sps hp).1.width = w ∧
    w ≤ (de265_alloc_image img w h c sps hp).1.stride ∧
    Int.tmod (de265_alloc_image img w h c sps hp).1.stride 16 = 0 ∧
    (de265_alloc_image img w h c sps hp).1.stride < w + 16 ∧
    (de265_alloc_image img w h c sps hp).1.chroma_width =
      (if c = de265_chroma.de265_chroma_420 then Int.tdiv (w + 1) 2 else w) ∧
    (de265_alloc_image img w h c sps hp).1.chroma_width ≤
      (de265_alloc_image img w h c sps hp).1.chroma_stride ∧
    Int.tmod (de265_alloc_image img w h c sps hp).1.chroma_stride 16 = 0 ∧
    (de265_alloc_image img w h c sps hp).1.chroma_stride <
      (de265_alloc_image img w h c sps hp).1.chroma_width + 16 := by
  obtain ⟨hs, hcw, hcs, -⟩ := alloc_image_buffer_realloc img w h c hp hre
  have hwd := (alloc_image_buffer_geometry img w h c hp).1
  have hcw0 : 0 ≤ (if c = de265_chroma.de265_chroma_420 then Int.tdiv (w + 1) 2 else w) := by
    split
    · rw [Int.tdiv_eq_ediv (by omega) (by omega)]; omega
    · exact hw
  have h1 := round_up_alignment w hw
  have h2 := round_up_alignment _ hcw0
  have key : ∀ r : de265_image, r.stride = (alloc_image_buffer img w h c hp).1.stride →
      r.chroma_stride = (alloc_image_buffer img w h c hp).1.chroma_stride →
      r.width = (alloc_image_buffer img w h c hp).1.width →
      r.chroma_width = (alloc_image_buffer img w h c hp).1.chroma_width →
      r.width = w ∧ w ≤ r.stride ∧ Int.tmod r.stride 16 = 0 ∧ r.stride < w + 16 ∧
      r.chroma_width =
        (if c = de265_chroma.de265_chroma_420 then Int.tdiv (w + 1) 2 else w) ∧
      r.chroma_width ≤ r.chroma_stride ∧ Int.tmod r.chroma_stride 16 = 0 ∧
      r.chroma_stride < r.chroma_width + 16 := by
    intro r e1 e2 e3 e4
    rw [e1, e2, e3, e4, hs, hcs, hcw, hwd]
    exact ⟨rfl, h1.1, h1.2.1, h1.2.2, rfl, h2.1, h2.2.1, h2.2.2⟩
  cases sps with
  | none => exact key _ rfl rfl rfl rfl
  | some sp =>
    have hp2 := alloc_image_info_planes (alloc_image_buffer img w h c hp).1 sp
      (alloc_image_buffer img w h c hp).2
    exact key _ hp2.2.2.2.2.2.2.1 hp2.2.2.2.2.2.2.2.1 hp2.2.2.2.2.2.2.2.2.1
      hp2.2.2.2.2.2.2.2.2.2.2.1

theorem alloc_image_stride_aligned_witness :
    (0 : Int) ≤ 35 ∧
    (de265_init_image.width ≠ 35 ∨ de265_init_image.height ≠ 20 ∨
      de265_init_image.chroma_format ≠ de265_chroma.de265_chroma_420 ∨
      de265_init_image.border ≠ 0) ∧
    (de265_alloc_image de265_init_image 35 20 de265_chroma.de265_chroma_420 none
      fresh_heap).1.stride = 48 ∧
    (de265_alloc_image de265_init_image 35 20 de265_chroma.de265_chroma_420 none
      fresh_heap).1.chroma_stride = 32 ∧
    (de265_alloc_image de265_init_image 35 20 de265_chroma.de265_chroma_420 none
      fresh_heap).1.width = 35 ∧
    35 ≤ (de265_alloc_image de265_init_image 35 20 de265_chroma.de265_chroma_420 none
      fresh_heap).1.stride ∧
    Int.tmod (de265_alloc_image de265_init_image 35 20 de265_chroma.de265_chroma_420 none
      fresh_heap).1.stride 16 = 0 ∧
    (de265_alloc_image de265_init_image 35 20 de265_chroma.de265_chroma_420 none
      fresh_heap).1.stride < 35 + 16 ∧
    (de265_alloc_image de265_init_image 35 20 de265_chroma.de265_chroma_420 none
      fresh_heap).1.chroma_width =
      (if de265_chroma.de265_chroma_420 = de265_chroma.de265_chroma_420
        then Int.tdiv (35 + 1) 2 else 35) ∧
    (de265_alloc_image de265_init_image 35 20 de265_chroma.de265_chroma_420 none
      fresh_heap).1.chroma_width ≤
      (de265_alloc_image de265_init_image 35 20 de265_chroma.de265_chroma_420 none
        fresh_heap).1.chroma_stride ∧
    Int.tmod (de265_alloc_image de265_init_image 35 20 de265_chroma.de265_chroma_420 none
      fresh_heap).1.chroma_stride 16 = 0 ∧
    (de265_alloc_image de265_init_image 35 20 de265_chroma.de265_chroma_420 none
      fresh_heap).1.chroma_stride <
      (de265_alloc_image de265_init_image 35 20 de265_chroma.de265_chroma_420 none
        fresh_heap).1.chroma_width + 16 :=
  ⟨by decide, by decide, by decide, by decide,
   alloc_image_stride_aligned de265_init_image 35 20 de265_chroma.de265_chroma_420 none
     fresh_heap (by decide) (by decide)⟩

theorem de265_alloc_image_planes (img : de265_image) (w h : Int) (c : de265_chroma)
    (sps : Option seq_parameter_set) (hp : Heap) :
    same_pixel_planes (de265_alloc_image img w h c sps hp).1 (alloc_image_buffer img w h c hp).1 ∧
    (de265_alloc_image img w h c sps hp).1.chroma_format =
      (alloc_image_buffer img w h c hp).1.chroma_format ∧
    (de265_alloc_image img w h c sps hp).1.border = (alloc_image_buffer img w h c hp).1.border := by
  cases sps with
  | none => exact ⟨⟨rfl, rfl, rfl, rfl, rfl, rfl, rfl, rfl, rfl, rfl, rfl, rfl⟩, rfl, rfl⟩
  | some sp =>
    obtain ⟨h1, h2, h3, h4, h5, h6, h7, h8, h9, h10, h11, h12, h13, h14⟩ :=
      alloc_image_info_planes (alloc_image_buffer img w h c hp).1 sp
        (alloc_image_buffer img w h c hp).2
    exact ⟨⟨h1, h2, h3, h4, h5, h6, h7, h8, h9, h10, h11, h12⟩, h13, h14⟩

theorem de265_alloc_image_calls (img : de265_image) (w h : Int) (c : de265_chroma)
    (sps : Option seq_parameter_set) (hp : Heap) :
    ∃ L, (de265_alloc_image img w h c sps hp).2.calls =
        (alloc_image_buffer img w h c hp).2.calls ++ L ∧
      ∀ call ∈ L, call.is_aligned = false := by
  cases sps with
  | none => exact ⟨[], by simp [de265_alloc_image], by simp⟩
  | some sp =>
    exact alloc_image_info_calls (alloc_image_buffer img w h c hp).1 sp
      (alloc_image_buffer img w h c hp).2

theorem de265_alloc_image_aligned_calls_iff (img : de265_image) (w h : Int)
    (c : de265_chroma) (sps : Option seq_parameter_set) (hp : Heap) :
    ((∃ call ∈ hp.calls_since (de265_alloc_image img w h c sps hp).2, call.is_aligned = true) ↔
      (img.width ≠ w ∨ img.height ≠ h ∨ img.chroma_format ≠ c ∨ img.border ≠ 0)) ∧
    ((img.width ≠ w ∨ img.height ≠ h ∨ img.chroma_format ≠ c ∨ img.border ≠ 0) →
      MemCall.FREE_ALIGNED img.y_mem ∈ hp.calls_since (de265_alloc_image img w h c sps hp).2 ∧
      MemCall.ALLOC_ALIGNED_16 ((de265_alloc_image img w h c sps hp).1.stride * h)
        (de265_alloc_image img w h c sps hp).1.y_mem ∈
          hp.calls_since (de265_alloc_image img w h c sps hp).2) := by
  obtain ⟨L, hL, hLa⟩ := de265_alloc_image_calls img w h c sps hp
  obtain ⟨hpl, -, -⟩ := de265_alloc_image_planes img w h c sps hp
  by_cases hre : img.width ≠ w ∨ img.height ≠ h ∨ img.chroma_format ≠ c ∨ img.border ≠ 0
  · obtain ⟨-, -, -, L2, hL2⟩ := alloc_image_buffer_realloc img w h c hp hre
    have hsince : hp.calls_since (de265_alloc_image img w h c sps hp).2 =
        (MemCall.FREE_ALIGNED img.y_mem ::
          MemCall.ALLOC_ALIGNED_16 ((alloc_image_buffer img w h c hp).1.stride * h)
            (alloc_image_buffer img w h c hp).1.y_mem :: L2) ++ L := by
      unfold Heap.calls_since
      rw [hL, hL2, List.append_assoc, List.drop_left]
    rw [hsince, hpl.1, hpl.2.2.2.2.2.2.1]
    refine ⟨⟨fun _ => hre, fun _ => ⟨MemCall.FREE_ALIGNED img.y_mem, by simp, rfl⟩⟩, fun _ => ?_⟩
    constructor <;> simp
  · have hsince : hp.calls_since (de265_alloc_image img w h c sps hp).2 = L := by
      unfold Heap.calls_since
      rw [hL, alloc_image_buffer_reuse img w h c hp hre, List.drop_left]
    rw [hsince]
    refine ⟨⟨?_, fun h => absurd h hre⟩, fun h => absurd h hre⟩
    rintro ⟨call, hc, ha⟩
    rw [hLa call hc] at ha
    exact absurd ha (by decide)

/-- Reuse of the pixel planes: `de265_alloc_image` makes aligned allocator calls
(which it uses for the pixel planes only) if and only if the requested width,
height or chroma format differs from the picture's `width`, `height`,
`chroma_format`, or the picture's border differs from 0; in that case it frees
the old `y_mem` and allocates the new one (the full list of aligned calls is
`de265_alloc_image_aligned_calls`), otherwise the pixel-plane state is left as
it was. A
second call with the same `(w, h, c)`, whatever its `sps` and the allocator
state, makes no aligned allocator call and leaves `y_mem`, `y`, `cb_mem`, `cb`,
`cr_mem`, `cr`, `stride`, `chroma_stride`, `width`, `height`, `chroma_width`
and `chroma_height` unchanged. -/
theorem alloc_image_reuse (img : de265_image) (w h : Int) (c : de265_chroma)
    (sps : Option seq_parameter_set) (hp : Heap) :
    ((∃ call ∈ hp.calls_since (de265_alloc_image img w h c sps hp).2, call.is_aligned = true) ↔
      (img.width ≠ w ∨ img.height ≠ h ∨ img.chroma_format ≠ c ∨ img.border ≠ 0)) ∧
    ((img.width ≠ w ∨ img.height ≠ h ∨ img.chroma_format ≠ c ∨ img.border ≠ 0) →
      MemCall.FREE_ALIGNED img.y_mem ∈ hp.calls_since (de265_alloc_image img w h c sps hp).2 ∧
      MemCall.ALLOC_ALIGNED_16 ((de265_alloc_image img w h c sps hp).1.stride * h)
        (de265_alloc_image img w h c sps hp).1.y_mem ∈
          hp.calls_since (de265_alloc_image img w h c sps hp).2) ∧
    (¬ (img.width ≠ w ∨ img.height ≠ h ∨ img.chroma_format ≠ c ∨ img.border ≠ 0) →
      same_pixel_planes (de265_alloc_image img w h c sps hp).1 img) ∧
    (∀ (sps2 : Option seq_parameter_set) (hp2 : Heap),
      same_pixel_planes
        (de265_alloc_image (de265_alloc_image img w h c sps hp).1 w h c sps2 hp2).1
        (de265_alloc_image img w h c sps hp).1 ∧
      ∀ call ∈ hp2.calls_since
          (de265_alloc_image (de265_alloc_image img w h c sps hp).1 w h c sps2 hp2).2,
        call.is_aligned = false) := by
  have hreuse : ∀ (im : de265_image) (sp : Option seq_parameter_set) (hq : Heap),
      ¬ (im.width ≠ w ∨ im.height ≠ h ∨ im.chroma_format ≠ c ∨ im.border ≠ 0) →
      same_pixel_planes (de265_alloc_image im w h c sp hq).1 im := by
    intro im sp hq hsame
    have := (de265_alloc_image_planes im w h c sp hq).1
    rw [alloc_image_buffer_reuse im w h c hq hsame] at this
    exact this
  obtain ⟨h1, h2⟩ := de265_alloc_image_aligned_calls_iff img w h c sps hp
  refine ⟨h1, h2, hreuse img sps hp, ?_⟩
  intro sps2 hp2
  obtain ⟨hpl, hcf, hbd⟩ := de265_alloc_image_planes img w h c sps hp
  obtain ⟨gw, gh, gc, gb⟩ := alloc_image_buffer_geometry img w h c hp
  have hsame : ¬ ((de265_alloc_image img w h c sps hp).1.width ≠ w ∨
      (de265_alloc_image img w h c sps hp).1.height ≠ h ∨
      (de265_alloc_image img w h c sps hp).1.chroma_format ≠ c ∨
      (de265_alloc_image img w h c sps hp).1.border ≠ 0) := by
    rw [hpl.2.2.2.2.2.2.2.2.1, hpl.2.2.2.2.2.2.2.2.2.1, hcf, hbd, gw, gh, gc, gb]
    simp
  refine ⟨hreuse _ sps2 hp2 hsame, ?_⟩
  intro call hc
  have hiff := (de265_alloc_image_aligned_calls_iff (de265_alloc_image img w h c sps hp).1
    w h c sps2 hp2).1
  cases hcall : call.is_aligned with
  | false => rfl
  | true => exact absurd (hiff.mp ⟨call, hc, hcall⟩) hsame

theorem alloc_image_buffer_realloc_calls (img : de265_image) (w h : Int) (c : de265_chroma)
    (hp : Heap)
    (hre : img.width ≠ w ∨ img.height ≠ h ∨ img.chroma_format ≠ c ∨ img.border ≠ 0) :
    (alloc_image_buffer img w h c hp).2.calls = hp.calls ++
      (MemCall.FREE_ALIGNED img.y_mem ::
        MemCall.ALLOC_ALIGNED_16 ((alloc_image_buffer img w h c hp).1.stride * h)
          (alloc_image_buffer img w h c hp).1.y_mem ::
        (if c ≠ de265_chroma.de265_chroma_mono then
          [MemCall.FREE_ALIGNED img.cb_mem, MemCall.FREE_ALIGNED img.cr_mem,
           MemCall.ALLOC_ALIGNED_16
             ((alloc_image_buffer img w h c hp).1.chroma_stride *
               (alloc_image_buffer img w h c hp).1.chroma_height)
             (alloc_image_buffer img w h c hp).1.cb_mem,
           MemCall.ALLOC_ALIGNED_16
             ((alloc_image_buffer img w h c hp).1.chroma_stride *
               (alloc_image_buffer img w h c hp).1.chroma_height)
             (alloc_image_buffer img w h c hp).1.cr_mem]
         else [])) ∧
    (c = de265_chroma.de265_chroma_mono →
      (alloc_image_buffer img w h c hp).1.cb_mem = NULL ∧
      (alloc_image_buffer img w h c hp).1.cr_mem = NULL ∧
      (alloc_image_buffer img w h c hp).1.cb = NULL ∧
      (alloc_image_buffer img w h c hp).1.cr = NULL) := by
  unfold alloc_image_buffer
  simp only
  rw [if_pos hre]
  split_ifs <;>
    simp_all [Heap.FREE_ALIGNED, Heap.ALLOC_ALIGNED_16]

/-- The aligned allocator calls of a reallocating `de265_alloc_image`, in
order: the old luma plane is freed and the new one allocated; for a colour
format the old chroma planes are freed and the new ones allocated; for
`de265_chroma_mono` there is no further aligned call and the four chroma
pointers are set to `NULL`. -/
theorem de265_alloc_image_aligned_calls (img : de265_image) (w h : Int)
    (c : de265_chroma) (sps : Option seq_parameter_set) (hp : Heap)
    (hre : img.width ≠ w ∨ img.height ≠ h ∨ img.chroma_format ≠ c ∨ img.border ≠ 0) :
    (hp.calls_since (de265_alloc_image img w h c sps hp).2).filter
        (fun call => call.is_aligned) =
      MemCall.FREE_ALIGNED img.y_mem ::
        MemCall.ALLOC_ALIGNED_16 ((de265_alloc_image img w h c sps hp).1.stride * h)
          (de265_alloc_image img w h c sps hp).1.y_mem ::
        (if c ≠ de265_chroma.de265_chroma_mono then
          [MemCall.FREE_ALIGNED img.cb_mem, MemCall.FREE_ALIGNED img.cr_mem,
           MemCall.ALLOC_ALIGNED_16
             ((de265_alloc_image img w h c sps hp).1.chroma_stride *
               (de265_alloc_image img w h c sps hp).1.chroma_height)
             (de265_alloc_image img w h c sps hp).1.cb_mem,
           MemCall.ALLOC_ALIGNED_16
             ((de265_alloc_image img w h c sps hp).1.chroma_stride *
               (de265_alloc_image img w h c sps hp).1.chroma_height)
             (de265_alloc_image img w h c sps hp).1.cr_mem]
         else []) ∧
    (c = de265_chroma.de265_chroma_mono →
      (de265_alloc_image img w h c sps hp).1.cb_mem = NULL ∧
      (de265_alloc_image img w h c sps hp).1.cr_mem = NULL ∧
      (de265_alloc_image img w h c sps hp).1.cb = NULL ∧
      (de265_alloc_image img w h c sps hp).1.cr = NULL) := by
  obtain ⟨L, hL, hLa⟩ := de265_alloc_image_calls img w h c sps hp
  obtain ⟨⟨e1, e2, e3, e4, e5, e6, e7, e8, e9, e10, e11, e12⟩, -, -⟩ :=
    de265_alloc_image_planes img w h c sps hp
  obtain ⟨hcalls, hnull⟩ := alloc_image_buffer_realloc_calls img w h c hp hre
  have hfil : L.filter (fun call => call.is_aligned) = [] := by
    rw [List.filter_eq_nil_iff]
    intro call hc
    rw [hLa call hc]
    decide
  constructor
  · unfold Heap.calls_since
    rw [hL, hcalls, List.append_assoc, List.drop_left, List.filter_append, hfil,
      List.append_nil, e1, e3, e5, e7, e8, e12]
    split_ifs <;> simp [MemCall.is_aligned]
  · intro hc
    rw [e3, e4, e5, e6]
    exact hnull hc

/-- C10, the code at a failing input: `picture_a`, a 35 x 20 picture in 4:2:0
format with planes at 4096, 8192 and 12288, is given to `de265_alloc_image`
with the same size and the format `de265_chroma_mono`. The format differs, so
the planes are reallocated: the luma plane at 4096 is freed and a new one of
`48 * 20` bytes allocated, but the chroma planes at 8192 and 12288 are not
freed: the allocator sees no other call, and `cb_mem`, `cr_mem`, `cb`, `cr`
are overwritten with `NULL`. With the format `de265_chroma_422` instead, the
same call frees both chroma planes before allocating the new ones. -/
theorem alloc_image_mono_drops_chroma_planes :
    picture_a.y_mem = 4096 ∧ picture_a.cb_mem = 8192 ∧ picture_a.cr_mem = 12288 ∧
    (picture_a.width ≠ 35 ∨ picture_a.height ≠ 20 ∨
      picture_a.chroma_format ≠ de265_chroma.de265_chroma_mono ∨ picture_a.border ≠ 0) ∧
    (de265_alloc_image de265_init_image 35 20 de265_chroma.de265_chroma_420 none
        fresh_heap).2.calls_since
      (de265_alloc_image picture_a 35 20 de265_chroma.de265_chroma_mono none
        (de265_alloc_image de265_init_image 35 20 de265_chroma.de265_chroma_420 none
          fresh_heap).2).2 =
      [MemCall.FREE_ALIGNED 4096, MemCall.ALLOC_ALIGNED_16 960 16384] ∧
    MemCall.FREE_ALIGNED 8192 ∉
      (de265_alloc_image picture_a 35 20 de265_chroma.de265_chroma_mono none
        (de265_alloc_image de265_init_image 35 20 de265_chroma.de265_chroma_420 none
          fresh_heap).2).2.calls ∧
    MemCall.FREE_ALIGNED 12288 ∉
      (de265_alloc_image picture_a 35 20 de265_chroma.de265_chroma_mono none
        (de265_alloc_image de265_init_image 35 20 de265_chroma.de265_chroma_420 none
          fresh_heap).2).2.calls ∧
    (de265_alloc_image picture_a 35 20 de265_chroma.de265_chroma_mono none
      (de265_alloc_image de265_init_image 35 20 de265_chroma.de265_chroma_420 none
        fresh_heap).2).1.cb_mem = NULL ∧
    (de265_alloc_image picture_a 35 20 de265_chroma.de265_chroma_mono none
      (de265_alloc_image de265_init_image 35 20 de265_chroma.de265_chroma_420 none
        fresh_heap).2).1.cr_mem = NULL ∧
    (de265_alloc_image picture_a 35 20 de265_chroma.de265_chroma_mono none
      (de265_alloc_image de265_init_image 35 20 de265_chroma.de265_chroma_420 none
        fresh_heap).2).1.cb = NULL ∧
    (de265_alloc_image picture_a 35 20 de265_chroma.de265_chroma_mono none
      (de265_alloc_image de265_init_image 35 20 de265_chroma.de265_chroma_420 none
        fresh_heap).2).1.cr = NULL ∧
    (de265_alloc_image de265_init_image 35 20 de265_chroma.de265_chroma_420 none
        fresh_heap).2.calls_since
      (de265_alloc_image picture_a 35 20 de265_chroma.de265_chroma_422 none
        (de265_alloc_image de265_init_image 35 20 de265_chroma.de265_chroma_420 none
          fresh_heap).2).2 =
      [MemCall.FREE_ALIGNED 4096, MemCall.ALLOC_ALIGNED_16 960 16384,
       MemCall.FREE_ALIGNED 8192, MemCall.FREE_ALIGNED 12288,
       MemCall.ALLOC_ALIGNED_16 480 20480, MemCall.ALLOC_ALIGNED_16 480 24576] := by
  refine ⟨by decide, by decide, by decide, by decide, by decide, by decide, by decide,
    by decide, by decide, by decide, by decide, by decide⟩

/-! ### `de265_fill_image` and `get_image_plane` -/

theorem planes_consistent_init : planes_consistent de265_init_image := by
  unfold planes_consistent de265_init_image alignment
  decide

theorem planes_consistent_alloc_image_buffer (img : de265_image) (w h : Int)
    (c : de265_chroma) (hp : Heap) (hc : planes_consistent img) :
    planes_consistent (alloc_image_buffer img w h c hp).1 := by
  by_cases hre : img.width ≠ w ∨ img.height ≠ h ∨ img.chroma_format ≠ c ∨ img.border ≠ 0
  · unfold alloc_image_buffer planes_consistent
    simp only
    rw [if_pos hre]
    split_ifs <;> simp [NULL, Heap.FREE_ALIGNED, Heap.ALLOC_ALIGNED_16]
  · rw [alloc_image_buffer_reuse img w h c hp hre]
    exact hc

theorem planes_consistent_alloc_image (img : de265_image) (w h : Int)
    (c : de265_chroma) (sps : Option seq_parameter_set) (hp : Heap)
    (hc : planes_consistent img) :
    planes_consistent (de265_alloc_image img w h c sps hp).1 := by
  have hb := planes_consistent_alloc_image_buffer img w h c hp hc
  obtain ⟨⟨h1, h2, h3, h4, h5, h6, h7, h8, h9, -, h11, -⟩, -, hbd⟩ :=
    de265_alloc_image_planes img w h c sps hp
  unfold planes_consistent at hb ⊢
  rw [hbd, h2, h1, h4, h3, h6, h5, h7, h8, h9, h11]
  exact hb

theorem planes_consistent_alloc_sequence (reqs : List AllocRequest) :
    ∀ (img : de265_image) (hp : Heap), planes_consistent img →
      planes_consistent (alloc_sequence reqs img hp).1 := by
  induction reqs with
  | nil => intro img hp hc; exact hc
  | cons r reqs ih =>
    intro img hp hc
    unfold alloc_sequence
    rw [List.foldl_cons]
    exact ih _ _ (planes_consistent_alloc_image img r.w r.h r.c r.sps hp hc)

theorem to_uint8_val (v : Int) (h0 : 0 ≤ v) (h1 : v ≤ 255) : ((to_uint8 v).val : Int) = v := by
  unfold to_uint8
  simp only
  omega

theorem memset_covered (mem : Memory) (s c n a : Int) (h : s ≤ a ∧ a < s + n) :
    memset mem s c n a = to_uint8 c := by
  unfold memset
  rw [if_pos h]

theorem memset_keeps (mem : Memory) (s c n a : Int) (h : mem a = to_uint8 c) :
    memset mem s c n a = to_uint8 c := by
  unfold memset
  split
  · rfl
  · exact h

theorem row_in_buffer (p stride height width x y : Int) (hx0 : 0 ≤ x) (hx1 : x < width)
    (hw : width ≤ stride) (hy0 : 0 ≤ y) (hy1 : y < height) :
    p ≤ p + y * stride + x ∧ p + y * stride + x < p + stride * (height + 2 * 0) := by
  have h1 : 0 ≤ y * stride := mul_nonneg hy0 (by omega)
  have h2 : (y + 1) * stride ≤ height * stride :=
    mul_le_mul_of_nonneg_right (by omega) (by omega)
  constructor
  · omega
  · nlinarith
theorem fill_image_reads (mem : Memory) (img : de265_image) (v : Int)
    (hc : planes_consistent img) (hv0 : 0 ≤ v) (hv1 : v ≤ 255) :
    (∀ x y, 0 ≤ x → x < img.width → 0 ≤ y → y < img.height →
      ((de265_fill_image mem img v v v
        ((get_image_plane img 0).1 + y * (get_image_plane img 0).2 + x)).val : Int) = v) ∧
    (∀ x y, 0 ≤ x → x < img.chroma_width → 0 ≤ y → y < img.chroma_height →
      ((de265_fill_image mem img v v v
        ((get_image_plane img 1).1 + y * (get_image_plane img 1).2 + x)).val : Int) = v) ∧
    (∀ x y, 0 ≤ x → x < img.chroma_width → 0 ≤ y → y < img.chroma_height →
      ((de265_fill_image mem img v v v
        ((get_image_plane img 2).1 + y * (get_image_plane img 2).2 + x)).val : Int) = v) := by
  obtain ⟨hb, hy, hcb, hcr, hs, hcs⟩ := hc
  refine ⟨?_, ?_, ?_⟩
  · intro x y hx0 hx1 hy0 hy1
    have hw : img.width ≤ img.stride := by
      rw [hs]; exact (round_up_alignment img.width (by omega)).1
    have key : de265_fill_image mem img v v v
        ((get_image_plane img 0).1 + y * (get_image_plane img 0).2 + x) = to_uint8 v := by
      unfold de265_fill_image
      simp only [ge_iff_le, hv0, if_true, get_image_plane]
      apply memset_keeps
      apply memset_keeps
      apply memset_covered
      rw [hb, hy]
      exact row_in_buffer _ _ _ _ _ _ hx0 hx1 hw hy0 hy1
    rw [key]
    exact to_uint8_val v hv0 hv1
  · intro x y hx0 hx1 hy0 hy1
    have hw : img.chroma_width ≤ img.chroma_stride := by
      rw [hcs]; exact (round_up_alignment img.chroma_width (by omega)).1
    have key : de265_fill_image mem img v v v
        ((get_image_plane img 1).1 + y * (get_image_plane img 1).2 + x) = to_uint8 v := by
      unfold de265_fill_image
      simp only [ge_iff_le, hv0, if_true, get_image_plane]
      apply memset_keeps
      apply memset_covered
      rw [hb, hcb]
      exact row_in_buffer _ _ _ _ _ _ hx0 hx1 hw hy0 hy1
    rw [key]
    exact to_uint8_val v hv0 hv1
  · intro x y hx0 hx1 hy0 hy1
    have hw : img.chroma_width ≤ img.chroma_stride := by
      rw [hcs]; exact (round_up_alignment img.chroma_width (by omega)).1
    have key : de265_fill_image mem img v v v
        ((get_image_plane img 2).1 + y * (get_image_plane img 2).2 + x) = to_uint8 v := by
      unfold de265_fill_image
      simp only [ge_iff_le, hv0, if_true, get_image_plane]
      apply memset_covered
      rw [hb, hcr]
      exact row_in_buffer _ _ _ _ _ _ hx0 hx1 hw hy0 hy1
    rw [key]
    exact to_uint8_val v hv0 hv1

/-- C11: for every picture obtained from an initialised picture by calls of
`de265_alloc_image`, the last of them with a chroma format `c` other than
monochrome, and for every byte value `0 ≤ v ≤ 255`, after
`de265_fill_image(img, v, v, v)` the planes returned by `get_image_plane`
satisfy `plane0[y*stride + x] = v` for all `0 ≤ x < width`, `0 ≤ y < height`
and `plane1[y*chroma_stride + x] = plane2[y*chroma_stride + x] = v` for all
`0 ≤ x < chroma_width`, `0 ≤ y < chroma_height`. -/
theorem fill_image_round_trip (reqs : List AllocRequest) (hp : Heap) (w h : Int)
    (c : de265_chroma) (sps : Option seq_parameter_set) (mem : Memory) (v : Int)
    (_hc : c ≠ de265_chroma.de265_chroma_mono) (hv0 : 0 ≤ v) (hv1 : v ≤ 255) :
    (de265_alloc_image (alloc_sequence reqs de265_init_image hp).1 w h c sps
      (alloc_sequence reqs de265_init_image hp).2).1.chroma_format = c ∧
    (∀ x y, 0 ≤ x →
      x < (de265_alloc_image (alloc_sequence reqs de265_init_image hp).1 w h c sps
        (alloc_sequence reqs de265_init_image hp).2).1.width →
      0 ≤ y →
      y < (de265_alloc_image (alloc_sequence reqs de265_init_image hp).1 w h c sps
        (alloc_sequence reqs de265_init_image hp).2).1.height →
      ((de265_fill_image mem
        (de265_alloc_image (alloc_sequence reqs de265_init_image hp).1 w h c sps
          (alloc_sequence reqs de265_init_image hp).2).1 v v v
        ((get_image_plane
            (de265_alloc_image (alloc_sequence reqs de265_init_image hp).1 w h c sps
              (alloc_sequence reqs de265_init_image hp).2).1 0).1 +
          y * (get_image_plane
            (de265_alloc_image (alloc_sequence reqs de265_init_image hp).1 w h c sps
              (alloc_sequence reqs de265_init_image hp).2).1 0).2 + x)).val : Int) = v) ∧
    (∀ x y, 0 ≤ x →
      x < (de265_alloc_image (alloc_sequence reqs de265_init_image hp).1 w h c sps
        (alloc_sequence reqs de265_init_image hp).2).1.chroma_width →
      0 ≤ y →
      y < (de265_alloc_image (alloc_sequence reqs de265_init_image hp).1 w h c sps
        (alloc_sequence reqs de265_init_image hp).2).1.chroma_height →
      ((de265_fill_image mem
        (de265_alloc_image (alloc_sequence reqs de265_init_image hp).1 w h c sps
          (alloc_sequence reqs de265_init_image hp).2).1 v v v
        ((get_image_plane
            (de265_alloc_image (alloc_sequence reqs de265_init_image hp).1 w h c sps
              (alloc_sequence reqs de265_init_image hp).2).1 1).1 +
          y * (get_image_plane
            (de265_alloc_image (alloc_sequence reqs de265_init_image hp).1 w h c sps
              (alloc_sequence reqs de265_init_image hp).2).1 1).2 + x)).val : Int) = v) ∧
    (∀ x y, 0 ≤ x →
      x < (de265_alloc_image (alloc_sequence reqs de265_init_image hp).1 w h c sps
        (alloc_sequence reqs de265_init_image hp).2).1.chroma_width →
      0 ≤ y →
      y < (de265_alloc_image (alloc_sequence reqs de265_init_image hp).1 w h c sps
        (alloc_sequence reqs de265_init_image hp).2).1.chroma_height →
      ((de265_fill_image mem
        (de265_alloc_image (alloc_sequence reqs de265_init_image hp).1 w h c sps
          (alloc_sequence reqs de265_init_image hp).2).1 v v v
        ((get_image_plane
            (de265_alloc_image (alloc_sequence reqs de265_init_image hp).1 w h c sps
              (alloc_sequence reqs de265_init_image hp).2).1 2).1 +
          y * (get_image_plane
            (de265_alloc_image (alloc_sequence reqs de265_init_image hp).1 w h c sps
              (alloc_sequence reqs de265_init_image hp).2).1 2).2 + x)).val : Int) = v) := by
  have hcons := planes_consistent_alloc_image
    (alloc_sequence reqs de265_init_image hp).1 w h c sps
    (alloc_sequence reqs de265_init_image hp).2
    (planes_consistent_alloc_sequence reqs de265_init_image hp planes_consistent_init)
  have hfmt : (de265_alloc_image (alloc_sequence reqs de265_init_image hp).1 w h c sps
      (alloc_sequence reqs de265_init_image hp).2).1.chroma_format = c := by
    rw [(de265_alloc_image_planes _ w h c sps _).2.1]
    exact (alloc_image_buffer_geometry _ w h c _).2.2.1
  exact ⟨hfmt, fill_image_reads mem _ v hcons hv0 hv1⟩

theorem fill_image_round_trip_witness :
    de265_chroma.de265_chroma_420 ≠ de265_chroma.de265_chroma_mono ∧
    (0 : Int) ≤ 128 ∧ (128 : Int) ≤ 255 ∧
    ((de265_fill_image (flat_memory 0)
      (de265_alloc_image (alloc_sequence [] de265_init_image fresh_heap).1 35 20
        de265_chroma.de265_chroma_420 none
        (alloc_sequence [] de265_init_image fresh_heap).2).1 128 128 128
      ((get_image_plane
          (de265_alloc_image (alloc_sequence [] de265_init_image fresh_heap).1 35 20
            de265_chroma.de265_chroma_420 none
            (alloc_sequence [] de265_init_image fresh_heap).2).1 0).1 +
        19 * (get_image_plane
          (de265_alloc_image (alloc_sequence [] de265_init_image fresh_heap).1 35 20
            de265_chroma.de265_chroma_420 none
            (alloc_sequence [] de265_init_image fresh_heap).2).1 0).2 + 34)).val : Int) = 128 ∧
    ((de265_fill_image (flat_memory 0)
      (de265_alloc_image (alloc_sequence [] de265_init_image fresh_heap).1 35 20
        de265_chroma.de265_chroma_420 none
        (alloc_sequence [] de265_init_image fresh_heap).2).1 128 128 128
      ((get_image_plane
          (de265_alloc_image (alloc_sequence [] de265_init_image fresh_heap).1 35 20
            de265_chroma.de265_chroma_420 none
            (alloc_sequence [] de265_init_image fresh_heap).2).1 1).1 +
        9 * (get_image_plane
          (de265_alloc_image (alloc_sequence [] de265_init_image fresh_heap).1 35 20
            de265_chroma.de265_chroma_420 none
            (alloc_sequence [] de265_init_image fresh_heap).2).1 1).2 + 17)).val : Int) = 128 ∧
    ((de265_fill_image (flat_memory 0)
      (de265_alloc_image (alloc_sequence [] de265_init_image fresh_heap).1 35 20
        de265_chroma.de265_chroma_420 none
        (alloc_sequence [] de265_init_image fresh_heap).2).1 128 128 128
      ((get_image_plane
          (de265_alloc_image (alloc_sequence [] de265_init_image fresh_heap).1 35 20
            de265_chroma.de265_chroma_420 none
            (alloc_sequence [] de265_init_image fresh_heap).2).1 2).1 +
        9 * (get_image_plane
          (de265_alloc_image (alloc_sequence [] de265_init_image fresh_heap).1 35 20
            de265_chroma.de265_chroma_420 none
            (alloc_sequence [] de265_init_image fresh_heap).2).1 2).2 + 17)).val : Int) = 128 :=
  ⟨by decide, by decide, by decide,
   (fill_image_round_trip [] fresh_heap 35 20 de265_chroma.de265_chroma_420 none
      (flat_memory 0) 128 (by decide) (by decide) (by decide)).2.1 34 19
      (by decide) (by decide) (by decide) (by decide),
   (fill_image_round_trip [] fresh_heap 35 20 de265_chroma.de265_chroma_420 none
      (flat_memory 0) 128 (by decide) (by decide) (by decide)).2.2.1 17 9
      (by decide) (by decide) (by decide) (by decide),
   (fill_image_round_trip [] fresh_heap 35 20 de265_chroma.de265_chroma_420 none
      (flat_memory 0) 128 (by decide) (by decide) (by decide)).2.2.2 17 9
      (by decide) (by decide) (by decide) (by decide)⟩

/-- C12: `get_image_plane` yields `(y, stride)` for channel 0,
`(cb, chroma_stride)` for channel 1, `(cr, chroma_stride)` for channel 2 and
`(NULL, 0)` for every other channel index, negative or at least 3; it takes the
picture read-only and yields nothing but this pair. -/
theorem get_image_plane_channels (img : de265_image) :
    get_image_plane img 0 = (img.y, img.stride) ∧
    get_image_plane img 1 = (img.cb, img.chroma_stride) ∧
    get_image_plane img 2 = (img.cr, img.chroma_stride) ∧
    (∀ cIdx : Int, cIdx < 0 ∨ 3 ≤ cIdx → get_image_plane img cIdx = (NULL, 0)) ∧
    (∀ n : Nat, get_image_plane img (3 + (n : Int)) = (0, 0) ∧
      get_image_plane img (-1 - (n : Int)) = (0, 0)) := by
  refine ⟨rfl, rfl, rfl, ?_, ?_⟩
  · intro cIdx h
    unfold get_image_plane
    rw [if_neg (by omega), if_neg (by omega), if_neg (by omega)]
  · intro n
    unfold get_image_plane NULL
    constructor
    · rw [if_neg (by omega), if_neg (by omega), if_neg (by omega)]
    · rw [if_neg (by omega), if_neg (by omega), if_neg (by omega)]

/-! ### `de265_copy_image` -/

theorem copy_image_eq_foldl (mem : Memory) (dest src : de265_image) :
    de265_copy_image mem dest src =
      (copy_ops dest src).foldl (fun m op => memcpy m op.dest op.src op.n) mem := by
  unfold de265_copy_image copy_ops
  simp only
  rw [List.foldl_append, List.foldl_map]
  split
  · rw [foldl_flatMap_eq]
    rfl
  · rfl

theorem memcpy_apply (m : Memory) (d s n a : Int) :
    memcpy m d s n a = if d ≤ a ∧ a < d + n then m (s + (a - d)) else m a := rfl

theorem memcpy_foldl_frame (ops : List CopyOp) :
    ∀ (mem : Memory) (a : Int), (∀ op ∈ ops, ¬ op.covers a) →
      ops.foldl (fun m op => memcpy m op.dest op.src op.n) mem a = mem a := by
  induction ops with
  | nil => intro mem a _; rfl
  | cons op ops ih =>
    intro mem a h
    rw [List.foldl_cons, ih _ a (fun o ho => h o (List.mem_cons_of_mem _ ho))]
    rw [memcpy_apply, if_neg (show ¬ (op.dest ≤ a ∧ a < op.dest + op.n) from
      h op (List.mem_cons_self _ _))]

theorem memcpy_foldl_copy (ops : List CopyOp) :
    ∀ (mem : Memory) (a s : Int),
      (∀ op ∈ ops, ∀ b, op.covers b → ∀ op2 ∈ ops, ¬ op2.covers (op.src + (b - op.dest))) →
      (∃ op ∈ ops, op.covers a) →
      (∀ op ∈ ops, op.covers a → op.src + (a - op.dest) = s) →
      ops.foldl (fun m op => memcpy m op.dest op.src op.n) mem a = mem s := by
  induction ops using List.reverseRecOn with
  | nil => intro mem a s _ hex _; obtain ⟨op, hop, -⟩ := hex; simp at hop
  | append_singleton l op ih =>
    intro mem a s hsrc hex huniq
    rw [List.foldl_append, List.foldl_cons, List.foldl_nil]
    by_cases hcov : op.covers a
    · have hs := huniq op (by simp) hcov
      have : memcpy (l.foldl (fun m op => memcpy m op.dest op.src op.n) mem)
          op.dest op.src op.n a =
          l.foldl (fun m op => memcpy m op.dest op.src op.n) mem (op.src + (a - op.dest)) := by
        rw [memcpy_apply, if_pos (show op.dest ≤ a ∧ a < op.dest + op.n from hcov)]
      rw [this, memcpy_foldl_frame l mem _
        (fun o ho => hsrc op (by simp) a hcov o (by simp [ho])), hs]
    · have : memcpy (l.foldl (fun m op => memcpy m op.dest op.src op.n) mem)
          op.dest op.src op.n a =
          l.foldl (fun m op => memcpy m op.dest op.src op.n) mem a := by
        rw [memcpy_apply, if_neg (show ¬ (op.dest ≤ a ∧ a < op.dest + op.n) from hcov)]
      rw [this]
      apply ih mem a s
      · intro o ho b hb o2 ho2
        exact hsrc o (by simp [ho]) b hb o2 (by simp [ho2])
      · obtain ⟨o, ho, hoc⟩ := hex
        rcases List.mem_append.mp ho with h1 | h1
        · exact ⟨o, h1, hoc⟩
        · simp only [List.mem_singleton] at h1
          subst h1
          exact absurd hoc hcov
      · intro o ho hoc
        exact huniq o (by simp [ho]) hoc
theorem sample_in_buffer (p stride height width x y : Int) (hx0 : 0 ≤ x) (hx1 : x < width)
    (hw : width ≤ stride) (hy0 : 0 ≤ y) (hy1 : y < height) :
    p ≤ p + y * stride + x ∧ p + y * stride + x < p + stride * height := by
  have h := row_in_buffer p stride height width x y hx0 hx1 hw hy0 hy1
  simpa using h

theorem sample_unique (p stride width x y x2 y2 : Int) (hx0 : 0 ≤ x) (hx1 : x < stride)
    (hx20 : 0 ≤ x2) (hx21 : x2 < width) (hw : width ≤ stride)
    (heq : p + y * stride + x = p + y2 * stride + x2) : y = y2 ∧ x = x2 := by
  have hy : y = y2 := by
    rcases lt_trichotomy y y2 with h | h | h
    · exfalso
      have : (y + 1) * stride ≤ y2 * stride :=
        mul_le_mul_of_nonneg_right (by omega) (by omega)
      nlinarith
    · exact h
    · exfalso
      have : (y2 + 1) * stride ≤ y * stride :=
        mul_le_mul_of_nonneg_right (by omega) (by omega)
      nlinarith
  subst hy
  exact ⟨rfl, by omega⟩

theorem copy_ops_classify (dest src : de265_image) (op : CopyOp) (a : Int)
    (hop : op ∈ copy_ops dest src) (hc : op.covers a) :
    (∃ y x : Int, 0 ≤ y ∧ y < src.height ∧ 0 ≤ x ∧ x < src.width ∧
      a = dest.y + y * dest.stride + x ∧
      op.src + (a - op.dest) = src.y + y * src.stride + x) ∨
    (src.chroma_format ≠ de265_chroma.de265_chroma_mono ∧
      ∃ y x : Int, 0 ≤ y ∧ y < src.chroma_height ∧ 0 ≤ x ∧ x < src.chroma_width ∧
      a = dest.cb + y * dest.chroma_stride + x ∧
      op.src + (a - op.dest) = src.cb + y * src.chroma_stride + x) ∨
    (src.chroma_format ≠ de265_chroma.de265_chroma_mono ∧
      ∃ y x : Int, 0 ≤ y ∧ y < src.chroma_height ∧ 0 ≤ x ∧ x < src.chroma_width ∧
      a = dest.cr + y * dest.chroma_stride + x ∧
      op.src + (a - op.dest) = src.cr + y * src.chroma_stride + x) := by
  unfold copy_ops at hop
  unfold CopyOp.covers at hc
  rcases List.mem_append.mp hop with h | h
  · left
    simp only [List.mem_map, List.mem_range] at h
    obtain ⟨y, hy, rfl⟩ := h
    simp only at hc
    exact ⟨y, a - (dest.y + (y : Int) * dest.stride), by omega, by omega, by omega, by omega,
      by ring, by ring⟩
  · by_cases hm : src.chroma_format ≠ de265_chroma.de265_chroma_mono
    · rw [if_pos hm] at h
      simp only [List.mem_flatMap, List.mem_range, List.mem_cons, List.mem_singleton,
        List.not_mem_nil, or_false] at h
      obtain ⟨y, hy, rfl | rfl⟩ := h
      · right; left
        simp only at hc
        exact ⟨hm, y, a - (dest.cb + (y : Int) * dest.chroma_stride), by omega, by omega,
          by omega, by omega, by ring, by ring⟩
      · right; right
        simp only at hc
        exact ⟨hm, y, a - (dest.cr + (y : Int) * dest.chroma_stride), by omega, by omega,
          by omega, by omega, by ring, by ring⟩
    · rw [if_neg hm] at h
      simp at h

theorem copy_ops_dest_sample (dest src : de265_image) (hsep : separate_planes dest src)
    (op : CopyOp) (a : Int) (hop : op ∈ copy_ops dest src) (hc : op.covers a) :
    (dest.y ≤ a ∧ a < dest.y + dest.stride * src.height) ∨
    (src.chroma_format ≠ de265_chroma.de265_chroma_mono ∧
      dest.cb ≤ a ∧ a < dest.cb + dest.chroma_stride * src.chroma_height) ∨
    (src.chroma_format ≠ de265_chroma.de265_chroma_mono ∧
      dest.cr ≤ a ∧ a < dest.cr + dest.chroma_stride * src.chroma_height) := by
  obtain ⟨hwd, -, -, hch⟩ := hsep
  rcases copy_ops_classify dest src op a hop hc with
    ⟨y, x, hy0, hy1, hx0, hx1, rfl, -⟩ | ⟨hm, y, x, hy0, hy1, hx0, hx1, rfl, -⟩ |
    ⟨hm, y, x, hy0, hy1, hx0, hx1, rfl, -⟩
  · exact Or.inl (sample_in_buffer _ _ _ _ _ _ hx0 hx1 hwd hy0 hy1)
  · exact Or.inr (Or.inl ⟨hm, sample_in_buffer _ _ _ _ _ _ hx0 hx1 (hch hm).1 hy0 hy1⟩)
  · exact Or.inr (Or.inr ⟨hm, sample_in_buffer _ _ _ _ _ _ hx0 hx1 (hch hm).1 hy0 hy1⟩)

theorem copy_ops_src_sample (dest src : de265_image) (hsep : separate_planes dest src)
    (op : CopyOp) (a : Int) (hop : op ∈ copy_ops dest src) (hc : op.covers a) :
    (src.y ≤ op.src + (a - op.dest) ∧
      op.src + (a - op.dest) < src.y + src.stride * src.height) ∨
    (src.chroma_format ≠ de265_chroma.de265_chroma_mono ∧
      src.cb ≤ op.src + (a - op.dest) ∧
      op.src + (a - op.dest) < src.cb + src.chroma_stride * src.chroma_height) ∨
    (src.chroma_format ≠ de265_chroma.de265_chroma_mono ∧
      src.cr ≤ op.src + (a - op.dest) ∧
      op.src + (a - op.dest) < src.cr + src.chroma_stride * src.chroma_height) := by
  obtain ⟨-, hws, -, hch⟩ := hsep
  rcases copy_ops_classify dest src op a hop hc with
    ⟨y, x, hy0, hy1, hx0, hx1, -, he⟩ | ⟨hm, y, x, hy0, hy1, hx0, hx1, -, he⟩ |
    ⟨hm, y, x, hy0, hy1, hx0, hx1, -, he⟩
  · rw [he]
    exact Or.inl (sample_in_buffer _ _ _ _ _ _ hx0 hx1 hws hy0 hy1)
  · rw [he]
    exact Or.inr (Or.inl ⟨hm, sample_in_buffer _ _ _ _ _ _ hx0 hx1 (hch hm).2.1 hy0 hy1⟩)
  · rw [he]
    exact Or.inr (Or.inr ⟨hm, sample_in_buffer _ _ _ _ _ _ hx0 hx1 (hch hm).2.1 hy0 hy1⟩)

theorem copy_keeps_src_buffers (dest src : de265_image) (hsep : separate_planes dest src)
    (b : Int)
    (hb : (src.y ≤ b ∧ b < src.y + src.stride * src.height) ∨
      (src.chroma_format ≠ de265_chroma.de265_chroma_mono ∧
        src.cb ≤ b ∧ b < src.cb + src.chroma_stride * src.chroma_height) ∨
      (src.chroma_format ≠ de265_chroma.de265_chroma_mono ∧
        src.cr ≤ b ∧ b < src.cr + src.chroma_stride * src.chroma_height)) :
    ∀ op ∈ copy_ops dest src, ¬ op.covers b := by
  intro op hop hc
  have hd := copy_ops_dest_sample dest src hsep op b hop hc
  obtain ⟨-, -, hyy, hch⟩ := hsep
  unfold buffers_disjoint at hyy hch
  rcases hb with hb | ⟨hm, hb⟩ | ⟨hm, hb⟩
  · rcases hd with hd | ⟨hm, hd⟩ | ⟨hm, hd⟩
    · omega
    · have := (hch hm).2.2.2.2.2.2.2.1; omega
    · have := (hch hm).2.2.2.2.2.2.2.2.2.2.1; omega
  · rcases hd with hd | ⟨-, hd⟩ | ⟨-, hd⟩
    · have := (hch hm).2.2.2.2.2.1; omega
    · have := (hch hm).2.2.2.2.2.2.2.2.1; omega
    · have := (hch hm).2.2.2.2.2.2.2.2.2.2.2.1; omega
  · rcases hd with hd | ⟨-, hd⟩ | ⟨-, hd⟩
    · have := (hch hm).2.2.2.2.2.2.1; omega
    · have := (hch hm).2.2.2.2.2.2.2.2.2.1; omega
    · have := (hch hm).2.2.2.2.2.2.2.2.2.2.2.2; omega
theorem copy_ops_not_luma_of_chroma (dest src : de265_image) (hsep : separate_planes dest src)
    (op : CopyOp) (a : Int) (hop : op ∈ copy_ops dest src) (hc : op.covers a)
    (ha : dest.y ≤ a ∧ a < dest.y + dest.stride * src.height) :
    ∃ y x : Int, 0 ≤ y ∧ y < src.height ∧ 0 ≤ x ∧ x < src.width ∧
      a = dest.y + y * dest.stride + x ∧
      op.src + (a - op.dest) = src.y + y * src.stride + x := by
  obtain ⟨-, -, -, hch⟩ := hsep
  rcases copy_ops_classify dest src op a hop hc with
    h | ⟨hm, y, x, hy0, hy1, hx0, hx1, he, -⟩ | ⟨hm, y, x, hy0, hy1, hx0, hx1, he, -⟩
  · exact h
  · exfalso
    have hb := sample_in_buffer dest.cb _ _ _ _ _ hx0 hx1 (hch hm).1 hy0 hy1
    have := (hch hm).2.2.1
    unfold buffers_disjoint at this
    omega
  · exfalso
    have hb := sample_in_buffer dest.cr _ _ _ _ _ hx0 hx1 (hch hm).1 hy0 hy1
    have := (hch hm).2.2.2.1
    unfold buffers_disjoint at this
    omega

theorem copy_ops_cb_only (dest src : de265_image) (hsep : separate_planes dest src)
    (hm : src.chroma_format ≠ de265_chroma.de265_chroma_mono)
    (op : CopyOp) (a : Int) (hop : op ∈ copy_ops dest src) (hc : op.covers a)
    (ha : dest.cb ≤ a ∧ a < dest.cb + dest.chroma_stride * src.chroma_height) :
    ∃ y x : Int, 0 ≤ y ∧ y < src.chroma_height ∧ 0 ≤ x ∧ x < src.chroma_width ∧
      a = dest.cb + y * dest.chroma_stride + x ∧
      op.src + (a - op.dest) = src.cb + y * src.chroma_stride + x := by
  obtain ⟨hwd, -, -, hch⟩ := hsep
  rcases copy_ops_classify dest src op a hop hc with
    ⟨y, x, hy0, hy1, hx0, hx1, he, -⟩ | ⟨-, h⟩ | ⟨-, y, x, hy0, hy1, hx0, hx1, he, -⟩
  · exfalso
    have hb := sample_in_buffer dest.y _ _ _ _ _ hx0 hx1 hwd hy0 hy1
    have := (hch hm).2.2.1
    unfold buffers_disjoint at this
    omega
  · exact h
  · exfalso
    have hb := sample_in_buffer dest.cr _ _ _ _ _ hx0 hx1 (hch hm).1 hy0 hy1
    have := (hch hm).2.2.2.2.1
    unfold buffers_disjoint at this
    omega

theorem copy_ops_cr_only (dest src : de265_image) (hsep : separate_planes dest src)
    (hm : src.chroma_format ≠ de265_chroma.de265_chroma_mono)
    (op : CopyOp) (a : Int) (hop : op ∈ copy_ops dest src) (hc : op.covers a)
    (ha : dest.cr ≤ a ∧ a < dest.cr + dest.chroma_stride * src.chroma_height) :
    ∃ y x : Int, 0 ≤ y ∧ y < src.chroma_height ∧ 0 ≤ x ∧ x < src.chroma_width ∧
      a = dest.cr + y * dest.chroma_stride + x ∧
      op.src + (a - op.dest) = src.cr + y * src.chroma_stride + x := by
  obtain ⟨hwd, -, -, hch⟩ := hsep
  rcases copy_ops_classify dest src op a hop hc with
    ⟨y, x, hy0, hy1, hx0, hx1, he, -⟩ | ⟨-, y, x, hy0, hy1, hx0, hx1, he, -⟩ | ⟨-, h⟩
  · exfalso
    have hb := sample_in_buffer dest.y _ _ _ _ _ hx0 hx1 hwd hy0 hy1
    have := (hch hm).2.2.2.1
    unfold buffers_disjoint at this
    omega
  · exfalso
    have hb := sample_in_buffer dest.cb _ _ _ _ _ hx0 hx1 (hch hm).1 hy0 hy1
    have := (hch hm).2.2.2.2.1
    unfold buffers_disjoint at this
    omega
  · exact h

theorem copy_image_plane_sample (mem : Memory) (dest src : de265_image)
    (hsep : separate_planes dest src) (dp sp dstride sstride width height x y : Int)
    (hx0 : 0 ≤ x) (hx1 : x < width) (hw : width ≤ dstride)
    (hmem : (⟨dp + y * dstride, sp + y * sstride, width⟩ : CopyOp) ∈ copy_ops dest src)
    (honly : ∀ op ∈ copy_ops dest src, op.covers (dp + y * dstride + x) →
      ∃ y2 x2 : Int, 0 ≤ y2 ∧ y2 < height ∧ 0 ≤ x2 ∧ x2 < width ∧
        dp + y * dstride + x = dp + y2 * dstride + x2 ∧
        op.src + (dp + y * dstride + x - op.dest) = sp + y2 * sstride + x2) :
    de265_copy_image mem dest src (dp + y * dstride + x) = mem (sp + y * sstride + x) := by
  rw [copy_image_eq_foldl]
  apply memcpy_foldl_copy
  · intro op hop b hb op2 hop2
    exact copy_keeps_src_buffers dest src hsep _ (copy_ops_src_sample dest src hsep op b hop hb)
      op2 hop2
  · refine ⟨_, hmem, ?_⟩
    unfold CopyOp.covers
    simp only
    omega
  · intro op hop hc
    obtain ⟨y2, x2, hy20, hy21, hx20, hx21, he, hs⟩ := honly op hop hc
    obtain ⟨rfl, rfl⟩ := sample_unique dp dstride width x y x2 y2 hx0 (by omega) hx20 hx21 hw he
    exact hs

theorem copy_image_plane_padding (mem : Memory) (dest src : de265_image)
    (dp dstride sstride sp width height x y : Int)
    (hx0 : 0 ≤ x) (hx1 : width ≤ x) (hx2 : x < dstride)
    (honly : ∀ op ∈ copy_ops dest src, op.covers (dp + y * dstride + x) →
      ∃ y2 x2 : Int, 0 ≤ y2 ∧ y2 < height ∧ 0 ≤ x2 ∧ x2 < width ∧
        dp + y * dstride + x = dp + y2 * dstride + x2 ∧
        op.src + (dp + y * dstride + x - op.dest) = sp + y2 * sstride + x2) :
    de265_copy_image mem dest src (dp + y * dstride + x) = mem (dp + y * dstride + x) := by
  rw [copy_image_eq_foldl]
  apply memcpy_foldl_frame
  intro op hop hc
  obtain ⟨y2, x2, hy20, hy21, hx20, hx21, he, -⟩ := honly op hop hc
  obtain ⟨-, hxx⟩ := sample_unique dp dstride width x y x2 y2 hx0 hx2 hx20 hx21 (by omega) he
  omega
theorem copy_ops_luma_mem (dest src : de265_image) (y : Int) (hy0 : 0 ≤ y)
    (hy1 : y < src.height) :
    (⟨dest.y + y * dest.stride, src.y + y * src.stride, src.width⟩ : CopyOp) ∈
      copy_ops dest src := by
  unfold copy_ops
  apply List.mem_append_left
  simp only [List.mem_map, List.mem_range]
  exact ⟨y.toNat, by omega, by rw [Int.toNat_of_nonneg hy0]⟩

theorem copy_ops_chroma_mem (dest src : de265_image)
    (hm : src.chroma_format ≠ de265_chroma.de265_chroma_mono) (y : Int) (hy0 : 0 ≤ y)
    (hy1 : y < src.chroma_height) :
    (⟨dest.cb + y * dest.chroma_stride, src.cb + y * src.chroma_stride,
        src.chroma_width⟩ : CopyOp) ∈ copy_ops dest src ∧
    (⟨dest.cr + y * dest.chroma_stride, src.cr + y * src.chroma_stride,
        src.chroma_width⟩ : CopyOp) ∈ copy_ops dest src := by
  unfold copy_ops
  rw [if_pos hm]
  constructor
  · apply List.mem_append_right
    simp only [List.mem_flatMap, List.mem_range, List.mem_cons, List.mem_singleton,
      List.not_mem_nil, or_false]
    exact ⟨y.toNat, by omega, Or.inl (by rw [Int.toNat_of_nonneg hy0])⟩
  · apply List.mem_append_right
    simp only [List.mem_flatMap, List.mem_range, List.mem_cons, List.mem_singleton,
      List.not_mem_nil, or_false]
    exact ⟨y.toNat, by omega, Or.inr (by rw [Int.toNat_of_nonneg hy0])⟩

/-- C13: for pictures `dest` and `src` whose plane buffers are separate
allocations with strides at least the plane widths, with `src`'s width, height,
chroma width, chroma height and chroma format (which `dest` shares), after
`de265_copy_image(dest, src)` the luma sample `(x, y)` of `dest` holds what the
luma sample `(x, y)` of `src` held, for all `0 ≤ x < width`, `0 ≤ y < height`;
likewise for both chroma planes over `chroma_width × chroma_height` when the
format is not monochrome; every byte of `dest` in the stride padding (columns
`width ≤ x < stride` of each row) is unchanged, for the three planes; and every
byte of the plane buffers of `src` is unchanged. -/
theorem copy_image_copies_valid_extents (mem : Memory) (dest src : de265_image)
    (hsep : separate_planes dest src) :
    (∀ x y, 0 ≤ x → x < src.width → 0 ≤ y → y < src.height →
      de265_copy_image mem dest src (dest.y + y * dest.stride + x) =
        mem (src.y + y * src.stride + x)) ∧
    (src.chroma_format ≠ de265_chroma.de265_chroma_mono →
      ∀ x y, 0 ≤ x → x < src.chroma_width → 0 ≤ y → y < src.chroma_height →
        de265_copy_image mem dest src (dest.cb + y * dest.chroma_stride + x) =
          mem (src.cb + y * src.chroma_stride + x) ∧
        de265_copy_image mem dest src (dest.cr + y * dest.chroma_stride + x) =
          mem (src.cr + y * src.chroma_stride + x)) ∧
    (∀ x y, 0 ≤ x → src.width ≤ x → x < dest.stride → 0 ≤ y → y < src.height →
      de265_copy_image mem dest src (dest.y + y * dest.stride + x) =
        mem (dest.y + y * dest.stride + x)) ∧
    (src.chroma_format ≠ de265_chroma.de265_chroma_mono →
      ∀ x y, 0 ≤ x → src.chroma_width ≤ x → x < dest.chroma_stride →
        0 ≤ y → y < src.chroma_height →
        de265_copy_image mem dest src (dest.cb + y * dest.chroma_stride + x) =
          mem (dest.cb + y * dest.chroma_stride + x) ∧
        de265_copy_image mem dest src (dest.cr + y * dest.chroma_stride + x) =
          mem (dest.cr + y * dest.chroma_stride + x)) ∧
    (∀ a, src.y ≤ a → a < src.y + src.stride * src.height →
      de265_copy_image mem dest src a = mem a) ∧
    (src.chroma_format ≠ de265_chroma.de265_chroma_mono →
      ∀ a, (src.cb ≤ a ∧ a < src.cb + src.chroma_stride * src.chroma_height) ∨
          (src.cr ≤ a ∧ a < src.cr + src.chroma_stride * src.chroma_height) →
        de265_copy_image mem dest src a = mem a) := by
  have hwd := hsep.1
  have hch := hsep.2.2.2
  refine ⟨?_, ?_, ?_, ?_, ?_, ?_⟩
  · intro x y hx0 hx1 hy0 hy1
    apply copy_image_plane_sample mem dest src hsep dest.y src.y dest.stride src.stride
      src.width src.height x y hx0 hx1 hwd (copy_ops_luma_mem dest src y hy0 hy1)
    intro op hop hc
    exact copy_ops_not_luma_of_chroma dest src hsep op _ hop hc
      (sample_in_buffer _ _ _ _ _ _ hx0 hx1 hwd hy0 hy1)
  · intro hm x y hx0 hx1 hy0 hy1
    constructor
    · apply copy_image_plane_sample mem dest src hsep dest.cb src.cb dest.chroma_stride
        src.chroma_stride src.chroma_width src.chroma_height x y hx0 hx1 (hch hm).1
        (copy_ops_chroma_mem dest src hm y hy0 hy1).1
      intro op hop hc
      exact copy_ops_cb_only dest src hsep hm op _ hop hc
        (sample_in_buffer _ _ _ _ _ _ hx0 hx1 (hch hm).1 hy0 hy1)
    · apply copy_image_plane_sample mem dest src hsep dest.cr src.cr dest.chroma_stride
        src.chroma_stride src.chroma_width src.chroma_height x y hx0 hx1 (hch hm).1
        (copy_ops_chroma_mem dest src hm y hy0 hy1).2
      intro op hop hc
      exact copy_ops_cr_only dest src hsep hm op _ hop hc
        (sample_in_buffer _ _ _ _ _ _ hx0 hx1 (hch hm).1 hy0 hy1)
  · intro x y hx0 hx1 hx2 hy0 hy1
    apply copy_image_plane_padding mem dest src dest.y dest.stride src.stride src.y
      src.width src.height x y hx0 hx1 hx2
    intro op hop hc
    exact copy_ops_not_luma_of_chroma dest src hsep op _ hop hc
      (sample_in_buffer _ _ _ dest.stride _ _ hx0 hx2 (le_refl _) hy0 hy1)
  · intro hm x y hx0 hx1 hx2 hy0 hy1
    constructor
    · apply copy_image_plane_padding mem dest src dest.cb dest.chroma_stride
        src.chroma_stride src.cb src.chroma_width src.chroma_height x y hx0 hx1 hx2
      intro op hop hc
      exact copy_ops_cb_only dest src hsep hm op _ hop hc
        (sample_in_buffer _ _ _ dest.chroma_stride _ _ hx0 hx2 (le_refl _) hy0 hy1)
    · apply copy_image_plane_padding mem dest src dest.cr dest.chroma_stride
        src.chroma_stride src.cr src.chroma_width src.chroma_height x y hx0 hx1 hx2
      intro op hop hc
      exact copy_ops_cr_only dest src hsep hm op _ hop hc
        (sample_in_buffer _ _ _ dest.chroma_stride _ _ hx0 hx2 (le_refl _) hy0 hy1)
  · intro a h0 h1
    rw [copy_image_eq_foldl]
    exact memcpy_foldl_frame _ mem a
      (copy_keeps_src_buffers dest src hsep a (Or.inl ⟨h0, h1⟩))
  · intro hm a ha
    rw [copy_image_eq_foldl]
    apply memcpy_foldl_frame _ mem a
    rcases ha with ha | ha
    · exact copy_keeps_src_buffers dest src hsep a (Or.inr (Or.inl ⟨hm, ha⟩))
    · exact copy_keeps_src_buffers dest src hsep a (Or.inr (Or.inr ⟨hm, ha⟩))
theorem copy_image_copies_valid_extents_witness :
    separate_planes picture_b picture_a ∧
    de265_copy_image address_memory picture_b picture_a
        (picture_b.y + 19 * picture_b.stride + 34) =
      address_memory (picture_a.y + 19 * picture_a.stride + 34) ∧
    de265_copy_image address_memory picture_b picture_a
        (picture_b.cr + 9 * picture_b.chroma_stride + 17) =
      address_memory (picture_a.cr + 9 * picture_a.chroma_stride + 17) ∧
    de265_copy_image address_memory picture_b picture_a
        (picture_b.y + 19 * picture_b.stride + 35) =
      address_memory (picture_b.y + 19 * picture_b.stride + 35) :=
  ⟨by decide,
   (copy_image_copies_valid_extents address_memory picture_b picture_a (by decide)).1 34 19
     (by decide) (by decide) (by decide) (by decide),
   ((copy_image_copies_valid_extents address_memory picture_b picture_a (by decide)).2.1
     (by decide) 17 9 (by decide) (by decide) (by decide) (by decide)).2,
   (copy_image_copies_valid_extents address_memory picture_b picture_a (by decide)).2.2.1 35 19
     (by decide) (by decide) (by decide) (by decide) (by decide)⟩

/-! ### The pending-task counter -/

theorem decrease_pending_tasks_eq (img : de265_image) (n : Int) :
    decrease_pending_tasks img n =
      if 0 ≤ img.tasks_pending - n then
        some ({ img with tasks_pending := img.tasks_pending - n },
          decide (img.tasks_pending - n = 0))
      else none := rfl

theorem run_task_ops_counter (ops : List TaskOp) :
    ∀ (img r : de265_image), run_task_ops ops img = some r →
      r.tasks_pending = img.tasks_pending + registered ops - completed ops := by
  induction ops with
  | nil =>
    intro img r h
    simp only [run_task_ops, Option.some.injEq] at h
    subst h
    simp [registered, completed]
  | cons op ops ih =>
    intro img r h
    cases op with
    | increase n =>
      simp only [run_task_ops] at h
      have := ih _ r h
      simp only [increase_pending_tasks, registered, completed] at this ⊢
      omega
    | decrease n =>
      simp only [run_task_ops, decrease_pending_tasks_eq] at h
      by_cases hn : 0 ≤ img.tasks_pending - n
      · rw [if_pos hn] at h
        simp only at h
        have := ih _ r h
        simp only [registered, completed] at this ⊢
        omega
      · rw [if_neg hn] at h
        exact absurd h (by simp)

theorem run_task_ops_some_iff (ops : List TaskOp) :
    ∀ (img : de265_image), (∀ op ∈ ops, 0 ≤ op.arg) → 0 ≤ img.tasks_pending →
      ((∃ r, run_task_ops ops img = some r) ↔
        ∀ p s, ops = p ++ s → 0 ≤ img.tasks_pending + registered p - completed p) := by
  induction ops with
  | nil =>
    intro img _ h0
    constructor
    · intro _ p s hps
      have hp : p = [] := (List.append_eq_nil.mp hps.symm).1
      subst hp
      simp [registered, completed, h0]
    · intro _
      exact ⟨img, rfl⟩
  | cons op ops ih =>
    intro img hargs h0
    have hargs2 : ∀ o ∈ ops, 0 ≤ o.arg := fun o ho => hargs o (List.mem_cons_of_mem _ ho)
    have harg : 0 ≤ op.arg := hargs op (List.mem_cons_self _ _)
    cases op with
    | increase n =>
      simp only [TaskOp.arg] at harg
      simp only [run_task_ops]
      rw [ih (increase_pending_tasks img n) hargs2
        (by simp only [increase_pending_tasks]; omega)]
      constructor
      · intro h p s hps
        cases p with
        | nil => simp [registered, completed, h0]
        | cons q p =>
          simp only [List.cons_append, List.cons.injEq] at hps
          obtain ⟨rfl, hps⟩ := hps
          have := h p s hps
          simp only [increase_pending_tasks, registered, completed] at this ⊢
          omega
      · intro h p s hps
        have := h (TaskOp.increase n :: p) s (by rw [hps]; rfl)
        simp only [increase_pending_tasks, registered, completed] at this ⊢
        omega
    | decrease n =>
      simp only [TaskOp.arg] at harg
      simp only [run_task_ops, decrease_pending_tasks_eq]
      by_cases hn : 0 ≤ img.tasks_pending - n
      · rw [if_pos hn]
        simp only
        rw [ih _ hargs2 (by simpa using hn)]
        constructor
        · intro h p s hps
          cases p with
          | nil => simp [registered, completed, h0]
          | cons q p =>
            simp only [List.cons_append, List.cons.injEq] at hps
            obtain ⟨rfl, hps⟩ := hps
            have := h p s hps
            simp only [registered, completed] at this ⊢
            omega
        · intro h p s hps
          have := h (TaskOp.decrease n :: p) s (by rw [hps]; rfl)
          simp only [registered, completed] at this ⊢
          omega
      · rw [if_neg hn]
        simp only
        constructor
        · rintro ⟨r, hr⟩
          exact absurd hr (by simp)
        · intro h
          have := h [TaskOp.decrease n] ops rfl
          simp only [registered, completed] at this
          omega

theorem wait_for_completion_zero (img : de265_image) (wakeups : List Int)
    (h : img.tasks_pending = 0) : wait_for_completion img wakeups = some (0, img) := by
  cases wakeups with
  | nil => simp [wait_for_completion, h]
  | cons v w => simp [wait_for_completion, h]
/-- C14: starting from a freshly initialised picture (counter 0), for every
sequence of `increase_pending_tasks(n)` / `decrease_pending_tasks(n)` calls
with `n ≥ 0`: if no assertion fails, the counter equals the sum registered
minus the sum completed and is at least 0, and when it is 0
`wait_for_completion` returns without any call of `de265_cond_wait`, leaving
the picture as it is; the sequence runs without a failed assertion exactly when
the sum registered minus the sum completed is at least 0 after every prefix;
one `decrease_pending_tasks` call fails its assertion exactly when the result
of the subtraction is negative and otherwise stores that result. -/
theorem pending_tasks_state_machine (ops : List TaskOp) (hargs : ∀ op ∈ ops, 0 ≤ op.arg) :
    de265_init_image.tasks_pending = 0 ∧
    (∀ r, run_task_ops ops de265_init_image = some r →
      r.tasks_pending = registered ops - completed ops ∧ 0 ≤ r.tasks_pending ∧
      (r.tasks_pending = 0 → ∀ wakeups, wait_for_completion r wakeups = some (0, r))) ∧
    ((∃ r, run_task_ops ops de265_init_image = some r) ↔
      ∀ p s, ops = p ++ s → 0 ≤ registered p - completed p) ∧
    (∀ (img : de265_image) (n : Int),
      (decrease_pending_tasks img n = none ↔ img.tasks_pending - n < 0) ∧
      (0 ≤ img.tasks_pending - n →
        decrease_pending_tasks img n =
          some ({ img with tasks_pending := img.tasks_pending - n },
            decide (img.tasks_pending - n = 0)))) ∧
    (∀ (img : de265_image) (n : Int),
      (increase_pending_tasks img n).tasks_pending = img.tasks_pending + n) ∧
    (∀ (img : de265_image) (wakeups : List Int), img.tasks_pending = 0 →
      wait_for_completion img wakeups = some (0, img)) := by
  have h0 : de265_init_image.tasks_pending = 0 := rfl
  have hiff := run_task_ops_some_iff ops de265_init_image hargs (by rw [h0])
  simp only [h0, zero_add] at hiff
  refine ⟨h0, ?_, hiff, ?_, fun _ _ => rfl, wait_for_completion_zero⟩
  · intro r hr
    have hc := run_task_ops_counter ops de265_init_image r hr
    rw [h0, zero_add] at hc
    refine ⟨hc, ?_, fun hz w => wait_for_completion_zero r w hz⟩
    rw [hc]
    have := hiff.mp ⟨r, hr⟩ ops [] (by simp)
    exact this
  · intro img n
    rw [decrease_pending_tasks_eq]
    constructor
    · constructor
      · intro h
        by_contra hn
        rw [if_pos (by omega)] at h
        exact absurd h (by simp)
      · intro h
        rw [if_neg (by omega)]
    · intro h
      rw [if_pos h]

theorem pending_tasks_state_machine_witness :
    (∀ op ∈ [TaskOp.increase 3, TaskOp.decrease 1, TaskOp.decrease 2], 0 ≤ op.arg) ∧
    ∃ r, run_task_ops [TaskOp.increase 3, TaskOp.decrease 1, TaskOp.decrease 2]
        de265_init_image = some r ∧
      r.tasks_pending = 0 ∧
      wait_for_completion r [] = some (0, r) ∧
      run_task_ops [TaskOp.increase 3, TaskOp.decrease 1, TaskOp.decrease 2, TaskOp.decrease 1]
        de265_init_image = none := by
  refine ⟨by decide, _, rfl, by decide, ?_, rfl⟩
  exact ((pending_tasks_state_machine
    [TaskOp.increase 3, TaskOp.decrease 1, TaskOp.decrease 2] (by decide)).2.1 _ rfl).2.2
    (by decide) []

/-! ### The annotation of the coding block -/

theorem foldl_add_eq_sum (f : Nat → Int) (n : Nat) (init : Int) :
    (List.range n).foldl (fun (acc : Int) (i : Nat) => acc + f i) init =
      init + ∑ i in Finset.range n, f i := by
  induction n with
  | zero => simp
  | succ n ih =>
    rw [List.range_succ, List.foldl_append, ih, Finset.sum_range_succ]
    simp only [List.foldl_cons, List.foldl_nil]
    ring

theorem foldl_foldl_add_eq_sum (f : Nat → Nat → Int) (n m : Nat) (init : Int) :
    (List.range n).foldl (fun (acc : Int) (j : Nat) =>
      (List.range m).foldl (fun (acc : Int) (i : Nat) => acc + f j i) acc) init =
      init + ∑ j in Finset.range n, ∑ i in Finset.range m, f j i := by
  induction n with
  | zero => simp
  | succ n ih =>
    rw [List.range_succ, List.foldl_append, ih, Finset.sum_range_succ]
    simp only [List.foldl_cons, List.foldl_nil]
    rw [foldl_add_eq_sum]
    ring

theorem shiftLeft_one_toNat (k : Nat) : (shiftLeft 1 k).toNat = 2 ^ k := by
  unfold shiftLeft
  rw [one_mul]
  have : ((2 : Int) ^ k) = ((2 ^ k : Nat) : Int) := by push_cast; rfl
  rw [this, Int.toNat_natCast]

theorem compute_distortion_ssd_eq (mem : Memory) (src img : de265_image)
    (x0 y0 log2Size : Int) :
    compute_distortion_ssd mem src img x0 y0 log2Size 0 =
      ssd_reference mem src img x0 y0 log2Size := by
  unfold compute_distortion_ssd ssd_reference
  simp only [shiftLeft_one_toNat, de265_image.get_image_plane_at_pos, get_image_plane,
    if_true]
  rw [foldl_foldl_add_eq_sum (fun dy dx =>
    (((mem (src.y + (x0 + (dx : Int)) + (y0 + (dy : Int)) * src.stride)).val : Int) -
      ((mem (img.y + (x0 + (dx : Int)) + (y0 + (dy : Int)) * img.stride)).val : Int)) *
    (((mem (src.y + (x0 + (dx : Int)) + (y0 + (dy : Int)) * src.stride)).val : Int) -
      ((mem (img.y + (x0 + (dx : Int)) + (y0 + (dy : Int)) * img.stride)).val : Int)))]
  rw [zero_add]
  apply Finset.sum_congr rfl
  intro dy _
  apply Finset.sum_congr rfl
  intro dx _
  ring

theorem commit_and_annotate_result (ectx : encoder_context) (cb : enc_cb)
    (PBidx : Fin 4) (x y pbW pbH : Int) (mvp : MotionVector × MotionVector)
    (spec : motion_spec) (vec : PredVectorInfo) (calls : List Call) :
    ∃ r, commit_and_annotate false ectx cb PBidx x y pbW pbH mvp spec vec calls = some r ∧
      r.cb.rate = 5 ∧ r.cb.rqt_root_cbf = 0 ∧
      r.cb.distortion = ssd_reference r.mem ectx.input ectx.img cb.x cb.y cb.log2Size ∧
      r.cb.x = cb.x ∧ r.cb.y = cb.y ∧ r.cb.log2Size = cb.log2Size ∧
      (∀ i, i ≠ PBidx → r.cb.pb i = cb.pb i) ∧
      r.mem = ectx.generate_inter_prediction_samples ectx.mem cb.x cb.y 0 0
        (shiftLeft 1 cb.log2Size.toNat) (shiftLeft 1 cb.log2Size.toNat)
        (shiftLeft 1 cb.log2Size.toNat) (r.cb.pb PBidx).motion := by
  refine ⟨_, rfl, rfl, rfl, ?_, rfl, rfl, rfl, ?_, ?_⟩
  · simp only [commit_and_annotate]
    exact compute_distortion_ssd_eq _ _ _ _ _ _
  · intro i hi
    simp [commit_and_annotate, Function.update_noteq hi]
  · simp [commit_and_annotate]
set_option maxRecDepth 100000 in
theorem scenario_distortion :
    compute_distortion_ssd
      (full_sample_prediction (luma_picture 0 16 16 16) (luma_picture 2048 16 16 16)
        scenario_memory 0 0 0 0 16 16 16 ⟨1, 0, 0, 0, ⟨0, 0⟩, ⟨0, 0⟩⟩)
      (luma_picture 1024 16 16 16) (luma_picture 0 16 16 16) 0 0 4 0 = 0 ∧
    compute_distortion_ssd scenario_memory
      (luma_picture 1024 16 16 16) (luma_picture 0 16 16 16) 0 0 4 0 = 2560000 := by
  constructor <;> decide

/-- C15: for both strategies, an `analyze` call with residual coding disabled
returns the coding block it was given (same position and size, the other
prediction-block slots untouched) with `rate = 5`, `inter.rqt_root_cbf = 0` and
`distortion` equal to the sum of squared differences between the input picture
and the working picture, as left by the prediction synthesis, over the coding
block at `(cb.x, cb.y)` of size `2 ^ log2Size`. In the scenario of a 16 x 16
block at (0,0), predictor (0,0), zero pattern, flat input and reference
pictures of value 100 and a working picture that holds zeros before the
synthesis, the distortion is 0, the rate 5 and `rqt_root_cbf` 0. -/
theorem analyze_annotates_block (ectx : encoder_context) (cb : enc_cb)
    (PBidx : Fin 4) (x y w h : Int) (testMode : MVTestMode) (range hrange vrange : Int) :
    (∃ r, (Algo_PB_MV_Test.mk testMode range false).analyze ectx cb PBidx x y w h = some r ∧
      r.cb.rate = 5 ∧ r.cb.rqt_root_cbf = 0 ∧
      r.cb.distortion = ssd_reference r.mem ectx.input ectx.img cb.x cb.y cb.log2Size ∧
      r.cb.x = cb.x ∧ r.cb.y = cb.y ∧ r.cb.log2Size = cb.log2Size ∧
      (∀ i, i ≠ PBidx → r.cb.pb i = cb.pb i) ∧
      r.mem = ectx.generate_inter_prediction_samples ectx.mem cb.x cb.y 0 0
        (shiftLeft 1 cb.log2Size.toNat) (shiftLeft 1 cb.log2Size.toNat)
        (shiftLeft 1 cb.log2Size.toNat) (r.cb.pb PBidx).motion) ∧
    (∃ r, (Algo_PB_MV_Search.mk hrange vrange false).analyze ectx cb PBidx x y w h = some r ∧
      r.cb.rate = 5 ∧ r.cb.rqt_root_cbf = 0 ∧
      r.cb.distortion = ssd_reference r.mem ectx.input ectx.img cb.x cb.y cb.log2Size ∧
      r.cb.x = cb.x ∧ r.cb.y = cb.y ∧ r.cb.log2Size = cb.log2Size ∧
      (∀ i, i ≠ PBidx → r.cb.pb i = cb.pb i) ∧
      r.mem = ectx.generate_inter_prediction_samples ectx.mem cb.x cb.y 0 0
        (shiftLeft 1 cb.log2Size.toNat) (shiftLeft 1 cb.log2Size.toNat)
        (shiftLeft 1 cb.log2Size.toNat) (r.cb.pb PBidx).motion) ∧
    (∃ r, (Algo_PB_MV_Test.mk MVTestMode.MVTestMode_Zero 0 false).analyze scenario_ctx
        (cb_with_mvd 0 0 4 0 0) 0 0 0 16 16 = some r ∧
      r.cb.distortion = 0 ∧ r.cb.rate = 5 ∧ r.cb.rqt_root_cbf = 0 ∧
      (r.cb.pb 0).motion.mv_0 = ⟨0, 0⟩) := by
  refine ⟨commit_and_annotate_result ectx cb PBidx x y w h _ _ _ _,
    commit_and_annotate_result ectx cb PBidx x y w h _ _ _ _, ?_⟩
  exact ⟨_, rfl, scenario_distortion.1, rfl, rfl, by decide⟩

/-! ### The vector committed by the search -/

theorem shiftLeft_two (a : Int) : shiftLeft a 2 = 4 * a := by
  unfold shiftLeft
  norm_num
  ring

theorem search_winner (hrange vrange : Int) (res : Bool) (ectx : encoder_context)
    (cb : enc_cb) (PBidx : Fin 4) (x y pbW pbH : Int)
    (hex : ∃ mx my, in_window x y hrange vrange mx my ∧
      valid_candidate pbW pbH (ectx.get_image (ectx.frame_number - 1)).get_width
        (ectx.get_image (ectx.frame_number - 1)).get_height mx my ∧
      candidate_cost ectx.mem (ectx.get_image (ectx.frame_number - 1)) ectx.input
        x y pbW pbH mx my < 0x7fffffff) :
    ∃ mx my, in_window x y hrange vrange mx my ∧
      valid_candidate pbW pbH (ectx.get_image (ectx.frame_number - 1)).get_width
        (ectx.get_image (ectx.frame_number - 1)).get_height mx my ∧
      (search_final (Algo_PB_MV_Search.mk hrange vrange res) ectx cb PBidx
        x y pbW pbH).mincost =
        candidate_cost ectx.mem (ectx.get_image (ectx.frame_number - 1)) ectx.input
          x y pbW pbH mx my ∧
      (search_final (Algo_PB_MV_Search.mk hrange vrange res) ectx cb PBidx
        x y pbW pbH).mincost < 0x7fffffff ∧
      (search_final (Algo_PB_MV_Search.mk hrange vrange res) ectx cb PBidx
        x y pbW pbH).spec.mvd_0_0 = 4 * (mx - x) ∧
      (search_final (Algo_PB_MV_Search.mk hrange vrange res) ectx cb PBidx
        x y pbW pbH).spec.mvd_0_1 = 4 * (my - y) ∧
      ∀ mx2 my2, in_window x y hrange vrange mx2 my2 →
        valid_candidate pbW pbH (ectx.get_image (ectx.frame_number - 1)).get_width
          (ectx.get_image (ectx.frame_number - 1)).get_height mx2 my2 →
        candidate_cost ectx.mem (ectx.get_image (ectx.frame_number - 1)) ectx.input
            x y pbW pbH mx my ≤
          candidate_cost ectx.mem (ectx.get_image (ectx.frame_number - 1)) ectx.input
            x y pbW pbH mx2 my2 ∧
        (candidate_cost ectx.mem (ectx.get_image (ectx.frame_number - 1)) ectx.input
            x y pbW pbH mx2 my2 =
          candidate_cost ectx.mem (ectx.get_image (ectx.frame_number - 1)) ectx.input
            x y pbW pbH mx my →
          (mx2, my2) = (mx, my) ∨ raster_before mx my mx2 my2) := by
  have hinv := search_final_invariant (Algo_PB_MV_Search.mk hrange vrange res)
    ectx cb PBidx x y pbW pbH
  rcases hinv with ⟨-, -, hall⟩ | ⟨c, hc, hcv, hlt, hm, hs, hall⟩
  · obtain ⟨mx, my, hw, hv, hlt⟩ := hex
    have := hall (mx, my) ((mem_candidates _ _ _ _ _ _).mpr hw) hv
    simp only at this
    omega
  · obtain ⟨cx, cy⟩ := c
    refine ⟨cx, cy, (mem_candidates _ _ _ _ _ _).mp hc, hcv, hm, ?_, ?_, ?_, ?_⟩
    · rw [hm]; exact hlt
    · rw [hs]; exact shiftLeft_two _
    · rw [hs]; exact shiftLeft_two _
    · intro mx2 my2 hw2 hv2
      exact hall (mx2, my2) ((mem_candidates _ _ _ _ _ _).mpr hw2) hv2

theorem raster_first_unique (cost : Int → Int → Int) (P : Int → Int → Prop)
    (mx my nx ny : Int) (hp : P mx my) (hq : P nx ny)
    (h1 : ∀ a b, P a b → cost mx my ≤ cost a b ∧
      (cost a b = cost mx my → (a, b) = (mx, my) ∨ raster_before mx my a b))
    (h2 : ∀ a b, P a b → cost nx ny ≤ cost a b ∧
      (cost a b = cost nx ny → (a, b) = (nx, ny) ∨ raster_before nx ny a b)) :
    mx = nx ∧ my = ny := by
  have a1 := h1 nx ny hq
  have a2 := h2 mx my hp
  have heq : cost nx ny = cost mx my := by omega
  rcases a1.2 heq with h | h
  · simp only [Prod.mk.injEq] at h
    exact ⟨h.1.symm, h.2.symm⟩
  · rcases a2.2 heq.symm with h' | h'
    · simp only [Prod.mk.injEq] at h'
      exact h'
    · unfold raster_before at h h'
      omega

theorem sad_le (mem : Memory) (p1 stride1 p2 stride2 w h : Int) :
    sad mem p1 stride1 p2 stride2 w h ≤ 255 * ((w.toNat : Int) * (h.toNat : Int)) := by
  rw [(sad_run_eq mem p1 stride1 p2 stride2 w h).1]
  unfold sad_reference
  have hterm : ∀ j ∈ Finset.range h.toNat, ∀ i ∈ Finset.range w.toNat,
      |((mem (p1 + (j : Int) * stride1 + (i : Int))).val : Int) -
        ((mem (p2 + (j : Int) * stride2 + (i : Int))).val : Int)| ≤ 255 := by
    intro j _ i _
    have h1 := (mem (p1 + (j : Int) * stride1 + (i : Int))).isLt
    have h2 := (mem (p2 + (j : Int) * stride2 + (i : Int))).isLt
    rw [abs_le]
    omega
  calc _ ≤ ∑ _j in Finset.range h.toNat, ∑ _i in Finset.range w.toNat, (255 : Int) :=
        Finset.sum_le_sum (fun j hj => Finset.sum_le_sum (fun i hi => hterm j hj i hi))
    _ = 255 * ((w.toNat : Int) * (h.toNat : Int)) := by
        simp only [Finset.sum_const, Finset.card_range, nsmul_eq_mul]
        ring

theorem sad_lt_sentinel (mem : Memory) (p1 stride1 p2 stride2 w h : Int)
    (hb : w * h * 255 < 2 ^ 31 - 1) :
    sad mem p1 stride1 p2 stride2 w h < 0x7fffffff := by
  have hle := sad_le mem p1 stride1 p2 stride2 w h
  rcases le_or_lt w 0 with hw | hw
  · have : w.toNat = 0 := Int.toNat_eq_zero.mpr hw
    rw [this] at hle
    simp at hle
    omega
  · rcases le_or_lt h 0 with hh | hh
    · have : h.toNat = 0 := Int.toNat_eq_zero.mpr hh
      rw [this] at hle
      simp at hle
      omega
    · rw [Int.toNat_of_nonneg (le_of_lt hw), Int.toNat_of_nonneg (le_of_lt hh)] at hle
      have : (2 : Int) ^ 31 - 1 = 0x7fffffff := by norm_num
      nlinarith
theorem search_final_keeps_spec (hrange vrange : Int) (res : Bool) (ectx : encoder_context)
    (cb : enc_cb) (PBidx : Fin 4) (x y pbW pbH : Int)
    (hnone : ∀ mx my, in_window x y hrange vrange mx my →
      valid_candidate pbW pbH (ectx.get_image (ectx.frame_number - 1)).get_width
        (ectx.get_image (ectx.frame_number - 1)).get_height mx my →
      0x7fffffff ≤ candidate_cost ectx.mem (ectx.get_image (ectx.frame_number - 1)) ectx.input
        x y pbW pbH mx my) :
    (search_final (Algo_PB_MV_Search.mk hrange vrange res) ectx cb PBidx
      x y pbW pbH).spec.mvd_0_0 = (cb.pb PBidx).spec.mvd_0_0 ∧
    (search_final (Algo_PB_MV_Search.mk hrange vrange res) ectx cb PBidx
      x y pbW pbH).spec.mvd_0_1 = (cb.pb PBidx).spec.mvd_0_1 := by
  have hinv := search_final_invariant (Algo_PB_MV_Search.mk hrange vrange res)
    ectx cb PBidx x y pbW pbH
  rcases hinv with ⟨-, hs, -⟩ | ⟨c, hc, hcv, hlt, -⟩
  · rw [hs]
    exact ⟨rfl, rfl⟩
  · exfalso
    have := hnone c.1 c.2 ((mem_candidates _ _ _ _ _ _).mp hc) hcv
    simp only at hlt
    omega

/-! ### The raster-first minimiser -/

/-- C4: for every sample memory, reference picture, input picture, block
`(x, y, pbW, pbH)` and ranges such that at least one candidate of the window is
valid, the search strategy (residual coding disabled) returns and commits the
displacement of a candidate of the window that is valid, whose SAD is at most
that of every valid candidate of the window, and such that every other valid
candidate with the same SAD comes later in raster order. The block is one
whose cost fits the `int` accumulator of `sad` for every picture content,
`pbW * pbH * 255 < 2^31 - 1`. -/
theorem search_selects_raster_first_minimiser (hrange vrange : Int) (ectx : encoder_context)
    (cb : enc_cb) (PBidx : Fin 4) (x y pbW pbH : Int)
    (hsz : pbW * pbH * 255 < 2 ^ 31 - 1)
    (hex : ∃ mx my, in_window x y hrange vrange mx my ∧
      valid_candidate pbW pbH (ectx.get_image (ectx.frame_number - 1)).get_width
        (ectx.get_image (ectx.frame_number - 1)).get_height mx my) :
    selects_raster_first_minimiser (Algo_PB_MV_Search.mk hrange vrange false)
      ectx cb PBidx x y pbW pbH := by
  obtain ⟨mx, my, hw, hv⟩ := hex
  exact search_selects_of_cost_lt hrange vrange ectx cb PBidx x y pbW pbH
    ⟨mx, my, hw, hv, sad_lt_sentinel _ _ _ _ _ _ _ hsz⟩

theorem search_selects_raster_first_minimiser_witness :
    ((1 : Int) * 1 * 255 < 2 ^ 31 - 1) ∧
    (∃ mx my, in_window 1 0 1 0 mx my ∧ valid_candidate 1 1 3 1 mx my) ∧
    selects_raster_first_minimiser (Algo_PB_MV_Search.mk 1 0 false)
      (ctx_of tie_memory (luma_picture 32 3 1 16) (luma_picture 16 3 1 16)
        (luma_picture 0 3 1 16) ⟨0, 0⟩ 0 0)
      (cb_with_mvd 0 0 2 0 0) 0 1 0 1 1 :=
  ⟨by decide, ⟨1, 0, by decide, by decide⟩,
   search_selects_raster_first_minimiser 1 0
    (ctx_of tie_memory (luma_picture 32 3 1 16) (luma_picture 16 3 1 16)
      (luma_picture 0 3 1 16) ⟨0, 0⟩ 0 0)
    (cb_with_mvd 0 0 2 0 0) 0 1 0 1 1 (by decide) ⟨1, 0, by decide, by decide⟩⟩

/-- C16: whenever the search window contains at least one valid candidate, the
vector committed by `Algo_PB_MV_Search::analyze` (residual coding disabled) is
exactly `mv[0] = (4*(mx-x), 4*(my-y))` for the winning candidate `(mx, my)`,
the raster-first valid candidate of minimal SAD, and the stored `mvd[0]` is
that vector minus `mvp[0]`; the committed vector is the same for every other
predictor derivation. The block is one whose cost fits the `int` accumulator
of `sad` for every picture content, `pbW * pbH * 255 < 2^31 - 1`. -/
theorem search_quarter_sample_reconstruction (hrange vrange : Int) (ectx : encoder_context)
    (cb : enc_cb) (PBidx : Fin 4) (x y pbW pbH : Int)
    (hsz : pbW * pbH * 255 < 2 ^ 31 - 1)
    (hex : ∃ mx my, in_window x y hrange vrange mx my ∧
      valid_candidate pbW pbH (ectx.get_image (ectx.frame_number - 1)).get_width
        (ectx.get_image (ectx.frame_number - 1)).get_height mx my) :
    ∃ r, (Algo_PB_MV_Search.mk hrange vrange false).analyze ectx cb PBidx x y pbW pbH = some r ∧
      (∃ mx my, in_window x y hrange vrange mx my ∧
        valid_candidate pbW pbH (ectx.get_image (ectx.frame_number - 1)).get_width
          (ectx.get_image (ectx.frame_number - 1)).get_height mx my ∧
        (∀ mx2 my2, in_window x y hrange vrange mx2 my2 →
          valid_candidate pbW pbH (ectx.get_image (ectx.frame_number - 1)).get_width
            (ectx.get_image (ectx.frame_number - 1)).get_height mx2 my2 →
          candidate_cost ectx.mem (ectx.get_image (ectx.frame_number - 1)) ectx.input
              x y pbW pbH mx my ≤
            candidate_cost ectx.mem (ectx.get_image (ectx.frame_number - 1)) ectx.input
              x y pbW pbH mx2 my2 ∧
          (candidate_cost ectx.mem (ectx.get_image (ectx.frame_number - 1)) ectx.input
              x y pbW pbH mx2 my2 =
            candidate_cost ectx.mem (ectx.get_image (ectx.frame_number - 1)) ectx.input
              x y pbW pbH mx my →
            (mx2, my2) = (mx, my) ∨ raster_before mx my mx2 my2)) ∧
        (r.cb.pb PBidx).motion.mv_0 = ⟨4 * (mx - x), 4 * (my - y)⟩ ∧
        (r.cb.pb PBidx).spec.mvd_0_0 =
          4 * (mx - x) - (ectx.fill_luma_motion_vector_predictors cb.x cb.y
            (shiftLeft 1 cb.log2Size.toNat) x y pbW pbH 0 0 0).1.x ∧
        (r.cb.pb PBidx).spec.mvd_0_1 =
          4 * (my - y) - (ectx.fill_luma_motion_vector_predictors cb.x cb.y
            (shiftLeft 1 cb.log2Size.toNat) x y pbW pbH 0 0 0).1.y) ∧
      (∀ f : Int → Int → Int → Int → Int → Int → Int → Int → Int → Int →
          MotionVector × MotionVector,
        ∃ r2, (Algo_PB_MV_Search.mk hrange vrange false).analyze
            { ectx with fill_luma_motion_vector_predictors := f } cb PBidx x y pbW pbH =
            some r2 ∧
          (r2.cb.pb PBidx).motion.mv_0 = (r.cb.pb PBidx).motion.mv_0) := by
  obtain ⟨r, hr, hmv, hd0, hd1⟩ := search_analyze_eq hrange vrange ectx cb PBidx x y pbW pbH
  obtain ⟨cx, cy, hcw, hcv⟩ := hex
  obtain ⟨mx, my, hw, hv, -, -, hs0, hs1, hall⟩ :=
    search_winner hrange vrange false ectx cb PBidx x y pbW pbH
      ⟨cx, cy, hcw, hcv, sad_lt_sentinel _ _ _ _ _ _ _ hsz⟩
  refine ⟨r, hr, ⟨mx, my, hw, hv, hall, ?_, ?_, ?_⟩, ?_⟩
  · rw [hmv, hs0, hs1]
  · rw [hd0, hs0]
  · rw [hd1, hs1]
  · intro f
    obtain ⟨r2, hr2, hmv2, -, -⟩ := search_analyze_eq hrange vrange
      { ectx with fill_luma_motion_vector_predictors := f } cb PBidx x y pbW pbH
    exact ⟨r2, hr2, by rw [hmv2, hmv]; rfl⟩

theorem search_quarter_sample_reconstruction_witness :
    ((1 : Int) * 1 * 255 < 2 ^ 31 - 1) ∧
    (∃ mx my, in_window 1 0 1 0 mx my ∧ valid_candidate 1 1 3 1 mx my) ∧
    ∃ r, (Algo_PB_MV_Search.mk 1 0 false).analyze
        (ctx_of tie_memory (luma_picture 32 3 1 16) (luma_picture 16 3 1 16)
          (luma_picture 0 3 1 16) ⟨8, 4⟩ 0 0)
        (cb_with_mvd 0 0 2 0 0) 0 1 0 1 1 = some r ∧
      ∃ mx my, (r.cb.pb 0).motion.mv_0 = ⟨4 * (mx - 1), 4 * (my - 0)⟩ ∧
        (r.cb.pb 0).spec.mvd_0_0 = 4 * (mx - 1) - 8 ∧
        (r.cb.pb 0).spec.mvd_0_1 = 4 * (my - 0) - 4 := by
  refine ⟨by decide, ⟨1, 0, by decide, by decide⟩, ?_⟩
  obtain ⟨r, hr, ⟨mx, my, -, -, -, h1, h2, h3⟩, -⟩ :=
    search_quarter_sample_reconstruction 1 0
      (ctx_of tie_memory (luma_picture 32 3 1 16) (luma_picture 16 3 1 16)
        (luma_picture 0 3 1 16) ⟨8, 4⟩ 0 0)
      (cb_with_mvd 0 0 2 0 0) 0 1 0 1 1 (by decide) ⟨1, 0, by decide, by decide⟩
  exact ⟨r, hr, mx, my, h1, h2, h3⟩

/-! ### The window without a valid candidate -/

/-- C7 as stated fails: the current picture is 24 x 16 and the reference
picture, the previous frame, is 16 x 24 (the resolution changed between the two
frames). The 8 x 8 block at (16, 0) lies inside the current picture, and with
ranges 1 no candidate of its window is in bounds of the reference picture
(`mx + 8 > 16` for `mx` in 15..17). `analyze` returns normally, its calls are
those of the predictor derivation, `set_mv_info`, the prediction synthesis and
the distortion, none of `sad`, and it commits as `mv[0]` whatever the `mvd` slot
of the block held before the call: `(12, -8)` when the slot held `(12, -8)`,
`(0, 0)` when it held `(0, 0)`, with `mvd[0]` that value minus the predictor
`(3, 5)`. -/
theorem search_degenerate_window_depends_on_slot :
    valid_candidate 8 8 24 16 16 0 ∧
    (∀ mx my, in_window 16 0 1 1 mx my → ¬ valid_candidate 8 8 16 24 mx my) ∧
    (∃ r, (Algo_PB_MV_Search.mk 1 1 false).analyze
        (ctx_of (flat_memory 100) (luma_picture 0 24 16 32) (luma_picture 1024 24 16 32)
          (luma_picture 2048 16 24 16) ⟨3, 5⟩ 0 0)
        (cb_with_mvd 16 0 3 12 (-8)) 0 16 0 8 8 = some r ∧
      (r.cb.pb 0).motion.mv_0 = ⟨12, -8⟩ ∧
      (r.cb.pb 0).spec.mvd_0_0 = 9 ∧ (r.cb.pb 0).spec.mvd_0_1 = -13 ∧
      r.calls =
        [Call.fill_luma_motion_vector_predictors 16 0 8 16 0 8 8 0 0 0,
         Call.set_mv_info 16 0 8 8 (r.cb.pb 0).motion,
         Call.generate_inter_prediction_samples 16 0 0 0 8 8 8 (r.cb.pb 0).motion,
         Call.compute_distortion_ssd 16 0 3 0]) ∧
    (∃ r, (Algo_PB_MV_Search.mk 1 1 false).analyze
        (ctx_of (flat_memory 100) (luma_picture 0 24 16 32) (luma_picture 1024 24 16 32)
          (luma_picture 2048 16 24 16) ⟨3, 5⟩ 0 0)
        (cb_with_mvd 16 0 3 0 0) 0 16 0 8 8 = some r ∧
      (r.cb.pb 0).motion.mv_0 = ⟨0, 0⟩ ∧
      (r.cb.pb 0).spec.mvd_0_0 = -3 ∧ (r.cb.pb 0).spec.mvd_0_1 = -5 ∧
      r.calls =
        [Call.fill_luma_motion_vector_predictors 16 0 8 16 0 8 8 0 0 0,
         Call.set_mv_info 16 0 8 8 (r.cb.pb 0).motion,
         Call.generate_inter_prediction_samples 16 0 0 0 8 8 8 (r.cb.pb 0).motion,
         Call.compute_distortion_ssd 16 0 3 0]) := by
  refine ⟨by decide, ?_, ⟨_, rfl, by decide, by decide, by decide, by decide⟩,
    ⟨_, rfl, by decide, by decide, by decide, by decide⟩⟩
  intro mx my hw hv
  unfold in_window at hw
  unfold valid_candidate at hv
  omega

/-- C7, amended: `Algo_PB_MV_Search::analyze` (residual coding disabled) has no
detection of a window without a valid candidate. It returns in every case. For
every input in which no candidate of the window is in bounds of the reference
picture, it makes no call of `sad` and commits as `mv[0]` the value that the
`mvd[0]` slot of the block held before the call, storing `mvd[0]` as that value
minus `mvp[0]`. For every input whose window contains a candidate in bounds, the
block being one whose cost fits the `int` accumulator of `sad`
(`pbW * pbH * 255 < 2^31 - 1`), the committed `mv[0]` and the stored `mvd[0]` do
not depend on the content of the prediction-block slots before the call: they
are the same for every other content `pb2` of the slots. -/
theorem search_degenerate_window_commits_slot (hrange vrange : Int)
    (ectx : encoder_context) (cb : enc_cb) (PBidx : Fin 4) (x y pbW pbH : Int) :
    ∃ r, (Algo_PB_MV_Search.mk hrange vrange false).analyze ectx cb PBidx x y pbW pbH = some r ∧
      ((∀ mx my, in_window x y hrange vrange mx my →
          ¬ valid_candidate pbW pbH (ectx.get_image (ectx.frame_number - 1)).get_width
            (ectx.get_image (ectx.frame_number - 1)).get_height mx my) →
        (r.cb.pb PBidx).motion.mv_0 =
          ⟨(cb.pb PBidx).spec.mvd_0_0, (cb.pb PBidx).spec.mvd_0_1⟩ ∧
        (r.cb.pb PBidx).spec.mvd_0_0 =
          (cb.pb PBidx).spec.mvd_0_0 - (ectx.fill_luma_motion_vector_predictors cb.x cb.y
            (shiftLeft 1 cb.log2Size.toNat) x y pbW pbH 0 0 0).1.x ∧
        (r.cb.pb PBidx).spec.mvd_0_1 =
          (cb.pb PBidx).spec.mvd_0_1 - (ectx.fill_luma_motion_vector_predictors cb.x cb.y
            (shiftLeft 1 cb.log2Size.toNat) x y pbW pbH 0 0 0).1.y ∧
        ∀ p1 stride1 p2 stride2 w h, Call.sad p1 stride1 p2 stride2 w h ∉ r.calls) ∧
      (pbW * pbH * 255 < 2 ^ 31 - 1 →
        (∃ mx my, in_window x y hrange vrange mx my ∧
          valid_candidate pbW pbH (ectx.get_image (ectx.frame_number - 1)).get_width
            (ectx.get_image (ectx.frame_number - 1)).get_height mx my) →
        ∀ pb2 : Fin 4 → enc_pb_inter,
          ∃ r2, (Algo_PB_MV_Search.mk hrange vrange false).analyze ectx { cb with pb := pb2 }
              PBidx x y pbW pbH = some r2 ∧
            (r2.cb.pb PBidx).motion.mv_0 = (r.cb.pb PBidx).motion.mv_0 ∧
            (r2.cb.pb PBidx).spec.mvd_0_0 = (r.cb.pb PBidx).spec.mvd_0_0 ∧
            (r2.cb.pb PBidx).spec.mvd_0_1 = (r.cb.pb PBidx).spec.mvd_0_1) := by
  obtain ⟨r, hr, hmv, hd0, hd1⟩ := search_analyze_eq hrange vrange ectx cb PBidx x y pbW pbH
  refine ⟨r, hr, ?_, ?_⟩
  · intro hnone
    obtain ⟨k0, k1⟩ := search_final_keeps_spec hrange vrange false ectx cb PBidx x y pbW pbH
      (fun mx my hw hv => absurd hv (hnone mx my hw))
    refine ⟨by rw [hmv, k0, k1], by rw [hd0, k0], by rw [hd1, k1], ?_⟩
    intro p1 stride1 p2 stride2 w h hmem
    have hmem2 := (commit_and_annotate_calls ectx cb PBidx x y pbW pbH _ _ _ _ r hr
      p1 stride1 p2 stride2 w h).mp hmem
    obtain ⟨mx, my, hw, hv, -⟩ := (search_final_calls (Algo_PB_MV_Search.mk hrange vrange false)
      ectx cb PBidx x y pbW pbH p1 stride1 p2 stride2 w h).mp hmem2
    exact hnone mx my hw hv
  · intro hsz hex
    obtain ⟨cx, cy, hcw, hcv⟩ := hex
    have hex2 : ∃ mx my, in_window x y hrange vrange mx my ∧
        valid_candidate pbW pbH (ectx.get_image (ectx.frame_number - 1)).get_width
          (ectx.get_image (ectx.frame_number - 1)).get_height mx my ∧
        candidate_cost ectx.mem (ectx.get_image (ectx.frame_number - 1)) ectx.input
          x y pbW pbH mx my < 0x7fffffff :=
      ⟨cx, cy, hcw, hcv, sad_lt_sentinel _ _ _ _ _ _ _ hsz⟩
    obtain ⟨mx, my, hw, hv, -, -, hs0, hs1, hall⟩ :=
      search_winner hrange vrange false ectx cb PBidx x y pbW pbH hex2
    intro pb2
    obtain ⟨r2, hr2, hmv2, he0, he1⟩ :=
      search_analyze_eq hrange vrange ectx { cb with pb := pb2 } PBidx x y pbW pbH
    obtain ⟨nx, ny, hw2, hv2, -, -, ht0, ht1, hall2⟩ :=
      search_winner hrange vrange false ectx { cb with pb := pb2 } PBidx x y pbW pbH hex2
    obtain ⟨hx, hy⟩ := raster_first_unique
      (fun a b => candidate_cost ectx.mem (ectx.get_image (ectx.frame_number - 1)) ectx.input
        x y pbW pbH a b)
      (fun a b => in_window x y hrange vrange a b ∧
        valid_candidate pbW pbH (ectx.get_image (ectx.frame_number - 1)).get_width
          (ectx.get_image (ectx.frame_number - 1)).get_height a b)
      mx my nx ny ⟨hw, hv⟩ ⟨hw2, hv2⟩
      (fun a b hab => hall a b hab.1 hab.2) (fun a b hab => hall2 a b hab.1 hab.2)
    refine ⟨r2, hr2, ?_, ?_, ?_⟩
    · rw [hmv2, hmv, ht0, ht1, hs0, hs1, hx, hy]
    · rw [he0, hd0, ht0, hs0, hx]
    · rw [he1, hd1, ht1, hs1, hy]

theorem search_degenerate_window_commits_slot_witness :
    ((∀ mx my, in_window 16 0 1 1 mx my → ¬ valid_candidate 8 8 16 24 mx my) ∧
      ∃ r, (Algo_PB_MV_Search.mk 1 1 false).analyze
          (ctx_of (flat_memory 100) (luma_picture 0 24 16 32) (luma_picture 1024 24 16 32)
            (luma_picture 2048 16 24 16) ⟨3, 5⟩ 0 0)
          (cb_with_mvd 16 0 3 12 (-8)) 0 16 0 8 8 = some r ∧
        (r.cb.pb 0).motion.mv_0 = ⟨12, -8⟩ ∧
        (r.cb.pb 0).spec.mvd_0_0 = 12 - 3 ∧ (r.cb.pb 0).spec.mvd_0_1 = -8 - 5) ∧
    ((1 : Int) * 1 * 255 < 2 ^ 31 - 1 ∧
      (∃ mx my, in_window 1 0 1 0 mx my ∧ valid_candidate 1 1 3 1 mx my) ∧
      ∃ r, (Algo_PB_MV_Search.mk 1 0 false).analyze
          (ctx_of tie_memory (luma_picture 32 3 1 16) (luma_picture 16 3 1 16)
            (luma_picture 0 3 1 16) ⟨8, 4⟩ 0 0)
          (cb_with_mvd 0 0 2 12 (-8)) 0 1 0 1 1 = some r ∧
        ∃ r2, (Algo_PB_MV_Search.mk 1 0 false).analyze
            (ctx_of tie_memory (luma_picture 32 3 1 16) (luma_picture 16 3 1 16)
              (luma_picture 0 3 1 16) ⟨8, 4⟩ 0 0)
            (cb_with_mvd 0 0 2 0 0) 0 1 0 1 1 = some r2 ∧
          (r2.cb.pb 0).motion.mv_0 = (r.cb.pb 0).motion.mv_0 ∧
          (r2.cb.pb 0).spec.mvd_0_0 = (r.cb.pb 0).spec.mvd_0_0 ∧
          (r2.cb.pb 0).spec.mvd_0_1 = (r.cb.pb 0).spec.mvd_0_1) := by
  have hnone : ∀ mx my, in_window 16 0 1 1 mx my → ¬ valid_candidate 8 8 16 24 mx my := by
    intro mx my hw hv
    unfold in_window at hw
    unfold valid_candidate at hv
    omega
  refine ⟨⟨hnone, ?_⟩, by decide, ⟨1, 0, by decide, by decide⟩, ?_⟩
  · obtain ⟨r, hr, hdeg, -⟩ := search_degenerate_window_commits_slot 1 1
      (ctx_of (flat_memory 100) (luma_picture 0 24 16 32) (luma_picture 1024 24 16 32)
        (luma_picture 2048 16 24 16) ⟨3, 5⟩ 0 0)
      (cb_with_mvd 16 0 3 12 (-8)) 0 16 0 8 8
    obtain ⟨h1, h2, h3, -⟩ := hdeg hnone
    exact ⟨r, hr, h1, h2, h3⟩
  · obtain ⟨r, hr, -, hind⟩ := search_degenerate_window_commits_slot 1 0
      (ctx_of tie_memory (luma_picture 32 3 1 16) (luma_picture 16 3 1 16)
        (luma_picture 0 3 1 16) ⟨8, 4⟩ 0 0)
      (cb_with_mvd 0 0 2 12 (-8)) 0 1 0 1 1
    exact ⟨r, hr, hind (by decide) ⟨1, 0, by decide, by decide⟩ (cb_with_mvd 0 0 2 0 0).pb⟩

/-! ### The random test pattern -/

theorem tmod_sub_range (a R : Int) (ha : 0 ≤ a) (hR : 0 ≤ R) :
    -R ≤ Int.tmod a (2 * R + 1) - R ∧ Int.tmod a (2 * R + 1) - R ≤ R := by
  rw [Int.tmod_eq_emod ha (by omega)]
  have h1 := Int.emod_nonneg a (show (2 * R + 1) ≠ 0 by omega)
  have h2 := Int.emod_lt_of_pos a (show 0 < 2 * R + 1 by omega)
  omega

theorem tmod_add_range (v R : Int) (h0 : -R ≤ v) (h1 : v ≤ R) :
    Int.tmod (v + R) (2 * R + 1) - R = v := by
  rw [Int.tmod_eq_emod (by omega) (by omega), Int.emod_eq_of_lt (by omega) (by omega)]
  omega

theorem analyze_random_mv (ectx : encoder_context) (cb : enc_cb) (PBidx : Fin 4)
    (x y w h R : Int) :
    ∃ r, (Algo_PB_MV_Test.mk MVTestMode.MVTestMode_Random R false).analyze
        ectx cb PBidx x y w h = some r ∧
      (r.cb.pb PBidx).motion.mv_0 =
        ⟨Int.tmod (ectx.rand 0) (2 * R + 1) - R, Int.tmod (ectx.rand 1) (2 * R + 1) - R⟩ := by
  refine ⟨_, rfl, ?_⟩
  simp [commit_and_annotate, test_pattern]

theorem tmod_sub_lt_of_le (a R M : Int) (h0 : 0 ≤ a) (hM : a ≤ M) (hlt : M < 2 * R) :
    Int.tmod a (2 * R + 1) - R < R := by
  rw [Int.tmod_eq_emod h0 (by omega), Int.emod_eq_of_lt h0 (by omega)]
  omega

/-- C17 as stated fails where `RAND_MAX` is 32767, the least value the C
library may give it: for the range `R = 20000` (no `int` overflow:
`2R + 1 = 40001`), no outputs of `rand()` in `[0, 32767]` make
`Algo_PB_MV_Test::analyze` in the random mode commit a vector whose horizontal
component is 20000, a value of `[-R, R]`; the component is
`rand() % 40001 - 20000 = rand() - 20000 ≤ 12767`. -/
theorem analyze_random_unreachable_above_rand_max :
    ((0 : Int) ≤ 20000 ∧ (2 : Int) * 20000 + 1 < 2 ^ 31 ∧ (-20000 : Int) ≤ 20000 ∧
      (20000 : Int) ≤ 20000) ∧
    ¬ ∃ r0 r1 : Int, 0 ≤ r0 ∧ r0 ≤ 32767 ∧ 0 ≤ r1 ∧ r1 ≤ 32767 ∧
      ∃ r, (Algo_PB_MV_Test.mk MVTestMode.MVTestMode_Random 20000 false).analyze
          (ctx_of (flat_memory 100) (luma_picture 0 16 16 16) (luma_picture 256 16 16 16)
            (luma_picture 512 16 16 16) ⟨3, 5⟩ r0 r1)
          (cb_with_mvd 0 0 4 0 0) 0 0 0 16 16 = some r ∧
        (r.cb.pb 0).motion.mv_0.x = 20000 := by
  refine ⟨by decide, ?_⟩
  rintro ⟨r0, r1, h0, h0m, -, -, r, hr, hx⟩
  obtain ⟨r2, hr2, hmv⟩ := analyze_random_mv
    (ctx_of (flat_memory 100) (luma_picture 0 16 16 16) (luma_picture 256 16 16 16)
      (luma_picture 512 16 16 16) ⟨3, 5⟩ r0 r1)
    (cb_with_mvd 0 0 4 0 0) 0 0 0 16 16 20000
  rw [hr] at hr2
  cases hr2
  rw [hmv] at hx
  have hlt := tmod_sub_lt_of_le r0 20000 32767 h0 h0m (by decide)
  simp only [ctx_of, if_true] at hx
  omega

/-- C17, amended: for every range `R ≥ 0`, every pair of non-negative values
returned by `rand()` and every predictor, `Algo_PB_MV_Test::analyze` in the
random mode (residual coding disabled) returns and commits the vector
`((rand() % (2R+1)) - R, (rand() % (2R+1)) - R)`, whose components both lie in
`[-R, R]`. With the outputs of `rand()` in `[0, RAND_MAX]`: if
`2R ≤ RAND_MAX`, every pair of values of `[-R, R]` is committed for some
outputs of `rand()`; if `2R > RAND_MAX`, no outputs of `rand()` give a
component equal to `R`. -/
theorem analyze_random_bound (ectx : encoder_context) (cb : enc_cb) (PBidx : Fin 4)
    (x y w h R RAND_MAX : Int) (hR : 0 ≤ R) (h0 : 0 ≤ ectx.rand 0) (h1 : 0 ≤ ectx.rand 1) :
    (∃ r, (Algo_PB_MV_Test.mk MVTestMode.MVTestMode_Random R false).analyze
        ectx cb PBidx x y w h = some r ∧
      (r.cb.pb PBidx).motion.mv_0 =
        ⟨Int.tmod (ectx.rand 0) (2 * R + 1) - R, Int.tmod (ectx.rand 1) (2 * R + 1) - R⟩ ∧
      -R ≤ (r.cb.pb PBidx).motion.mv_0.x ∧ (r.cb.pb PBidx).motion.mv_0.x ≤ R ∧
      -R ≤ (r.cb.pb PBidx).motion.mv_0.y ∧ (r.cb.pb PBidx).motion.mv_0.y ≤ R) ∧
    (2 * R ≤ RAND_MAX →
      ∀ vx vy, -R ≤ vx → vx ≤ R → -R ≤ vy → vy ≤ R →
        ∃ r0 r1 : Int, 0 ≤ r0 ∧ r0 ≤ RAND_MAX ∧ 0 ≤ r1 ∧ r1 ≤ RAND_MAX ∧
          ∃ r, (Algo_PB_MV_Test.mk MVTestMode.MVTestMode_Random R false).analyze
              { ectx with rand := fun k => if k = 0 then r0 else r1 } cb PBidx x y w h =
              some r ∧
            (r.cb.pb PBidx).motion.mv_0 = ⟨vx, vy⟩) ∧
    (RAND_MAX < 2 * R →
      ∀ r0 r1 : Int, 0 ≤ r0 → r0 ≤ RAND_MAX → 0 ≤ r1 → r1 ≤ RAND_MAX →
        ∃ r, (Algo_PB_MV_Test.mk MVTestMode.MVTestMode_Random R false).analyze
            { ectx with rand := fun k => if k = 0 then r0 else r1 } cb PBidx x y w h =
            some r ∧
          (r.cb.pb PBidx).motion.mv_0.x < R ∧ (r.cb.pb PBidx).motion.mv_0.y < R) := by
  refine ⟨?_, ?_, ?_⟩
  · obtain ⟨r, hr, hmv⟩ := analyze_random_mv ectx cb PBidx x y w h R
    have b0 := tmod_sub_range (ectx.rand 0) R h0 hR
    have b1 := tmod_sub_range (ectx.rand 1) R h1 hR
    refine ⟨r, hr, hmv, ?_, ?_, ?_, ?_⟩ <;> rw [hmv] <;> simp only <;> omega
  · intro hmax vx vy hx0 hx1 hy0 hy1
    refine ⟨vx + R, vy + R, by omega, by omega, by omega, by omega, ?_⟩
    obtain ⟨r, hr, hmv⟩ := analyze_random_mv
      { ectx with rand := fun k => if k = 0 then vx + R else vy + R } cb PBidx x y w h R
    refine ⟨r, hr, ?_⟩
    rw [hmv]
    simp only [if_true, one_ne_zero, if_false]
    rw [tmod_add_range vx R hx0 hx1, tmod_add_range vy R hy0 hy1]
  · intro hmax r0 r1 a0 a1 b0 b1
    obtain ⟨r, hr, hmv⟩ := analyze_random_mv
      { ectx with rand := fun k => if k = 0 then r0 else r1 } cb PBidx x y w h R
    refine ⟨r, hr, ?_⟩
    rw [hmv]
    simp only [if_true, one_ne_zero, if_false]
    exact ⟨tmod_sub_lt_of_le r0 R RAND_MAX a0 a1 hmax, tmod_sub_lt_of_le r1 R RAND_MAX b0 b1 hmax⟩

theorem analyze_random_bound_witness :
    (0 : Int) ≤ 2 ∧
    0 ≤ (ctx_of (flat_memory 100) (luma_picture 0 16 16 16) (luma_picture 256 16 16 16)
      (luma_picture 512 16 16 16) ⟨3, 5⟩ 9 5).rand 0 ∧
    0 ≤ (ctx_of (flat_memory 100) (luma_picture 0 16 16 16) (luma_picture 256 16 16 16)
      (luma_picture 512 16 16 16) ⟨3, 5⟩ 9 5).rand 1 ∧
    (2 : Int) * 2 ≤ 32767 ∧
    (∃ r, (Algo_PB_MV_Test.mk MVTestMode.MVTestMode_Random 2 false).analyze
        (ctx_of (flat_memory 100) (luma_picture 0 16 16 16) (luma_picture 256 16 16 16)
          (luma_picture 512 16 16 16) ⟨3, 5⟩ 9 5)
        (cb_with_mvd 0 0 4 0 0) 0 0 0 16 16 = some r ∧
      (r.cb.pb 0).motion.mv_0 = ⟨2, -2⟩ ∧
      -2 ≤ (r.cb.pb 0).motion.mv_0.x ∧ (r.cb.pb 0).motion.mv_0.x ≤ 2 ∧
      -2 ≤ (r.cb.pb 0).motion.mv_0.y ∧ (r.cb.pb 0).motion.mv_0.y ≤ 2) ∧
    ∃ r0 r1 : Int, 0 ≤ r0 ∧ r0 ≤ 32767 ∧ 0 ≤ r1 ∧ r1 ≤ 32767 ∧
      ∃ r, (Algo_PB_MV_Test.mk MVTestMode.MVTestMode_Random 2 false).analyze
          { ctx_of (flat_memory 100) (luma_picture 0 16 16 16) (luma_picture 256 16 16 16)
              (luma_picture 512 16 16 16) ⟨3, 5⟩ 9 5 with
            rand := fun k => if k = 0 then r0 else r1 }
          (cb_with_mvd 0 0 4 0 0) 0 0 0 16 16 = some r ∧
        (r.cb.pb 0).motion.mv_0 = ⟨-2, 2⟩ := by
  have key := analyze_random_bound
    (ctx_of (flat_memory 100) (luma_picture 0 16 16 16) (luma_picture 256 16 16 16)
      (luma_picture 512 16 16 16) ⟨3, 5⟩ 9 5)
    (cb_with_mvd 0 0 4 0 0) 0 0 0 16 16 2 32767 (by decide) (by decide) (by decide)
  refine ⟨by decide, by decide, by decide, by decide, ?_, ?_⟩
  · obtain ⟨r, hr, hmv, hb⟩ := key.1
    exact ⟨r, hr, by rw [hmv]; decide, hb⟩
  · exact key.2.1 (by decide) (-2) 2 (by decide) (by decide) (by decide) (by decide)

/-! ### The footprint of the side effects -/

set_option maxRecDepth 100000 in
/-- C18, the code at a failing input: for the prediction block
`(x, y, w, h) = (8, 0, 8, 16)`, the right half (index 1) of the 16 x 16 coding
block at (0,0), both strategies call `set_mv_info(8, 0, 8, 16, vec)` but call
`generate_inter_prediction_samples` with origin `(xC, yC) = (0, 0)`, offset
`(xB, yB) = (0, 0)` and size `nPbW = nPbH = 16`, the whole coding block, and
make no call of it for the block's own footprint (offset `(8, 0)`, size
`8 x 16`). -/
theorem analyze_synthesis_footprint_sub_partition :
    (∃ r, (Algo_PB_MV_Test.mk MVTestMode.MVTestMode_Zero 0 false).analyze
        (ctx_of (flat_memory 100) (luma_picture 0 16 16 16) (luma_picture 256 16 16 16)
          (luma_picture 512 16 16 16) ⟨0, 0⟩ 0 0)
        (cb_with_mvd 0 0 4 0 0) 1 8 0 8 16 = some r ∧
      Call.set_mv_info 8 0 8 16 (r.cb.pb 1).motion ∈ r.calls ∧
      Call.generate_inter_prediction_samples 0 0 0 0 16 16 16 (r.cb.pb 1).motion ∈ r.calls ∧
      Call.generate_inter_prediction_samples 0 0 8 0 16 8 16 (r.cb.pb 1).motion ∉ r.calls) ∧
    (∃ r, (Algo_PB_MV_Search.mk 0 0 false).analyze
        (ctx_of (flat_memory 100) (luma_picture 0 16 16 16) (luma_picture 256 16 16 16)
          (luma_picture 512 16 16 16) ⟨0, 0⟩ 0 0)
        (cb_with_mvd 0 0 4 0 0) 1 8 0 8 16 = some r ∧
      Call.set_mv_info 8 0 8 16 (r.cb.pb 1).motion ∈ r.calls ∧
      Call.generate_inter_prediction_samples 0 0 0 0 16 16 16 (r.cb.pb 1).motion ∈ r.calls ∧
      Call.generate_inter_prediction_samples 0 0 8 0 16 8 16 (r.cb.pb 1).motion ∉ r.calls) := by
  refine ⟨⟨_, rfl, by decide, by decide, by decide⟩, ⟨_, rfl, by decide, by decide, by decide⟩⟩

/-! ### The search under the caller's precondition -/

/-- C19: if `Hr, Vr ≥ 0`, the block lies inside the reference picture
(`0 ≤ x`, `x + pbW ≤ refWidth`, `0 ≤ y`, `y + pbH ≤ refHeight`) and
`pbW * pbH * 255 < 2^31 - 1`, then the search loops call `sad` for the
zero-displacement candidate `(x, y)`, its SAD is below the initial `mincost`
`0x7fffffff`, `mincost` is below `0x7fffffff` after the loops (so `mvd[0]` was
assigned inside the loop), `analyze` (residual coding disabled) returns, and the
committed `mv[0]` is 4 times the displacement of the raster-first minimiser,
the same for every other coding block content, prediction-block slot and
predictor derivation, as long as the sample memory, the input picture and the
reference picture are the same. -/
theorem search_precondition_excludes_degenerate (hrange vrange : Int)
    (ectx : encoder_context) (cb : enc_cb) (PBidx : Fin 4) (x y pbW pbH : Int)
    (hH : 0 ≤ hrange) (hV : 0 ≤ vrange)
    (hin : valid_candidate pbW pbH (ectx.get_image (ectx.frame_number - 1)).get_width
      (ectx.get_image (ectx.frame_number - 1)).get_height x y)
    (hsz : pbW * pbH * 255 < 2 ^ 31 - 1) :
    Call.sad ((ectx.get_image (ectx.frame_number - 1)).get_image_plane_at_pos 0 x y)
      ((ectx.get_image (ectx.frame_number - 1)).get_image_stride 0)
      (ectx.input.get_image_plane_at_pos 0 x y) (ectx.input.get_image_stride 0) pbW pbH ∈
      (search_final (Algo_PB_MV_Search.mk hrange vrange false) ectx cb PBidx
        x y pbW pbH).calls ∧
    candidate_cost ectx.mem (ectx.get_image (ectx.frame_number - 1)) ectx.input
      x y pbW pbH x y < 0x7fffffff ∧
    (search_final (Algo_PB_MV_Search.mk hrange vrange false) ectx cb PBidx
      x y pbW pbH).mincost < 0x7fffffff ∧
    ∃ r, (Algo_PB_MV_Search.mk hrange vrange false).analyze ectx cb PBidx x y pbW pbH = some r ∧
      (∃ mx my, in_window x y hrange vrange mx my ∧
        valid_candidate pbW pbH (ectx.get_image (ectx.frame_number - 1)).get_width
          (ectx.get_image (ectx.frame_number - 1)).get_height mx my ∧
        (r.cb.pb PBidx).motion.mv_0 = ⟨4 * (mx - x), 4 * (my - y)⟩) ∧
      (∀ (ectx2 : encoder_context) (cb2 : enc_cb) (PBidx2 : Fin 4),
        ectx2.mem = ectx.mem → ectx2.input = ectx.input →
        ectx2.get_image (ectx2.frame_number - 1) = ectx.get_image (ectx.frame_number - 1) →
        ∃ r2, (Algo_PB_MV_Search.mk hrange vrange false).analyze ectx2 cb2 PBidx2
            x y pbW pbH = some r2 ∧
          (r2.cb.pb PBidx2).motion.mv_0 = (r.cb.pb PBidx).motion.mv_0) := by
  have hwin : in_window x y hrange vrange x y := by
    unfold in_window; omega
  have hcost : candidate_cost ectx.mem (ectx.get_image (ectx.frame_number - 1)) ectx.input
      x y pbW pbH x y < 0x7fffffff := sad_lt_sentinel _ _ _ _ _ _ _ hsz
  obtain ⟨r, hr, hmv, -, -⟩ := search_analyze_eq hrange vrange ectx cb PBidx x y pbW pbH
  obtain ⟨mx, my, hw, hv, -, hlt, hs0, hs1, hall⟩ :=
    search_winner hrange vrange false ectx cb PBidx x y pbW pbH ⟨x, y, hwin, hin, hcost⟩
  refine ⟨?_, hcost, hlt, r, hr, ⟨mx, my, hw, hv, by rw [hmv, hs0, hs1]⟩, ?_⟩
  · exact (search_final_calls _ ectx cb PBidx x y pbW pbH _ _ _ _ _ _).mpr
      ⟨x, y, hwin, hin, rfl⟩
  · intro ectx2 cb2 PBidx2 hm hi hg
    obtain ⟨r2, hr2, hmv2, -, -⟩ := search_analyze_eq hrange vrange ectx2 cb2 PBidx2 x y pbW pbH
    have hex2 : ∃ mx my, in_window x y hrange vrange mx my ∧
        valid_candidate pbW pbH (ectx2.get_image (ectx2.frame_number - 1)).get_width
          (ectx2.get_image (ectx2.frame_number - 1)).get_height mx my ∧
        candidate_cost ectx2.mem (ectx2.get_image (ectx2.frame_number - 1)) ectx2.input
          x y pbW pbH mx my < 0x7fffffff := by
      rw [hm, hi, hg]
      exact ⟨x, y, hwin, hin, hcost⟩
    obtain ⟨nx, ny, hw2, hv2, -, -, ht0, ht1, hall2⟩ :=
      search_winner hrange vrange false ectx2 cb2 PBidx2 x y pbW pbH hex2
    rw [hm, hi, hg] at hall2
    rw [hg] at hv2
    obtain ⟨hx, hy⟩ := raster_first_unique
      (fun a b => candidate_cost ectx.mem (ectx.get_image (ectx.frame_number - 1)) ectx.input
        x y pbW pbH a b)
      (fun a b => in_window x y hrange vrange a b ∧
        valid_candidate pbW pbH (ectx.get_image (ectx.frame_number - 1)).get_width
          (ectx.get_image (ectx.frame_number - 1)).get_height a b)
      mx my nx ny ⟨hw, hv⟩ ⟨hw2, hv2⟩
      (fun a b hab => hall a b hab.1 hab.2) (fun a b hab => hall2 a b hab.1 hab.2)
    refine ⟨r2, hr2, ?_⟩
    rw [hmv2, hmv, ht0, ht1, hs0, hs1, hx, hy]

theorem search_precondition_excludes_degenerate_witness :
    (0 : Int) ≤ 1 ∧ (0 : Int) ≤ 0 ∧ valid_candidate 1 1 3 1 1 0 ∧
    (1 : Int) * 1 * 255 < 2 ^ 31 - 1 ∧
    candidate_cost tie_memory (luma_picture 0 3 1 16) (luma_picture 16 3 1 16)
      1 0 1 1 1 0 < 0x7fffffff ∧
    (search_final (Algo_PB_MV_Search.mk 1 0 false)
      (ctx_of tie_memory (luma_picture 32 3 1 16) (luma_picture 16 3 1 16)
        (luma_picture 0 3 1 16) ⟨8, 4⟩ 0 0)
      (cb_with_mvd 0 0 2 12 (-8)) 0 1 0 1 1).mincost < 0x7fffffff :=
  ⟨by decide, by decide, by decide, by decide,
   (search_precondition_excludes_degenerate 1 0
     (ctx_of tie_memory (luma_picture 32 3 1 16) (luma_picture 16 3 1 16)
       (luma_picture 0 3 1 16) ⟨8, 4⟩ 0 0)
     (cb_with_mvd 0 0 2 12 (-8)) 0 1 0 1 1 (by decide) (by decide) (by decide)
     (by decide)).2.1,
   (search_precondition_excludes_degenerate 1 0
     (ctx_of tie_memory (luma_picture 32 3 1 16) (luma_picture 16 3 1 16)
       (luma_picture 0 3 1 16) ⟨8, 4⟩ 0 0)
     (cb_with_mvd 0 0 2 12 (-8)) 0 1 0 1 1 (by decide) (by decide) (by decide)
     (by decide)).2.2.1⟩

/-! ### The metadata geometry -/

theorem alloc_image_info_sizes (img : de265_image) (sps : seq_parameter_set) (hp : Heap) :
    (alloc_image_info img sps hp).1.intraPredModeSize =
      sps.PicWidthInMinPUs * sps.PicHeightInMinPUs ∧
    (alloc_image_info img sps hp).1.cb_info_size = sps.PicSizeInMinCbsY ∧
    (alloc_image_info img sps hp).1.pb_info_size =
      shiftLeft sps.PicWidthInMinCbsY (sps.Log2MinCbSizeY - 2).toNat *
        shiftLeft sps.PicHeightInMinCbsY (sps.Log2MinCbSizeY - 2).toNat ∧
    ((img.pb_info_size ≠
        shiftLeft sps.PicWidthInMinCbsY (sps.Log2MinCbSizeY - 2).toNat *
          shiftLeft sps.PicHeightInMinCbsY (sps.Log2MinCbSizeY - 2).toNat ∨
        img.pb_info = NULL) →
      (alloc_image_info img sps hp).1.pb_info_stride =
        shiftLeft sps.PicWidthInMinCbsY (sps.Log2MinCbSizeY - 2).toNat) ∧
    (¬ (img.pb_info_size ≠
        shiftLeft sps.PicWidthInMinCbsY (sps.Log2MinCbSizeY - 2).toNat *
          shiftLeft sps.PicHeightInMinCbsY (sps.Log2MinCbSizeY - 2).toNat ∨
        img.pb_info = NULL) →
      (alloc_image_info img sps hp).1.pb_info_stride = img.pb_info_stride) := by
  unfold alloc_image_info
  simp only
  split_ifs <;> simp_all

/-- C20, the code at a failing input: an initialised picture is allocated as
16 x 24 with the parameters of 2 x 3 minimum coding blocks (4 x 6 prediction
units) and then as 24 x 16 with the parameters of 3 x 2 minimum coding blocks
(6 x 4 units). After the first call `pb_info_stride = 4` and
`pb_info_size = 24`, in sync. The second call finds `pb_info_size` equal to
`6 * 4` and skips the update, so `pb_info_stride` is still 4 and not
`PicWidthInMinCbsY << (Log2MinCbSizeY - 2) = 6`, and `pb_info_size = 24` is not
`pb_info_stride * (PicHeightInMinCbsY << (Log2MinCbSizeY - 2)) = 16`;
`cb_info_size` and `intraPredModeSize` are in sync, and the pixel planes were
reallocated with stride 32. -/
theorem alloc_image_stale_pb_info_stride :
    (alloc_sequence [⟨16, 24, de265_chroma.de265_chroma_420, some sps_16x24⟩]
      de265_init_image fresh_heap).1.pb_info_stride = 4 ∧
    (alloc_sequence [⟨16, 24, de265_chroma.de265_chroma_420, some sps_16x24⟩]
      de265_init_image fresh_heap).1.pb_info_size = 24 ∧
    (alloc_sequence [⟨16, 24, de265_chroma.de265_chroma_420, some sps_16x24⟩,
        ⟨24, 16, de265_chroma.de265_chroma_420, some sps_24x16⟩]
      de265_init_image fresh_heap).1.pb_info_stride = 4 ∧
    shiftLeft sps_24x16.PicWidthInMinCbsY (sps_24x16.Log2MinCbSizeY - 2).toNat = 6 ∧
    shiftLeft sps_24x16.PicHeightInMinCbsY (sps_24x16.Log2MinCbSizeY - 2).toNat = 4 ∧
    (alloc_sequence [⟨16, 24, de265_chroma.de265_chroma_420, some sps_16x24⟩,
        ⟨24, 16, de265_chroma.de265_chroma_420, some sps_24x16⟩]
      de265_init_image fresh_heap).1.pb_info_size = 24 ∧
    (alloc_sequence [⟨16, 24, de265_chroma.de265_chroma_420, some sps_16x24⟩,
        ⟨24, 16, de265_chroma.de265_chroma_420, some sps_24x16⟩]
      de265_init_image fresh_heap).1.cb_info_size = 6 ∧
    (alloc_sequence [⟨16, 24, de265_chroma.de265_chroma_420, some sps_16x24⟩,
        ⟨24, 16, de265_chroma.de265_chroma_420, some sps_24x16⟩]
      de265_init_image fresh_heap).1.intraPredModeSize = 24 ∧
    (alloc_sequence [⟨16, 24, de265_chroma.de265_chroma_420, some sps_16x24⟩,
        ⟨24, 16, de265_chroma.de265_chroma_420, some sps_24x16⟩]
      de265_init_image fresh_heap).1.stride = 32 ∧
    (alloc_sequence [⟨16, 24, de265_chroma.de265_chroma_420, some sps_16x24⟩,
        ⟨24, 16, de265_chroma.de265_chroma_420, some sps_24x16⟩]
      de265_init_image fresh_heap).1.width = 24 := by
  refine ⟨by decide, by decide, by decide, by decide, by decide, by decide, by decide,
    by decide, by decide, by decide⟩

end Libde265
